import Mathlib

/-!
# zpl-json: a shallow embedding of `zpl_json.h`

The source buffer is a list of bytes (natural numbers below 256) that ends with the string
terminator; a cursor (`char *`) is an index into it, and a null cursor is `none`.  Every read or
write of the C code is checked against the extent of the buffer: an access outside it aborts the
run with `Abort.fault`.  The three mutually recursive parsers take a recursion bound (`fuel`).
-/

namespace ZplJson

/-- Why a run of the embedded code yields no result: `fault` is an access outside the source
buffer or a scratch array, or a use of a null pointer; `fuel` is an exhausted recursion bound. -/
inductive Abort where
  | fault
  | fuel
deriving DecidableEq, Repr

/-- Runs of the embedded code: a result, or an abort. -/
abbrev Run := Except Abort

/-- The enum `zplj_type_e` (lines 44-52). -/
inductive zplj_type_e where
  | zplj_type_object_ev
  | zplj_type_string_ev
  | zplj_type_multistring_ev
  | zplj_type_array_ev
  | zplj_type_integer_ev
  | zplj_type_real_ev
  | zplj_type_constant_ev
deriving DecidableEq, Repr

/-- The enum `zplj_constant_e` (lines 54-58). -/
inductive zplj_constant_e where
  | zplj_constant_null_ev
  | zplj_constant_false_ev
  | zplj_constant_true_ev
deriving DecidableEq, Repr

/-- The enum `zplj_error_e` (lines 61-65). -/
inductive zplj_error_e where
  | zplj_error_none_ev
  | zplj_error_invalid_name_ev
  | zplj_error_invalid_value_ev
deriving DecidableEq, Repr

/-- The enum `zplj_name_style_e` (lines 67-71). -/
inductive zplj_name_style_e where
  | zplj_name_style_double_quote_ev
  | zplj_name_style_single_quote_ev
  | zplj_name_style_no_quotes_ev
deriving DecidableEq, Repr

open zplj_type_e zplj_constant_e zplj_error_e zplj_name_style_e

/-- The `f64` payload, kept symbolic: floating point arithmetic is not evaluated.  `of_text`
is `zpl_str_to_f64` of the scratch text, then multiplied `muls` times by the step factor `eb`
(`0.1` when `tenth`, else `10`); `inf` and `nan` are the constants of lines 306-325. -/
inductive F64 where
  | of_text (text : List Nat) (tenth : Bool) (muls : Nat)
  | inf (neg : Bool)
  | nan (neg : Bool)
deriving DecidableEq, Repr

/-- The anonymous union of `zplj_object_t` (lines 80-86); `zero` is its zero-initialised state.
`integer v tenth muls` is the value `zpl_str_to_i64` returned, then multiplied `muls` times by
the step factor `eb` (line 411-413). -/
inductive zplj_union (α : Type) where
  | zero
  | string (s : Nat)
  | elements (es : List α)
  | integer (v : Int) (tenth : Bool) (muls : Nat)
  | real (r : F64)
  | constant (c : zplj_constant_e)
deriving Repr

/-- The struct `zplj_object_t` (lines 73-87), without the allocator handle.  `name` is a cursor
into the source buffer (`none` is the null pointer); `nodes` is `none` until `zpl_array_init`
has run on it. -/
structure zplj_object_t where
  name_style : zplj_name_style_e
  name : Option Nat
  type : zplj_type_e
  nodes : Option (List zplj_object_t)
  u : zplj_union zplj_object_t
deriving Repr

/-- A zero-initialised node, `zplj_object_t x = {0}`. -/
def zero_node : zplj_object_t :=
  ⟨zplj_name_style_double_quote_ev, none, zplj_type_object_ev, none, zplj_union.zero⟩

/-- The state the parsers share: the source buffer, mutated in place, and the error slot
`*err_code` (`none` when the caller passed a null `err_code`). -/
structure St where
  buf : List Nat
  err : Option zplj_error_e
deriving DecidableEq, Repr

/-- Read `buf[p]`; outside the buffer it is a fault. -/
def rd (buf : List Nat) (p : Nat) : Run Nat :=
  match buf[p]? with
  | some c => pure c
  | none => throw Abort.fault

/-- Write `buf[p] = v`; outside the buffer it is a fault. -/
def wr (buf : List Nat) (p : Nat) (v : Nat) : Run (List Nat) :=
  if p < buf.length then pure (buf.set p v) else throw Abort.fault

/-- The statement `if (err_code) *err_code = e`. -/
def set_err (st : St) (e : zplj_error_e) : St :=
  { st with err := st.err.map (fun _ => e) }

/-- The test `err_code && *err_code != zplj_error_none_ev`. -/
def has_err (st : St) : Bool :=
  match st.err with
  | some e => decide (e ≠ zplj_error_none_ev)
  | none => false

/-- The bytes of a string literal. -/
def bytes (s : String) : List Nat := s.toList.map Char.toNat

/-- A C string literal: its bytes and the terminator. -/
def cstring (s : String) : List Nat := bytes s ++ [0]

/-! ## Helpers of `zpl.h` -/

/-- Modelled from the spec: `zpl_char_is_space` is declared in `zpl.h`, which is not part of
the sources; it is the whitespace the parsers skip (space, tab, line feed, carriage return,
form feed, vertical tab). -/
def zpl_char_is_space (c : Nat) : Bool :=
  c == 32 || c == 9 || c == 10 || c == 13 || c == 12 || c == 11

/-- Modelled from the spec: `zpl_char_is_digit` (`zpl.h`), an ASCII decimal digit. -/
def zpl_char_is_digit (c : Nat) : Bool := decide (48 ≤ c) && decide (c ≤ 57)

/-- Modelled from the spec: `zpl_char_is_hex_digit` (`zpl.h`), a decimal digit or a letter
`a`-`f`, `A`-`F`. -/
def zpl_char_is_hex_digit (c : Nat) : Bool :=
  zpl_char_is_digit c || (decide (97 ≤ c) && decide (c ≤ 102)) || (decide (65 ≤ c) && decide (c ≤ 70))

/-- Modelled from the spec: `zpl_char_is_alpha` (`zpl.h`), an ASCII letter. -/
def zpl_char_is_alpha (c : Nat) : Bool :=
  (decide (65 ≤ c) && decide (c ≤ 90)) || (decide (97 ≤ c) && decide (c ≤ 122))

/-- Modelled from the spec: `zpl_char_is_alphanumeric` (`zpl.h`), a letter or a digit. -/
def zpl_char_is_alphanumeric (c : Nat) : Bool := zpl_char_is_alpha c || zpl_char_is_digit c

/-- Modelled from the spec: `zpl_strncmp(s1, s2, len) == 0` (`zpl.h`), on the bytes from `s1`
and from `s2` onwards: the first `len` bytes agree, or the strings agree up to a common
terminator before that. -/
def zpl_strncmp_eq : List Nat → List Nat → Nat → Run Bool
  | _, _, 0 => pure true
  | [], _, _ + 1 => throw Abort.fault
  | _ :: _, [], _ + 1 => throw Abort.fault
  | a :: s1, b :: s2, n + 1 =>
    if a ≠ b then pure false
    else if a = 0 then pure true
    else zpl_strncmp_eq s1 s2 n

/-- Modelled from the spec: `zpl_memset(b, v, l)` (`zpl.h`) writes `v` to the `l` bytes from
index `b` on; it is a fault when they do not all lie in the buffer. -/
def zpl_memset (buf : List Nat) (b : Nat) (v : Nat) (l : Nat) : Run (List Nat) :=
  if b + l ≤ buf.length then pure (buf.take b ++ List.replicate l v ++ buf.drop (b + l))
  else throw Abort.fault

/-- Modelled from the spec: `zpl_hex_digit_to_int` (`zpl.h`), the value of a hexadecimal
digit. -/
def zpl_hex_digit_to_int (c : Nat) : Nat :=
  if zpl_char_is_digit c then c - 48
  else if decide (97 ≤ c) && decide (c ≤ 102) then c - 97 + 10
  else if decide (65 ≤ c) && decide (c ≤ 70) then c - 65 + 10
  else 0

/-- Modelled from the spec: the digit loop of `zpl__scan_i64` (`zpl.h`): accumulate the
leading digits of the text in the given base. -/
def scan_digits (base : Nat) : List Nat → Nat → Nat
  | [], acc => acc
  | c :: cs, acc =>
    if zpl_char_is_digit c then scan_digits base cs (acc * base + (c - 48))
    else if base == 16 && zpl_char_is_hex_digit c then
      scan_digits base cs (acc * base + zpl_hex_digit_to_int c)
    else acc

/-- Modelled from the spec: `zpl__scan_i64` (`zpl.h`): an optional `-`, for base 16 an
optional `0x`, then the digits. -/
def zpl__scan_i64 (text : List Nat) (base : Nat) : Int :=
  let neg := text.head? == some 45
  let t1 := if neg then text.drop 1 else text
  let t2 := if base == 16 && t1.take 2 == [48, 120] then t1.drop 2 else t1
  let r : Int := (scan_digits base t2 0 : Nat)
  if neg then -r else r

/-- Modelled from the spec: `zpl_str_to_i64(str, 0, base)` (`zpl.h`) on a terminated text:
base 0 means hexadecimal for a text longer than two bytes that starts with `0x`, else
decimal.  The scratch texts it is called on hold at most 15 bytes, so no 64-bit overflow
arises. -/
def zpl_str_to_i64 (str : List Nat) (base : Nat) : Int :=
  let base :=
    if base == 0 then (if decide (2 < str.length) && str.take 2 == [48, 120] then 16 else 10)
    else base
  zpl__scan_i64 str base

/-! ## Lexical helpers (lines 550-589) -/

/-- The loop of `zplj__trim` on the bytes from `str` on. -/
def trim_scan : List Nat → Nat → Run Nat
  | [], _ => throw Abort.fault
  | c :: rest, str =>
    if c ≠ 0 ∧ zpl_char_is_space c then trim_scan rest (str + 1) else pure str

/-- The function `zplj__trim` (lines 550-556). -/
def zplj__trim (buf : List Nat) (str : Nat) : Run Nat := trim_scan (buf.drop str) str

/-- The function `zplj__is_control_char` (lines 558-561). -/
def zplj__is_control_char (c : Nat) : Bool :=
  c == 34 || c == 92 || c == 47 || c == 98 || c == 102 || c == 110 || c == 114 || c == 116

/-- The loop of `zplj__skip` on the bytes from `str` on; `prev` is `*(str-1)`, absent when
`str` is the first byte of the buffer. -/
def skip_scan (c : Nat) : Option Nat → List Nat → Nat → Run Nat
  | _, [], _ => throw Abort.fault
  | prev, x :: rest, str =>
    if x ≠ 0 ∧ x ≠ c then skip_scan c (some x) rest (str + 1)
    else
      match prev with
      | none => throw Abort.fault
      | some pv =>
        if pv = 92 ∧ x = c ∧ zplj__is_control_char c then skip_scan c (some x) rest (str + 1)
        else pure str

/-- The function `zplj__skip` (lines 583-589). -/
def zplj__skip (buf : List Nat) (str : Nat) (c : Nat) : Run Nat :=
  skip_scan c (if str = 0 then none else buf[str - 1]?) (buf.drop str) str

/-- Read `str[i]` where `s` is the bytes from `str` on. -/
def rdl (s : List Nat) (i : Nat) : Run Nat :=
  match s[i]? with
  | some c => pure c
  | none => throw Abort.fault

/-- The test `jx(1) && jx(2) && jx(3) && jx(4)` of line 571, evaluated left to right;
`s` is the bytes from `str + 1` on. -/
def jx_all (s : List Nat) : Run Bool := do
  let c1 ← rdl s 0
  if zpl_char_is_hex_digit c1 then pure false
  else
    let c2 ← rdl s 1
    if zpl_char_is_hex_digit c2 then pure false
    else
      let c3 ← rdl s 2
      if zpl_char_is_hex_digit c3 then pure false
      else
        let c4 ← rdl s 3
        pure (!zpl_char_is_hex_digit c4)

/-- The loop of `zplj__validate_name` on the bytes from `str` on. -/
def validate_scan : List Nat → Run Bool
  | [] => throw Abort.fault
  | x :: rest =>
    if x = 0 then pure true
    else if x = 92 then do
      let c1 ← rdl rest 0
      if zplj__is_control_char c1 then validate_scan rest
      else
        let bad ← jx_all rest
        if bad then pure false else validate_scan rest
    else validate_scan rest

/-- The function `zplj__validate_name` (lines 568-580); a null `str` is dereferenced. -/
def zplj__validate_name (buf : List Nat) (str : Option Nat) : Run Bool :=
  match str with
  | none => throw Abort.fault
  | some p => validate_scan (buf.drop p)

/-! ## The comment stripping pass of `zplj_parse` (lines 119-179) -/

/-- The inner loop of the block comment branch (lines 154-156), on the bytes from `p` on:
`while (p[0] != '*' && p[1] != '/') ++p`. -/
def block_scan : List Nat → Nat → Run Nat
  | [], _ => throw Abort.fault
  | c :: rest, p =>
    if c = 42 then pure p
    else
      match rest with
      | [] => throw Abort.fault
      | d :: rest1 => if d = 47 then pure p else block_scan (d :: rest1) (p + 1)

/-- The inner loop of the line comment branch (lines 168-170), on the bytes from `p` on:
`while (p[0] != '\n') ++p`. -/
def line_scan : List Nat → Nat → Run Nat
  | [], _ => throw Abort.fault
  | c :: rest, p => if c = 10 then pure p else line_scan rest (p + 1)

/-- The second `if (!is_lit)` block of the stripping loop (lines 147-175), entered with
`is_lit` false: the block comment branch, then the line comment branch at the cursor the
first one left.  Returns the buffer and the cursor before the final `++p`. -/
def strip_comment_at (buf : List Nat) (p : Nat) : Run (List Nat × Nat) := do
  let c0 ← rd buf p
  let isblock ← (if c0 = 47 then do
      let c1 ← rd buf (p + 1)
      pure (decide (c1 = 42))
    else pure false)
  let (buf, p) ← (if isblock then do
      let b := p
      let p1 ← block_scan (buf.drop (p + 2)) (p + 2)
      let p2 := p1 + 2
      let buf1 ← zpl_memset buf b 32 (p2 - b)
      pure (buf1, p2)
    else pure (buf, p))
  let d0 ← rd buf p
  if d0 = 47 ∧ d0 = 47 then do
    let b := p
    let q ← line_scan (buf.drop (p + 2)) (p + 2)
    let q1 := q + 1
    let buf1 ← zpl_memset buf b 32 (q1 - b)
    pure (buf1, q1)
  else pure (buf, p)

/-- The loop `while (*p)` of the stripping pass (lines 126-178). -/
def strip_loop : Nat → List Nat → Nat → Bool → Nat → Run (List Nat)
  | 0, _, _, _, _ => throw Abort.fuel
  | fuel + 1, buf, p, is_lit, lit_c => do
    let c ← rd buf p
    if c = 0 then pure buf
    else if is_lit = false then
      if c = 34 ∨ c = 39 then strip_loop fuel buf (p + 1) true c
      else do
        let (buf1, p1) ← strip_comment_at buf p
        strip_loop fuel buf1 (p1 + 1) false lit_c
    else do
      let esc ← (if c = 92 then do
          let d ← rd buf (p + 1)
          pure (decide (d ≠ 0 ∧ d = lit_c))
        else pure false)
      if esc then strip_loop fuel buf (p + 2) true lit_c
      else if c = lit_c then strip_loop fuel buf (p + 1) false lit_c
      else strip_loop fuel buf (p + 1) true lit_c

/-- The comment stripping pass of `zplj_parse` (lines 119-179).  Every turn of the loop reads
`*p` and moves `p` forward, so `length + 1` turns reach the terminator or a fault. -/
def strip_comments_pass (source : List Nat) : Run (List Nat) :=
  strip_loop (source.length + 1) source 0 false 0

/-! ## The value parser (lines 238-447) -/

/-- The scanning loop of the string branch (lines 251-265), on the bytes from `e` on; `c`
is the quote character.  Returns the buffer and the cursor `e` where the loop stopped. -/
def string_scan (c : Nat) : List Nat → List Nat → Nat → Run (List Nat × Nat)
  | [], _, _ => throw Abort.fault
  | x :: rest, buf, e =>
    if x = 0 then pure (buf, e)
    else if x = 92 then
      match rest with
      | [] => throw Abort.fault
      | y :: rest1 =>
        if y = c then string_scan c rest1 buf (e + 2)
        else if y = 13 ∨ y = 10 then string_scan c (y :: rest1) (buf.set e 32) (e + 1)
        else if x = c then pure (buf, e)
        else string_scan c (y :: rest1) buf (e + 1)
    else if x = c then pure (buf, e)
    else string_scan c rest buf (e + 1)

/-- The scanning loop of the backtick string branch (lines 277-286), on the bytes from `e`
on. -/
def multistring_scan : List Nat → Nat → Run Nat
  | [], _ => throw Abort.fault
  | x :: rest, e =>
    if x = 0 then pure e
    else if x = 92 then
      match rest with
      | [] => throw Abort.fault
      | y :: rest1 =>
        if y = 96 then multistring_scan rest1 (e + 2)
        else if x = 96 then pure e
        else multistring_scan (y :: rest1) (e + 1)
    else if x = 96 then pure e
    else multistring_scan rest (e + 1)

/-- The statement `buf[ib++] = c` on a scratch array of `cap` bytes, whose written part is
`scratch`; outside the array it is a fault. -/
def push (cap : Nat) (scratch : List Nat) (c : Nat) : Run (List Nat) :=
  if scratch.length < cap then pure (scratch ++ [c]) else throw Abort.fault

/-- The loop `while (pred(*e)) buf[ib++] = *e++` (lines 358-361 and 394-396), on the bytes
from `e` on. -/
def copy_while (pred : Nat → Bool) (cap : Nat) : List Nat → List Nat → Nat → Run (List Nat × Nat)
  | [], _, _ => throw Abort.fault
  | x :: rest, scratch, e =>
    if pred x then do
      let s ← push cap scratch x
      copy_while pred cap rest s (e + 1)
    else pure (scratch, e)

/-- The loop `do buf[ib++] = *e; while (zpl_char_is_digit(*++e))` (lines 352-355 and
367-371), on the bytes from `e` on. -/
def copy_fraction (cap : Nat) : List Nat → List Nat → Nat → Run (List Nat × Nat)
  | [], _, _ => throw Abort.fault
  | x :: rest, scratch, e => do
    let s ← push cap scratch x
    copy_while zpl_char_is_digit cap rest s (e + 1)

/-- Reading a zero-initialised scratch array as a C string: it is terminated only when fewer
than `cap` bytes were written. -/
def scratch_text (cap : Nat) (scratch : List Nat) : Run (List Nat) :=
  if scratch.length < cap then pure scratch else throw Abort.fault

/-- The test `x` of the hexadecimal digit run (line 358). -/
def is_run_char (c : Nat) : Bool := zpl_char_is_hex_digit c || c == 120 || c == 88

/-- The number branch of `zplj__parse_value` (lines 335-422). -/
def parse_number (st : St) (obj : zplj_object_t) (p : Nat) :
    Run (St × zplj_object_t × Option Nat) := do
  let e := p
  let c0 ← rd st.buf e
  -- lines 343-346
  let (scratch, e) ← (if c0 = 43 then (pure ([], e + 1) : Run (List Nat × Nat))
    else if c0 = 45 then do
      let s ← push 16 [] c0
      pure (s, e + 1)
    else pure ([], e))
  -- lines 348-377
  let c1 ← rd st.buf e
  let (is_real, scratch, e) ← (if c1 = 46 then do
      let s ← push 16 scratch 48
      let (s, e) ← copy_fraction 16 (st.buf.drop e) s e
      pure (true, s, e)
    else do
      let (s, e) ← copy_while is_run_char 16 (st.buf.drop e) scratch e
      let c2 ← rd st.buf e
      if c2 = 46 then do
        let (s1, e) ← copy_fraction 16 (st.buf.drop e) s e
        let step := s1.length - s.length
        let s2 ← (if step < 2 then push 16 s1 48 else pure s1)
        pure (true, s2, e)
      else pure (false, s, e))
  -- lines 379-401
  let c3 ← rd st.buf e
  let (exp, tenth, e) ← (if c3 = 101 ∨ c3 = 69 then do
      let e := e + 1
      let c4 ← rd st.buf e
      let (expbuf, tenth, e) ← (if c4 = 43 ∨ c4 = 45 ∨ zpl_char_is_digit c4 then do
          let tenth := decide (c4 = 45)
          let e := if zpl_char_is_digit c4 then e else e + 1
          let (s, e) ← copy_while zpl_char_is_digit 6 (st.buf.drop e) [] e
          pure (s, tenth, e)
        else pure ([], false, e))
      let text ← scratch_text 6 expbuf
      pure (zpl_str_to_i64 text 10, tenth, e)
    else pure ((0 : Int), false, e))
  -- lines 403-405
  let c5 ← rd st.buf e
  let st := if c5 = 0 then set_err st zplj_error_invalid_value_ev else st
  -- lines 408-422: `while (--exp > 0)` runs `exp - 1` times
  let muls := (exp - 1).toNat
  let text ← scratch_text 16 scratch
  if is_real then
    pure (st, { obj with type := zplj_type_real_ev,
                         u := zplj_union.real (F64.of_text text tenth muls) }, some e)
  else
    pure (st, { obj with type := zplj_type_integer_ev,
                         u := zplj_union.integer (zpl_str_to_i64 text 0) tenth muls }, some e)

/-- The constant branch of `zplj__parse_value` (lines 292-330); `s` is the bytes from `p`
on. -/
def parse_constant (st : St) (obj : zplj_object_t) (p : Nat) :
    Run (St × zplj_object_t × Option Nat) := do
  let s := st.buf.drop p
  let obj := { obj with type := zplj_type_constant_ev }
  if (← zpl_strncmp_eq s (cstring "true") 4) then
    pure (st, { obj with u := zplj_union.constant zplj_constant_true_ev }, some (p + 4))
  else if (← zpl_strncmp_eq s (cstring "false") 5) then
    pure (st, { obj with u := zplj_union.constant zplj_constant_false_ev }, some (p + 5))
  else if (← zpl_strncmp_eq s (cstring "null") 4) then
    pure (st, { obj with u := zplj_union.constant zplj_constant_null_ev }, some (p + 4))
  else if (← zpl_strncmp_eq s (cstring "Infinity") 8) then
    pure (st, { obj with type := zplj_type_real_ev, u := zplj_union.real (F64.inf false) },
      some (p + 8))
  else if (← zpl_strncmp_eq s (cstring "-Infinity") 9) then
    pure (st, { obj with type := zplj_type_real_ev, u := zplj_union.real (F64.inf true) },
      some (p + 9))
  else if (← zpl_strncmp_eq s (cstring "NaN") 3) then
    pure (st, { obj with type := zplj_type_real_ev, u := zplj_union.real (F64.nan false) },
      some (p + 3))
  else if (← zpl_strncmp_eq s (cstring "-NaN") 4) then
    pure (st, { obj with type := zplj_type_real_ev, u := zplj_union.real (F64.nan true) },
      some (p + 4))
  else
    pure (set_err st zplj_error_invalid_value_ev, obj, none)

/-- The string branch of `zplj__parse_value` (lines 245-268); `c` is the quote at `p`. -/
def parse_string (st : St) (obj : zplj_object_t) (p : Nat) (c : Nat) :
    Run (St × zplj_object_t × Option Nat) := do
  let b := p + 1
  let (buf, e) ← string_scan c (st.buf.drop b) st.buf b
  let buf ← wr buf e 0
  pure ({ st with buf := buf },
    { obj with type := zplj_type_string_ev, u := zplj_union.string b }, some (e + 1))

/-- The backtick string branch of `zplj__parse_value` (lines 271-289). -/
def parse_multistring (st : St) (obj : zplj_object_t) (p : Nat) :
    Run (St × zplj_object_t × Option Nat) := do
  let b := p + 1
  let e ← multistring_scan (st.buf.drop b) b
  let buf ← wr st.buf e 0
  pure ({ st with buf := buf },
    { obj with type := zplj_type_multistring_ev, u := zplj_union.string b }, some (e + 1))

/-- The scanning loop of an unquoted member name (lines 498-501), on the bytes from `e` on,
entered after the first `++e`. -/
def ident_scan : List Nat → Nat → Run Nat
  | [], _ => throw Abort.fault
  | x :: rest, e =>
    if x ≠ 0 ∧ zpl_char_is_alphanumeric x ∧ ¬ zpl_char_is_space x ∧ x ≠ 58 then
      ident_scan rest (e + 1)
    else pure e

/-- Pointer arithmetic `p + 1` on a cursor a parser returned; on a null cursor it is a
fault. -/
def incr (p : Option Nat) : Run (Option Nat) :=
  match p with
  | some q => pure (some (q + 1))
  | none => throw Abort.fault

/-- The call `zplj__trim(p)` on a cursor a parser returned; a null cursor is dereferenced. -/
def trim_cursor (buf : List Nat) (p : Option Nat) : Run Nat :=
  match p with
  | some q => zplj__trim buf q
  | none => throw Abort.fault

/-- What the member name paths of `zplj__parse_object` hand on: the early `return NULL` of
line 485, or the fall through to the name check of line 517 with the cursor `p`. -/
inductive NameStep where
  | ret_null (st : St) (node : zplj_object_t)
  | named (st : St) (node : zplj_object_t) (p : Nat)

/-- The quoted and the unquoted member name paths of `zplj__parse_object` (lines 466-487
and 494-513); `c` is the byte at `p`, which is not `[`. -/
def parse_name (st : St) (node : zplj_object_t) (p : Nat) (c : Nat) : Run NameStep := do
  if c = 34 ∨ c = 39 then
    let node := { node with name_style :=
      if c = 34 then zplj_name_style_double_quote_ev else zplj_name_style_single_quote_ev }
    let b := p + 1
    let e ← zplj__skip st.buf b c
    let node := { node with name := some b }
    let buf ← wr st.buf e 0
    let st := { st with buf := buf }
    let p ← zplj__trim buf (e + 1)
    let d ← rd buf p
    if d ≠ 0 ∧ d ≠ 58 then
      pure (NameStep.ret_null (set_err st zplj_error_invalid_name_ev) node)
    else pure (NameStep.named st node p)
  else if zpl_char_is_alpha c ∨ c = 95 ∨ c = 36 then
    let b := p
    let e ← ident_scan (st.buf.drop (b + 1)) (b + 1)
    let d ← rd st.buf e
    let p ← (if d = 58 then pure e else zplj__skip st.buf e 58)
    let buf ← wr st.buf e 0
    pure (NameStep.named { st with buf := buf }
      { node with name := some b, name_style := zplj_name_style_no_quotes_ev } p)
  else pure (NameStep.named st node p)

/-- How a turn of the loop of `zplj__parse_object` ends (lines 533-545): `continue` at a
cursor, or a `return` of a cursor. -/
inductive Next where
  | continue_at (p : Nat)
  | ret (q : Option Nat)

/-- The end of a turn of the loop of `zplj__parse_object`, after the append at `l_parsed`
(lines 533-545); `q` is the cursor the value parser returned. -/
def member_end (st : St) (q : Option Nat) : Run (St × Next) := do
  let p ← trim_cursor st.buf q
  let d ← rd st.buf p
  if d = 44 then pure (st, Next.continue_at (p + 1))
  else if d = 0 ∨ d = 125 then pure (st, Next.ret (some p))
  else pure (set_err st zplj_error_invalid_value_ev, Next.ret none)

/-- The result of a parser call: the state, the node it filled, the returned cursor. -/
abbrev Parsed := St × zplj_object_t × Option Nat

mutual

/-- The function `zplj__parse_value` (lines 238-447). -/
def zplj__parse_value : Nat → St → zplj_object_t → Nat → Run Parsed
  | 0, _, _, _ => throw Abort.fuel
  | fuel + 1, st, obj, p => do
    let c ← rd st.buf p
    if c = 34 ∨ c = 39 then parse_string st obj p c
    else if c = 96 then parse_multistring st obj p
    else if zpl_char_is_alpha c ∨ (c = 45 ∧ ¬ zpl_char_is_digit c) then parse_constant st obj p
    else if zpl_char_is_digit c ∨ c = 43 ∨ c = 45 ∨ c = 46 then parse_number st obj p
    else if c = 91 then do
      let p ← zplj__trim st.buf (p + 1)
      let d ← rd st.buf p
      if d = 93 then pure (st, obj, some p)
      else do
        let (st, obj, q) ← zplj__parse_array fuel st obj p
        if has_err st then pure (st, obj, none)
        else do
          let q ← incr q
          pure (st, obj, q)
    else if c = 123 then do
      let p ← zplj__trim st.buf (p + 1)
      let (st, obj, q) ← zplj__parse_object fuel st obj p
      if has_err st then pure (st, obj, none)
      else do
        let q ← incr q
        pure (st, obj, q)
    else pure (st, obj, some p)
termination_by structural fuel => fuel

/-- The function `zplj__parse_array` (lines 205-236): the initialisation, then the loop. -/
def zplj__parse_array : Nat → St → zplj_object_t → Nat → Run Parsed
  | 0, _, _, _ => throw Abort.fuel
  | fuel + 1, st, obj, p =>
    parse_array_loop fuel st
      { obj with type := zplj_type_array_ev, u := zplj_union.elements [] } [] p
termination_by structural fuel => fuel

/-- The loop `while (*p)` of `zplj__parse_array` (lines 213-235); `elems` is the contents of
`obj->elements`. -/
def parse_array_loop : Nat → St → zplj_object_t → List zplj_object_t → Nat → Run Parsed
  | 0, _, _, _, _ => throw Abort.fuel
  | fuel + 1, st, obj, elems, p => do
    let c ← rd st.buf p
    if c = 0 then pure (st, { obj with u := zplj_union.elements elems }, some p)
    else do
      let p ← zplj__trim st.buf p
      let (st, elem, q) ← zplj__parse_value fuel st zero_node p
      if has_err st then pure (st, { obj with u := zplj_union.elements elems }, none)
      else do
        let elems := elems ++ [elem]
        let p ← trim_cursor st.buf q
        let d ← rd st.buf p
        if d = 44 then parse_array_loop fuel st obj elems (p + 1)
        else pure (st, { obj with u := zplj_union.elements elems }, some p)
termination_by structural fuel => fuel

/-- The function `zplj__parse_object` (lines 449-548): the initialisation, then the loop. -/
def zplj__parse_object : Nat → St → zplj_object_t → Nat → Run Parsed
  | 0, _, _, _ => throw Abort.fuel
  | fuel + 1, st, obj, p => do
    let p ← zplj__trim st.buf p
    let c ← rd st.buf p
    let p := if c = 123 then p + 1 else p
    parse_object_loop fuel st obj [] p
termination_by structural fuel => fuel

/-- The loop `while (*p)` of `zplj__parse_object` (lines 461-547); `nodes` is the contents of
`obj->nodes`. -/
def parse_object_loop : Nat → St → zplj_object_t → List zplj_object_t → Nat → Run Parsed
  | 0, _, _, _, _ => throw Abort.fuel
  | fuel + 1, st, obj, nodes, p => do
    let c ← rd st.buf p
    if c = 0 then pure (st, { obj with nodes := some nodes }, some p)
    else do
      let p ← zplj__trim st.buf p
      let c ← rd st.buf p
      if c = 125 then pure (st, { obj with nodes := some nodes }, some p)
      else do
        -- lines 466-527: `inl` is a `return NULL`, `inr` arrives at `l_parsed`;
        -- a `[` is no quote, so the bare array path of line 489 is tested first
        let r ← (if c = 91 then do
            let (st, node, q) ← zplj__parse_value fuel st { zero_node with name := none } p
            pure (Sum.inr (st, node, q))
          else do
            match (← parse_name st zero_node p c) with
            | NameStep.ret_null st _ => pure (Sum.inl st)
            | NameStep.named st node p =>
              if (← zplj__validate_name st.buf node.name) = false then
                pure (Sum.inl (set_err st zplj_error_invalid_name_ev))
              else do
                let p ← zplj__trim st.buf (p + 1)
                let (st, node, q) ← zplj__parse_value fuel st node p
                if has_err st then pure (Sum.inl st) else pure (Sum.inr (st, node, q)))
        match r with
        | Sum.inl st => pure (st, { obj with nodes := some nodes }, none)
        | Sum.inr (st, node, q) =>
          let nodes := nodes ++ [node]
          match (← member_end st q) with
          | (st, Next.continue_at p) => parse_object_loop fuel st obj nodes p
          | (st, Next.ret q) => pure (st, { obj with nodes := some nodes }, q)
termination_by structural fuel => fuel

end

/-- The function `zplj_parse` (lines 113-186).  `err_code` is the caller's error slot (`none`
for a null pointer); the result is the final state and `*root`. -/
def zplj_parse (fuel : Nat) (source : List Nat) (strip_comments : Bool)
    (err_code : Option zplj_error_e) : Run (St × zplj_object_t) := do
  let dest ← (if strip_comments then strip_comments_pass source else pure source)
  let st : St := ⟨dest, err_code.map (fun _ => zplj_error_none_ev)⟩
  let (st, root_, _) ← zplj__parse_object fuel st zero_node 0
  pure (st, root_)

/-! ## The documents of the form `{"k1": v1, ..., "kn": vn}` -/

mutual

/-- A value of such a document: a decimal integer given by its digits, `true`, `false`,
`null`, a quoted string given by its bytes, or a bracketed array of such values. -/
inductive JVal where
  | int (digits : List Nat)
  | jtrue
  | jfalse
  | jnull
  | str (s : List Nat)
  | arr (vs : JVals)

/-- The values of an array, in source order. -/
inductive JVals where
  | nil
  | cons (v : JVal) (vs : JVals)

end

/-- A byte that may stand in a key or in a quoted string: not the terminator, not the double
quote, not the backslash. -/
def plain_byte (c : Nat) : Prop := c ≠ 0 ∧ c ≠ 34 ∧ c ≠ 92

mutual

/-- The text of a value. -/
def render : JVal → List Nat
  | JVal.int ds => ds
  | JVal.jtrue => [116, 114, 117, 101]
  | JVal.jfalse => [102, 97, 108, 115, 101]
  | JVal.jnull => [110, 117, 108, 108]
  | JVal.str s => 34 :: (s ++ [34])
  | JVal.arr vs => 91 :: (render_elems vs ++ [93])

/-- The text of the values of an array, separated by a comma and a space. -/
def render_elems : JVals → List Nat
  | JVals.nil => []
  | JVals.cons v vs => render v ++ render_tail vs

/-- The text of the values after the first one, each preceded by a comma and a space. -/
def render_tail : JVals → List Nat
  | JVals.nil => []
  | JVals.cons v vs => 44 :: 32 :: (render v ++ render_tail vs)

end

mutual

/-- The text of a value after the parse: the closing quote of every string is overwritten
with the terminator. -/
def parsed_text : JVal → List Nat
  | JVal.int ds => ds
  | JVal.jtrue => [116, 114, 117, 101]
  | JVal.jfalse => [102, 97, 108, 115, 101]
  | JVal.jnull => [110, 117, 108, 108]
  | JVal.str s => 34 :: (s ++ [0])
  | JVal.arr vs => 91 :: (parsed_elems vs ++ [93])

/-- The text of the values of an array after the parse. -/
def parsed_elems : JVals → List Nat
  | JVals.nil => []
  | JVals.cons v vs => parsed_text v ++ parsed_tail vs

/-- The text of the values after the first one, after the parse. -/
def parsed_tail : JVals → List Nat
  | JVals.nil => []
  | JVals.cons v vs => 44 :: 32 :: (parsed_text v ++ parsed_tail vs)

end

mutual

/-- The values the claim is about: an integer has 1 to 15 decimal digits, a string has only
plain bytes, an array is not empty. -/
def wf_val : JVal → Prop
  | JVal.int ds => ds ≠ [] ∧ ds.length ≤ 15 ∧ ∀ d ∈ ds, zpl_char_is_digit d = true
  | JVal.jtrue => True
  | JVal.jfalse => True
  | JVal.jnull => True
  | JVal.str s => ∀ c ∈ s, plain_byte c
  | JVal.arr vs => vs ≠ JVals.nil ∧ wf_vals vs

/-- Every value of the array is one the claim is about. -/
def wf_vals : JVals → Prop
  | JVals.nil => True
  | JVals.cons v vs => wf_val v ∧ wf_vals vs

end

mutual

/-- A recursion bound that suffices for the value parser on a value. -/
def val_fuel : JVal → Nat
  | JVal.int _ => 1
  | JVal.jtrue => 1
  | JVal.jfalse => 1
  | JVal.jnull => 1
  | JVal.str _ => 1
  | JVal.arr vs => 2 + vals_fuel vs

/-- A recursion bound that suffices for the array loop on the values. -/
def vals_fuel : JVals → Nat
  | JVals.nil => 0
  | JVals.cons v vs => 1 + val_fuel v + vals_fuel vs

end

/-- The number a run of decimal digits denotes. -/
def decimal (ds : List Nat) : Nat := ds.foldl (fun a d => a * 10 + (d - 48)) 0

/-- The C string at cursor `p`: the bytes from `p` up to the next terminator. -/
def cstr_at (buf : List Nat) (p : Nat) : List Nat := (buf.drop p).takeWhile (fun c => c != 0)

mutual

/-- The node `n`, read against the buffer `buf`, is the value `v`: it has the kind of `v`
and its payload (the integer, the constant, the string the payload points to, the elements in
order). -/
def node_is (buf : List Nat) (n : zplj_object_t) : JVal → Prop
  | JVal.int ds =>
    n.type = zplj_type_integer_ev ∧ n.u = zplj_union.integer (decimal ds) false 0
  | JVal.jtrue =>
    n.type = zplj_type_constant_ev ∧ n.u = zplj_union.constant zplj_constant_true_ev
  | JVal.jfalse =>
    n.type = zplj_type_constant_ev ∧ n.u = zplj_union.constant zplj_constant_false_ev
  | JVal.jnull =>
    n.type = zplj_type_constant_ev ∧ n.u = zplj_union.constant zplj_constant_null_ev
  | JVal.str s =>
    n.type = zplj_type_string_ev ∧ ∃ b, n.u = zplj_union.string b ∧ cstr_at buf b = s
  | JVal.arr vs =>
    n.type = zplj_type_array_ev ∧ ∃ es, n.u = zplj_union.elements es ∧ elems_are buf es vs

/-- The nodes `es` are the values `vs`, one node per value, in order, none with a name. -/
def elems_are (buf : List Nat) (es : List zplj_object_t) : JVals → Prop
  | JVals.nil => es = []
  | JVals.cons v vs =>
    ∃ n ns, es = n :: ns ∧ n.name = none ∧ node_is buf n v ∧ elems_are buf ns vs

end

/-- A member: its key (the bytes between the quotes) and its value. -/
abbrev Member := List Nat × JVal

/-- The text of a member, `"k": v`. -/
def render_member (m : Member) : List Nat := 34 :: (m.1 ++ 34 :: 58 :: 32 :: render m.2)

/-- The text of a member after the parse: the closing quote of the key is overwritten with
the terminator. -/
def parsed_member (m : Member) : List Nat := 34 :: (m.1 ++ 0 :: 58 :: 32 :: parsed_text m.2)

/-- The text of the members after the first one, each preceded by a comma and a space. -/
def render_rest : List Member → List Nat
  | [] => []
  | m :: ms => 44 :: 32 :: (render_member m ++ render_rest ms)

/-- The text of the members after the first one, after the parse. -/
def parsed_rest : List Member → List Nat
  | [] => []
  | m :: ms => 44 :: 32 :: (parsed_member m ++ parsed_rest ms)

/-- The document `{"k1": v1, ..., "kn": vn}` with its terminator. -/
def render_doc (m : Member) (ms : List Member) : List Nat :=
  123 :: (render_member m ++ (render_rest ms ++ [125, 0]))

/-- The members the claim is about: plain bytes in the key, a value the claim is about. -/
def wf_member (m : Member) : Prop := (∀ c ∈ m.1, plain_byte c) ∧ wf_val m.2

/-- A recursion bound that suffices for the object loop on the members. -/
def members_fuel : List Member → Nat
  | [] => 0
  | m :: ms => 1 + val_fuel m.2 + members_fuel ms

/-- The nodes are the members, one node per member, in order: each has the member's key as
its name, written in double quotes, and is the member's value. -/
def members_are (buf : List Nat) : List zplj_object_t → List Member → Prop
  | [], [] => True
  | n :: ns, m :: ms =>
    n.name_style = zplj_name_style_double_quote_ev ∧
    (∃ b, n.name = some b ∧ cstr_at buf b = m.1) ∧
    node_is buf n m.2 ∧ members_are buf ns ms
  | _, _ => False

/-! ## Documents with a member value that starts no value -/

/-- What the value parser does on the text of a value `v` that a closing byte `t` follows:
it returns a node that is `v`, with the name of the node it was given, and the cursor after
the text; the text has become `parsed_text v`. -/
def value_parsed (fuel : Nat) (v : JVal) : Prop :=
  ∀ (pre suf : List Nat) (t : Nat) (base : zplj_object_t) (p : Nat),
    p = pre.length → (t = 44 ∨ t = 93 ∨ t = 125) →
    ∃ node,
      zplj__parse_value fuel ⟨pre ++ (render v ++ t :: suf), some zplj_error_none_ev⟩ base p =
        Except.ok (⟨pre ++ (parsed_text v ++ t :: suf), some zplj_error_none_ev⟩, node,
          some (p + (parsed_text v).length)) ∧
      node.name = base.name ∧ node.name_style = base.name_style ∧
      ∀ pre1 suf1 : List Nat, pre1.length = pre.length →
        node_is (pre1 ++ (parsed_text v ++ suf1)) node v

/-- What the array loop does on the text of the values `vs`, entered at the blanks `ws` before
the first of them: it appends one node per value and returns the cursor on the closing
bracket. -/
def elems_parsed (fuel : Nat) (vs : JVals) : Prop :=
  ∀ (pre ws suf : List Nat) (obj : zplj_object_t) (acc : List zplj_object_t) (p : Nat),
    p = pre.length → (ws = [] ∨ ws = [32]) →
    ∃ es,
      parse_array_loop fuel
          ⟨pre ++ (ws ++ (render_elems vs ++ 93 :: suf)), some zplj_error_none_ev⟩ obj acc p =
        Except.ok (⟨pre ++ (ws ++ (parsed_elems vs ++ 93 :: suf)), some zplj_error_none_ev⟩,
          { obj with u := zplj_union.elements (acc ++ es) },
          some (p + ws.length + (parsed_elems vs).length)) ∧
      ∀ pre1 suf1 : List Nat, pre1.length = pre.length →
        elems_are (pre1 ++ (ws ++ (parsed_elems vs ++ suf1))) es vs


/-- Text in which the stripping pass finds nothing to blank: outside literals no terminator,
no quote and no slash; every literal in double quotes, of plain bytes. -/
inductive Clean : List Nat → Prop where
  | nil : Clean []
  | plain (c : Nat) (s : List Nat) : c ≠ 0 → c ≠ 34 → c ≠ 39 → c ≠ 47 → Clean s → Clean (c :: s)
  | lit (body s : List Nat) : (∀ x ∈ body, plain_byte x) → Clean s →
      Clean (34 :: (body ++ 34 :: s))

/-! ## The tree lifecycle: `zplj_free` (lines 188-203) -/

/-- Modelled from the spec: the growable-sequence collaborator (`zpl_array_count` and
`zpl_array_free` of `zpl.h`) works on a sequence that `zpl_array_init` has set up; on a null
sequence the count is read in front of a null pointer, a fault. -/
def zpl_array_of (seq : Option (List zplj_object_t)) : Run (List zplj_object_t) :=
  match seq with
  | some xs => pure xs
  | none => throw Abort.fault

/-- The member `elements` of the union of a node: a sequence only when the union holds one. -/
def elements_of (u : zplj_union zplj_object_t) : Option (List zplj_object_t) :=
  match u with
  | zplj_union.elements es => some es
  | _ => none

mutual

/-- The function `zplj_free` (lines 188-203).  The third argument is the log of the sequences
handed to `zpl_array_free` so far, in the order of the calls; the result is the log after the
call. -/
def zplj_free : Nat → zplj_object_t → List (List zplj_object_t) →
    Run (List (List zplj_object_t))
  | 0, _, _ => throw Abort.fuel
  | fuel + 1, obj, log =>
    if obj.type = zplj_type_array_ev then do
      let es ← zpl_array_of (elements_of obj.u)
      let log ← free_each fuel es log
      pure (log ++ [es])
    else if obj.type = zplj_type_object_ev then do
      let ns ← zpl_array_of obj.nodes
      let log ← free_each fuel ns log
      pure (log ++ [ns])
    else pure log
termination_by structural fuel => fuel

/-- The loops `for (i = 0; i < zpl_array_count(xs); ++i) zplj_free(xs+i)` of lines 190-192 and
197-199. -/
def free_each : Nat → List zplj_object_t → List (List zplj_object_t) →
    Run (List (List zplj_object_t))
  | 0, _, _ => throw Abort.fuel
  | _ + 1, [], log => pure log
  | fuel + 1, x :: xs, log => do
    let log ← zplj_free fuel x log
    free_each fuel xs log
termination_by structural fuel => fuel

end

/-! ## Hexadecimal integers -/

/-- The value of a hexadecimal digit character: `0`-`9` are 0 to 9, `A`-`F` and `a`-`f` are
10 to 15. -/
def hex_value (c : Nat) : Nat :=
  if c ≤ 57 then c - 48 else if c ≤ 70 then c - 55 else c - 87

/-- The number a text of hexadecimal digits denotes in base 16. -/
def hexadecimal (hs : List Nat) : Nat := hs.foldl (fun a d => a * 16 + hex_value d) 0

/-! ## Quoted strings -/

/-- The texts that can stand between the quotes of a string value with quote character `q`:
a sequence of escape pairs (a backslash and `q`) and of single bytes other than `q` and the
terminator, where a backslash that starts no pair is not the last byte (the closing quote
would make it a pair). -/
def string_body (q : Nat) : List Nat → Bool
  | [] => true
  | [x] => x != 0 && x != q && x != 92
  | x :: y :: s =>
    x != 0 && x != q &&
      (if x == 92 && y == q then string_body q s else string_body q (y :: s))

/-- A text with every backslash that a line break directly follows replaced by a space. -/
def blank_continuations : List Nat → List Nat
  | [] => []
  | [x] => [x]
  | x :: y :: s =>
    (if x = 92 ∧ (y = 13 ∨ y = 10) then 32 else x) :: blank_continuations (y :: s)

/-! ## Names in a tree -/

/-- The children of a node `n`: the members of its sequence `nodes`, and the elements of the
sequence `elements` of its union. -/
inductive Child (n : zplj_object_t) : zplj_object_t → Prop where
  | member (ns : List zplj_object_t) (c : zplj_object_t) :
      n.nodes = some ns → c ∈ ns → Child n c
  | element (es : List zplj_object_t) (c : zplj_object_t) :
      n.u = zplj_union.elements es → c ∈ es → Child n c

/-- The nodes of the tree under `root`: the root, and the children of its nodes. -/
inductive InTree (root : zplj_object_t) : zplj_object_t → Prop where
  | root : InTree root root
  | step (n c : zplj_object_t) : InTree root n → Child n c → InTree root c

/-- The invariant of the trees the parsers build, at a node and all nodes under it: a node
with a sequence `nodes` is of kind Object; the union holds `elements` exactly in the nodes of
kind Array, and no element has a name. -/
inductive NamesOk : zplj_object_t → Prop where
  | mk (n : zplj_object_t) :
      (∀ ns, n.nodes = some ns → n.type = zplj_type_object_ev) →
      (∀ ns, n.nodes = some ns → ∀ c ∈ ns, NamesOk c) →
      (∀ es, n.u = zplj_union.elements es → n.type = zplj_type_array_ev) →
      (∀ es, n.u = zplj_union.elements es → ∀ c ∈ es, c.name = none) →
      (∀ es, n.u = zplj_union.elements es → ∀ c ∈ es, NamesOk c) →
      (n.type = zplj_type_array_ev → ∃ es, n.u = zplj_union.elements es) →
      NamesOk n

/-! ## Basic facts about runs and buffer accesses -/

@[simp] theorem ok_bind {α β : Type} (a : α) (f : α → Run β) : (Except.ok a >>= f) = f a := rfl

@[simp] theorem error_bind {α β : Type} (e : Abort) (f : α → Run β) :
    ((Except.error e : Run α) >>= f) = Except.error e := rfl

@[simp] theorem pure_eq_ok {α : Type} (a : α) : (pure a : Run α) = Except.ok a := rfl

@[simp] theorem throw_eq_error {α : Type} (e : Abort) : (throw e : Run α) = Except.error e := rfl

theorem rd_eq {buf : List Nat} {p c : Nat} (h : buf[p]? = some c) : rd buf p = Except.ok c := by
  simp [rd, h]

theorem drop_eq_cons {buf : List Nat} {p c : Nat} (h : buf[p]? = some c) :
    buf.drop p = c :: buf.drop (p + 1) := by
  have hp : p < buf.length := by
    by_contra hc
    have : buf[p]? = none := List.getElem?_eq_none (by omega)
    simp [this] at h
  rw [List.getElem?_eq_getElem hp] at h
  cases h
  exact List.drop_eq_getElem_cons hp

/-! ## Scanning lemmas -/

theorem rd_at (pre : List Nat) (c : Nat) (s : List Nat) (p : Nat) (hp : p = pre.length) :
    rd (pre ++ c :: s) p = Except.ok c := by
  subst hp
  have : (pre ++ c :: s)[pre.length]? = some c := by
    rw [List.getElem?_append_right (Nat.le_refl _)]
    simp
  simp [rd, this]

theorem drop_at (pre s : List Nat) (p : Nat) (hp : p = pre.length) :
    (pre ++ s).drop p = s := by
  subst hp
  simp

theorem wr_at (pre : List Nat) (x : Nat) (s : List Nat) (p v : Nat) (hp : p = pre.length) :
    wr (pre ++ x :: s) p v = Except.ok (pre ++ v :: s) := by
  subst hp
  simp [wr]

theorem trim_scan_stop (c : Nat) (s : List Nat) (p : Nat)
    (hc : zpl_char_is_space c = false) : trim_scan (c :: s) p = Except.ok p := by
  simp [trim_scan, hc]

theorem trim_scan_spaces (ws : List Nat) (c : Nat) (s : List Nat) (p : Nat)
    (hws : ∀ w ∈ ws, zpl_char_is_space w = true) (hc : zpl_char_is_space c = false) :
    trim_scan (ws ++ c :: s) p = Except.ok (p + ws.length) := by
  induction ws generalizing p with
  | nil => simp [trim_scan, hc]
  | cons w ws ih =>
    have hw : zpl_char_is_space w = true := hws w (by simp)
    have hw0 : w ≠ 0 := by
      intro h; subst h; simp [zpl_char_is_space] at hw
    have := ih (p + 1) (fun x hx => hws x (by simp [hx]))
    simp [trim_scan, hw, hw0, this]
    omega

theorem trim_at (pre ws : List Nat) (c : Nat) (s : List Nat) (p : Nat) (hp : p = pre.length)
    (hws : ∀ w ∈ ws, zpl_char_is_space w = true) (hc : zpl_char_is_space c = false) :
    zplj__trim (pre ++ (ws ++ c :: s)) p = Except.ok (p + ws.length) := by
  rw [zplj__trim, drop_at pre _ p hp]
  exact trim_scan_spaces ws c s p hws hc

theorem trim_at_nonspace (pre : List Nat) (c : Nat) (s : List Nat) (p : Nat)
    (hp : p = pre.length) (hc : zpl_char_is_space c = false) :
    zplj__trim (pre ++ c :: s) p = Except.ok p := by
  have := trim_at pre [] c s p hp (by simp) hc
  simpa using this

/-! ## The key of a member -/

theorem skip_scan_plain (k : List Nat) (s : List Nat) (prev : Option Nat) (p : Nat)
    (hk : ∀ c ∈ k, plain_byte c) (hprev : prev ≠ none ∧ prev ≠ some 92) :
    skip_scan 34 prev (k ++ 34 :: s) p = Except.ok (p + k.length) := by
  induction k generalizing prev p with
  | nil =>
    obtain ⟨h1, h2⟩ := hprev
    cases prev with
    | none => exact absurd rfl h1
    | some pv =>
      have : pv ≠ 92 := fun h => h2 (by rw [h])
      simp [skip_scan, this]
  | cons x k ih =>
    obtain ⟨hx0, hx1, hx2⟩ := hk x (by simp)
    have := ih (some x) (p + 1) (fun c hc => hk c (by simp [hc]))
      ⟨by simp, by simpa using hx2⟩
    simp [skip_scan, hx0, hx1, this]
    omega

theorem skip_at (pre k s : List Nat) (p : Nat) (hp : p = pre.length + 1)
    (hk : ∀ c ∈ k, plain_byte c) :
    zplj__skip (pre ++ 34 :: (k ++ 34 :: s)) p 34 = Except.ok (p + k.length) := by
  subst hp
  have hd : (pre ++ 34 :: (k ++ 34 :: s)).drop (pre.length + 1) = k ++ 34 :: s := by
    have : pre ++ 34 :: (k ++ 34 :: s) = (pre ++ [34]) ++ (k ++ 34 :: s) := by simp
    rw [this]
    exact drop_at _ _ _ (by simp)
  have hg : (pre ++ 34 :: (k ++ 34 :: s))[pre.length]? = some 34 := by
    rw [List.getElem?_append_right (Nat.le_refl _)]
    simp
  rw [zplj__skip, hd]
  simp only [Nat.add_one_ne_zero, if_false, Nat.add_sub_cancel, hg]
  exact skip_scan_plain k s (some 34) _ hk ⟨by simp, by simp⟩

theorem validate_scan_plain (k s : List Nat) (hk : ∀ c ∈ k, plain_byte c) :
    validate_scan (k ++ 0 :: s) = Except.ok true := by
  induction k with
  | nil => simp [validate_scan]
  | cons x k ih =>
    obtain ⟨hx0, _, hx2⟩ := hk x (by simp)
    have := ih (fun c hc => hk c (by simp [hc]))
    simp [validate_scan, hx0, hx2, this]

theorem cstr_at_mid (pre k s : List Nat) (p : Nat) (hp : p = pre.length)
    (hk : ∀ c ∈ k, c ≠ 0) : cstr_at (pre ++ (k ++ 0 :: s)) p = k := by
  rw [cstr_at, drop_at pre _ p hp]
  induction k with
  | nil => simp
  | cons x k ih =>
    have hx := hk x (by simp)
    have := ih (fun c hc => hk c (by simp [hc]))
    simp [List.takeWhile_cons, hx, this]

/-- The quoted name path on `"k":`: the name is `k`, the closing quote is overwritten, the
cursor is on the colon. -/
theorem parse_name_quoted (pre k s : List Nat) (e : Option zplj_error_e) (p : Nat)
    (hp : p = pre.length) (hk : ∀ c ∈ k, plain_byte c) :
    parse_name ⟨pre ++ 34 :: (k ++ 34 :: 58 :: s), e⟩ zero_node p 34 =
      Except.ok (NameStep.named ⟨pre ++ 34 :: (k ++ 0 :: 58 :: s), e⟩
        { zero_node with name := some (p + 1) } (p + k.length + 2)) := by
  have h1 := skip_at pre k (58 :: s) (p + 1) (by omega) hk
  have h2 : wr (pre ++ 34 :: (k ++ 34 :: 58 :: s)) (p + 1 + k.length) 0 =
      Except.ok (pre ++ 34 :: (k ++ 0 :: 58 :: s)) := by
    have := wr_at (pre ++ 34 :: k) 34 (58 :: s) (p + 1 + k.length) 0 (by simp; omega)
    simpa using this
  have h3 : zplj__trim (pre ++ 34 :: (k ++ 0 :: 58 :: s)) (p + 1 + k.length + 1) =
      Except.ok (p + 1 + k.length + 1) := by
    have := trim_at_nonspace (pre ++ 34 :: (k ++ [0])) 58 s (p + 1 + k.length + 1)
      (by simp; omega) (by decide)
    simpa using this
  have h4 : rd (pre ++ 34 :: (k ++ 0 :: 58 :: s)) (p + 1 + k.length + 1) = Except.ok 58 := by
    have := rd_at (pre ++ 34 :: (k ++ [0])) 58 s (p + 1 + k.length + 1) (by simp; omega)
    simpa using this
  simp [parse_name, h1, h2, h3, h4, zero_node]
  omega

/-! ## Scalar values -/

theorem string_scan_plain (s t : List Nat) (buf : List Nat) (e : Nat)
    (hs : ∀ c ∈ s, plain_byte c) :
    string_scan 34 (s ++ 34 :: t) buf e = Except.ok (buf, e + s.length) := by
  induction s generalizing e with
  | nil =>
    rw [List.nil_append, string_scan.eq_def]
    simp
  | cons x s ih =>
    obtain ⟨hx0, hx1, hx2⟩ := hs x (by simp)
    have := ih (e + 1) (fun c hc => hs c (by simp [hc]))
    rw [List.cons_append, string_scan.eq_def]
    simp [hx0, hx1, hx2, this]
    omega

/-- The value parser on a quoted string of plain bytes. -/
theorem parse_value_str (fuel : Nat) (pre s suf : List Nat) (e : Option zplj_error_e)
    (base : zplj_object_t) (p : Nat) (hp : p = pre.length) (hs : ∀ c ∈ s, plain_byte c) :
    zplj__parse_value (fuel + 1) ⟨pre ++ (34 :: (s ++ [34]) ++ suf), e⟩ base p =
      Except.ok (⟨pre ++ (34 :: (s ++ [0]) ++ suf), e⟩,
        { base with type := zplj_type_string_ev, u := zplj_union.string (p + 1) },
        some (p + (s.length + 2))) := by
  have h0 := rd_at pre 34 (s ++ 34 :: suf) p hp
  have h1 : (pre ++ 34 :: (s ++ 34 :: suf)).drop (p + 1) = s ++ 34 :: suf := by
    have := drop_at (pre ++ [34]) (s ++ 34 :: suf) (p + 1) (by simp; omega)
    simpa using this
  have h2 : wr (pre ++ 34 :: (s ++ 34 :: suf)) (p + 1 + s.length) 0 =
      Except.ok (pre ++ 34 :: (s ++ 0 :: suf)) := by
    have := wr_at (pre ++ 34 :: s) 34 suf (p + 1 + s.length) 0 (by simp; omega)
    simpa using this
  rw [zplj__parse_value]
  simp [h0, parse_string, h1, string_scan_plain s suf _ _ hs, h2]
  omega

theorem parse_value_true (fuel : Nat) (pre suf : List Nat) (e : Option zplj_error_e)
    (base : zplj_object_t) (p : Nat) (hp : p = pre.length) :
    zplj__parse_value (fuel + 1) ⟨pre ++ ([116, 114, 117, 101] ++ suf), e⟩ base p =
      Except.ok (⟨pre ++ ([116, 114, 117, 101] ++ suf), e⟩,
        { base with type := zplj_type_constant_ev,
                    u := zplj_union.constant zplj_constant_true_ev },
        some (p + 4)) := by
  have h0 := rd_at pre 116 ([114, 117, 101] ++ suf) p hp
  have h1 := drop_at pre ([116, 114, 117, 101] ++ suf) p hp
  rw [zplj__parse_value]
  simp at h0 h1
  simp [h0, h1, zpl_char_is_alpha, parse_constant, cstring, bytes, zpl_strncmp_eq]

theorem parse_value_false (fuel : Nat) (pre suf : List Nat) (e : Option zplj_error_e)
    (base : zplj_object_t) (p : Nat) (hp : p = pre.length) :
    zplj__parse_value (fuel + 1) ⟨pre ++ ([102, 97, 108, 115, 101] ++ suf), e⟩ base p =
      Except.ok (⟨pre ++ ([102, 97, 108, 115, 101] ++ suf), e⟩,
        { base with type := zplj_type_constant_ev,
                    u := zplj_union.constant zplj_constant_false_ev },
        some (p + 5)) := by
  have h0 := rd_at pre 102 ([97, 108, 115, 101] ++ suf) p hp
  have h1 := drop_at pre ([102, 97, 108, 115, 101] ++ suf) p hp
  rw [zplj__parse_value]
  simp at h0 h1
  simp [h0, h1, zpl_char_is_alpha, parse_constant, cstring, bytes, zpl_strncmp_eq]

theorem parse_value_null (fuel : Nat) (pre suf : List Nat) (e : Option zplj_error_e)
    (base : zplj_object_t) (p : Nat) (hp : p = pre.length) :
    zplj__parse_value (fuel + 1) ⟨pre ++ ([110, 117, 108, 108] ++ suf), e⟩ base p =
      Except.ok (⟨pre ++ ([110, 117, 108, 108] ++ suf), e⟩,
        { base with type := zplj_type_constant_ev,
                    u := zplj_union.constant zplj_constant_null_ev },
        some (p + 4)) := by
  have h0 := rd_at pre 110 ([117, 108, 108] ++ suf) p hp
  have h1 := drop_at pre ([110, 117, 108, 108] ++ suf) p hp
  rw [zplj__parse_value]
  simp at h0 h1
  simp [h0, h1, zpl_char_is_alpha, parse_constant, cstring, bytes, zpl_strncmp_eq]

/-! ## Integers -/

theorem copy_while_run (pred : Nat → Bool) (cap : Nat) (ds : List Nat) (t : Nat)
    (s acc : List Nat) (e : Nat) (hds : ∀ d ∈ ds, pred d = true) (ht : pred t = false)
    (hcap : acc.length + ds.length ≤ cap) :
    copy_while pred cap (ds ++ t :: s) acc e = Except.ok (acc ++ ds, e + ds.length) := by
  induction ds generalizing acc e with
  | nil => simp [copy_while, ht]
  | cons d ds ih =>
    have hd := hds d (by simp)
    have hlen : acc.length < cap := by simp at hcap; omega
    have := ih (acc ++ [d]) (e + 1) (fun x hx => hds x (by simp [hx]))
      (by simp at hcap ⊢; omega)
    simp [copy_while, hd, push, hlen, this]
    omega

theorem scan_digits_decimal (ds : List Nat) (acc : Nat)
    (hds : ∀ d ∈ ds, zpl_char_is_digit d = true) :
    scan_digits 10 ds acc = ds.foldl (fun a d => a * 10 + (d - 48)) acc := by
  induction ds generalizing acc with
  | nil => simp [scan_digits]
  | cons d ds ih =>
    have hd := hds d (by simp)
    simp [scan_digits, hd, ih _ (fun x hx => hds x (by simp [hx]))]

theorem str_to_i64_decimal (ds : List Nat) (hds : ∀ d ∈ ds, zpl_char_is_digit d = true) :
    zpl_str_to_i64 ds 0 = (decimal ds : Int) := by
  have hbase : (decide (2 < ds.length) && ds.take 2 == [48, 120]) = false := by
    match ds, hds with
    | [], _ => simp
    | [_], _ => simp
    | a :: b :: rest, h =>
      have hb : zpl_char_is_digit b = true := h b (by simp)
      have : b ≠ 120 := by
        intro hb2; subst hb2; simp [zpl_char_is_digit] at hb
      simp [this]
  have hneg : (ds.head? == some 45) = false := by
    match ds, hds with
    | [], _ => simp
    | a :: rest, h =>
      have ha : zpl_char_is_digit a = true := h a (by simp)
      have : a ≠ 45 := by
        intro ha2; subst ha2; simp [zpl_char_is_digit] at ha
      simp [this]
  simp [zpl_str_to_i64, hbase, zpl__scan_i64, hneg, scan_digits_decimal ds 0 hds, decimal]

/-- The value parser on a run of 1 to 15 decimal digits that a closing byte follows. -/
theorem parse_value_int (fuel : Nat) (pre ds : List Nat) (t : Nat) (suf : List Nat)
    (e : Option zplj_error_e) (base : zplj_object_t) (p : Nat) (hp : p = pre.length)
    (hne : ds ≠ []) (hlen : ds.length ≤ 15) (hds : ∀ d ∈ ds, zpl_char_is_digit d = true)
    (ht : t = 44 ∨ t = 93 ∨ t = 125) :
    zplj__parse_value (fuel + 1) ⟨pre ++ (ds ++ t :: suf), e⟩ base p =
      Except.ok (⟨pre ++ (ds ++ t :: suf), e⟩,
        { base with type := zplj_type_integer_ev,
                    u := zplj_union.integer (decimal ds) false 0 },
        some (p + ds.length)) := by
  obtain ⟨d, ds1, rfl⟩ : ∃ d ds1, ds = d :: ds1 := by
    cases ds with
    | nil => exact absurd rfl hne
    | cons d ds1 => exact ⟨d, ds1, rfl⟩
  have hd : zpl_char_is_digit d = true := hds d (by simp)
  have hd' : 48 ≤ d ∧ d ≤ 57 := by simpa [zpl_char_is_digit] using hd
  have h0 : rd (pre ++ (d :: ds1 ++ t :: suf)) p = Except.ok d := by
    simpa using rd_at pre d (ds1 ++ t :: suf) p hp
  have h1 : (pre ++ (d :: ds1 ++ t :: suf)).drop p = (d :: ds1) ++ t :: suf :=
    drop_at pre _ p hp
  have hrun : ∀ x ∈ d :: ds1, is_run_char x = true := by
    intro x hx
    have := hds x hx
    simp [is_run_char, zpl_char_is_hex_digit, this]
  have htr : is_run_char t = false := by
    rcases ht with h | h | h <;> subst h <;> decide
  have h2 := copy_while_run is_run_char 16 (d :: ds1) t suf [] p hrun htr (by simp at hlen ⊢; omega)
  have h3 : rd (pre ++ (d :: ds1 ++ t :: suf)) (p + (d :: ds1).length) = Except.ok t := by
    have := rd_at (pre ++ (d :: ds1)) t suf (p + (d :: ds1).length) (by simp; omega)
    simpa using this
  have h4 : (d :: ds1).length < 16 := by omega
  have ht1 : t ≠ 46 ∧ t ≠ 101 ∧ t ≠ 69 ∧ t ≠ 0 := by
    rcases ht with h | h | h <;> subst h <;> decide
  obtain ⟨ht46, ht101, ht69, ht0⟩ := ht1
  have hval := str_to_i64_decimal (d :: ds1) hds
  rw [zplj__parse_value]
  have a1 : d ≠ 34 := by omega
  have a2 : d ≠ 39 := by omega
  have a3 : d ≠ 96 := by omega
  have a4 : d ≠ 45 := by omega
  have a5 : d ≠ 43 := by omega
  have a6 : d ≠ 46 := by omega
  have a7 : zpl_char_is_alpha d = false := by
    simp [zpl_char_is_alpha]; omega
  simp only [h0, ok_bind, a1, a2, a3, a4, a7, hd, false_or, or_self, if_false, false_and,
    Bool.false_eq_true, true_or, if_true, parse_number]
  simp only [List.nil_append, List.cons_append, List.length_cons] at h0 h1 h2 h3 h4
  simp [h0, h1, h2, h3, a4, a5, a6, ht46, ht101, ht69, ht0, scratch_text, h4, hval]

/-! ## Values and arrays -/

theorem render_head (v : JVal) (hv : wf_val v) :
    ∃ c r, render v = c :: r ∧ c ≠ 0 ∧ c ≠ 93 ∧ zpl_char_is_space c = false := by
  cases v with
  | int ds =>
    obtain ⟨hne, _, hds⟩ := hv
    cases ds with
    | nil => exact absurd rfl hne
    | cons d ds =>
      have hd : zpl_char_is_digit d = true := hds d (by simp)
      have hd' : 48 ≤ d ∧ d ≤ 57 := by simpa [zpl_char_is_digit] using hd
      refine ⟨d, ds, rfl, by omega, by omega, ?_⟩
      simp [zpl_char_is_space]
      omega
  | jtrue => exact ⟨116, _, rfl, by decide, by decide, by decide⟩
  | jfalse => exact ⟨102, _, rfl, by decide, by decide, by decide⟩
  | jnull => exact ⟨110, _, rfl, by decide, by decide, by decide⟩
  | str s => exact ⟨34, _, rfl, by decide, by decide, by decide⟩
  | arr vs => exact ⟨91, render_elems vs ++ [93], by rw [render], by decide, by decide, by decide⟩

theorem value_parsed_scalar (fuel : Nat) (v : JVal) (hv : wf_val v)
    (hs : ∀ vs, v ≠ JVal.arr vs) : value_parsed (fuel + 1) v := by
  intro pre suf t base p hp ht
  cases v with
  | int ds =>
    obtain ⟨hne, hlen, hds⟩ := hv
    refine ⟨_, parse_value_int fuel pre ds t suf _ base p hp hne hlen hds ht, rfl, rfl, ?_⟩
    intro pre1 suf1 _
    exact ⟨rfl, rfl⟩
  | jtrue =>
    refine ⟨_, parse_value_true fuel pre (t :: suf) _ base p hp, rfl, rfl, ?_⟩
    intro pre1 suf1 _
    exact ⟨rfl, rfl⟩
  | jfalse =>
    refine ⟨_, parse_value_false fuel pre (t :: suf) _ base p hp, rfl, rfl, ?_⟩
    intro pre1 suf1 _
    exact ⟨rfl, rfl⟩
  | jnull =>
    refine ⟨_, parse_value_null fuel pre (t :: suf) _ base p hp, rfl, rfl, ?_⟩
    intro pre1 suf1 _
    exact ⟨rfl, rfl⟩
  | str s =>
    have hs0 : ∀ c ∈ s, c ≠ 0 := fun c hc => (hv c hc).1
    refine ⟨{ base with type := zplj_type_string_ev, u := zplj_union.string (p + 1) },
      ?_, rfl, rfl, ?_⟩
    · have := parse_value_str fuel pre s (t :: suf) (some zplj_error_none_ev) base p hp hv
      simpa [render, parsed_text, Nat.add_assoc] using this
    · intro pre1 suf1 hlen
      refine ⟨rfl, p + 1, rfl, ?_⟩
      have := cstr_at_mid (pre1 ++ [34]) s suf1 (p + 1) (by simp; omega) hs0
      simpa [parsed_text] using this
  | arr vs => exact absurd rfl (hs vs)

theorem has_err_none (buf : List Nat) : has_err ⟨buf, some zplj_error_none_ev⟩ = false := rfl

/-- One turn of the array loop on a value `v`, given what the value parser does on `v` and
what the loop does on the values after it. -/
theorem elems_parsed_step (fuel : Nat) (v : JVal) (vs : JVals) (hv : wf_val v)
    (hpv : value_parsed fuel v) (hrest : vs ≠ JVals.nil → elems_parsed fuel vs) :
    elems_parsed (fuel + 1) (JVals.cons v vs) := by
  intro pre ws suf obj acc p hp hws
  obtain ⟨c, r, hr, hc0, hc93, hcs⟩ := render_head v hv
  have hwsp : ∀ w ∈ ws, zpl_char_is_space w = true := by
    rcases hws with h | h <;> subst h <;> simp [zpl_char_is_space]
  -- the first byte is not the terminator
  have h0 : ∃ c0, rd (pre ++ (ws ++ (render_elems (JVals.cons v vs) ++ 93 :: suf))) p =
      Except.ok c0 ∧ c0 ≠ 0 := by
    rcases hws with h | h <;> subst h
    · refine ⟨c, ?_, hc0⟩
      have := rd_at pre c (r ++ (render_tail vs ++ 93 :: suf)) p hp
      simpa [render_elems, hr] using this
    · refine ⟨32, ?_, by decide⟩
      have := rd_at pre 32 (render_elems (JVals.cons v vs) ++ 93 :: suf) p hp
      simpa using this
  obtain ⟨c0, hrd0, hc00⟩ := h0
  have h1 : zplj__trim (pre ++ (ws ++ (render_elems (JVals.cons v vs) ++ 93 :: suf))) p =
      Except.ok (p + ws.length) := by
    have := trim_at pre ws c (r ++ (render_tail vs ++ 93 :: suf)) p hp hwsp hcs
    simpa [render_elems, hr] using this
  cases vs with
  | nil =>
    obtain ⟨node, hnode, hname, _, hview⟩ :=
      hpv (pre ++ ws) suf 93 zero_node (p + ws.length) (by simp; omega) (by simp)
    have h2 : zplj__trim (pre ++ (ws ++ (parsed_text v ++ 93 :: suf)))
        (p + ws.length + (parsed_text v).length) =
        Except.ok (p + ws.length + (parsed_text v).length) := by
      have := trim_at_nonspace (pre ++ (ws ++ parsed_text v)) 93 suf
        (p + ws.length + (parsed_text v).length) (by simp; omega) (by decide)
      simpa using this
    have h3 : rd (pre ++ (ws ++ (parsed_text v ++ 93 :: suf)))
        (p + ws.length + (parsed_text v).length) = Except.ok 93 := by
      have := rd_at (pre ++ (ws ++ parsed_text v)) 93 suf
        (p + ws.length + (parsed_text v).length) (by simp; omega)
      simpa using this
    refine ⟨[node], ?_, ?_⟩
    · rw [parse_array_loop]
      simp only [List.append_assoc] at hnode
      simp only [render_elems, render_tail, List.append_assoc, List.nil_append,
        List.cons_append] at hrd0 h1
      simp [hrd0, hc00, h1, render_elems, render_tail, hnode, has_err_none, trim_cursor,
        h2, h3, parsed_elems, parsed_tail]
    · intro pre1 suf1 hlen
      refine ⟨node, [], rfl, ?_, ?_, rfl⟩
      · rw [hname]; rfl
      · have := hview (pre1 ++ ws) suf1 (by simp [hlen])
        simpa [parsed_elems, parsed_tail] using this
  | cons v2 vs2 =>
    obtain ⟨node, hnode, hname, _, hview⟩ :=
      hpv (pre ++ ws) (32 :: (render_elems (JVals.cons v2 vs2) ++ 93 :: suf)) 44 zero_node
        (p + ws.length) (by simp; omega) (by simp)
    have h2 : zplj__trim
        (pre ++ (ws ++ (parsed_text v ++ 44 :: 32 :: (render_elems (JVals.cons v2 vs2) ++ 93 :: suf))))
        (p + ws.length + (parsed_text v).length) =
        Except.ok (p + ws.length + (parsed_text v).length) := by
      have := trim_at_nonspace (pre ++ (ws ++ parsed_text v)) 44
        (32 :: (render_elems (JVals.cons v2 vs2) ++ 93 :: suf))
        (p + ws.length + (parsed_text v).length) (by simp; omega) (by decide)
      simpa using this
    have h3 : rd
        (pre ++ (ws ++ (parsed_text v ++ 44 :: 32 :: (render_elems (JVals.cons v2 vs2) ++ 93 :: suf))))
        (p + ws.length + (parsed_text v).length) = Except.ok 44 := by
      have := rd_at (pre ++ (ws ++ parsed_text v)) 44
        (32 :: (render_elems (JVals.cons v2 vs2) ++ 93 :: suf))
        (p + ws.length + (parsed_text v).length) (by simp; omega)
      simpa using this
    obtain ⟨es, hes, hesview⟩ := hrest (by simp) (pre ++ (ws ++ (parsed_text v ++ [44]))) [32] suf
      obj (acc ++ [node]) (p + ws.length + (parsed_text v).length + 1) (by simp; omega)
      (Or.inr rfl)
    refine ⟨node :: es, ?_, ?_⟩
    · rw [parse_array_loop]
      simp only [List.append_assoc, List.cons_append, List.nil_append, List.singleton_append]
        at hnode hes
      simp only [render_elems, render_tail, List.append_assoc, List.nil_append,
        List.cons_append] at hrd0 h1 h2 h3 hes hnode
      simp [hrd0, hc00, h1, render_elems, render_tail, hnode, has_err_none, trim_cursor,
        h2, h3, parsed_elems, parsed_tail, hes]
      omega
    · intro pre1 suf1 hlen
      refine ⟨node, es, rfl, ?_, ?_, ?_⟩
      · rw [hname]; rfl
      · have := hview (pre1 ++ ws) (parsed_tail (JVals.cons v2 vs2) ++ suf1) (by simp [hlen])
        simpa [parsed_elems] using this
      · have := hesview (pre1 ++ (ws ++ (parsed_text v ++ [44]))) suf1 (by simp [hlen])
        simpa [parsed_elems, parsed_tail] using this

/-- The value parser on a bracketed array, given what the array loop does on its values. -/
theorem value_parsed_arr (fuel : Nat) (vs : JVals) (hne : vs ≠ JVals.nil)
    (hwf : wf_vals vs) (hq : elems_parsed fuel vs) : value_parsed (fuel + 2) (JVal.arr vs) := by
  intro pre suf t base p hp ht
  obtain ⟨v, vs1, rfl⟩ : ∃ v vs1, vs = JVals.cons v vs1 := by
    cases vs with
    | nil => exact absurd rfl hne
    | cons v vs1 => exact ⟨v, vs1, rfl⟩
  have hv : wf_val v := by
    rw [wf_vals] at hwf
    exact hwf.1
  obtain ⟨c, r, hr, hc0, hc93, hcs⟩ := render_head v hv
  obtain ⟨es, hes, hesview⟩ := hq (pre ++ [91]) [] (t :: suf)
    { base with type := zplj_type_array_ev, u := zplj_union.elements [] } [] (p + 1)
    (by simp; omega) (Or.inl rfl)
  have h0 : rd (pre ++ 91 :: (render v ++ (render_tail vs1 ++ 93 :: t :: suf))) p =
      Except.ok 91 := rd_at pre 91 _ p hp
  have h1 : zplj__trim (pre ++ 91 :: (render v ++ (render_tail vs1 ++ 93 :: t :: suf))) (p + 1) =
      Except.ok (p + 1) := by
    have := trim_at_nonspace (pre ++ [91]) c (r ++ (render_tail vs1 ++ 93 :: t :: suf)) (p + 1)
      (by simp; omega) hcs
    simpa [hr] using this
  have h2 : rd (pre ++ 91 :: (render v ++ (render_tail vs1 ++ 93 :: t :: suf))) (p + 1) =
      Except.ok c := by
    have := rd_at (pre ++ [91]) c (r ++ (render_tail vs1 ++ 93 :: t :: suf)) (p + 1)
      (by simp; omega)
    simpa [hr] using this
  refine ⟨{ base with type := zplj_type_array_ev, u := zplj_union.elements es }, ?_, rfl, rfl, ?_⟩
  · rw [zplj__parse_value]
    simp only [render_elems, render_tail, List.append_assoc, List.nil_append,
      List.cons_append, List.singleton_append, List.length_nil, Nat.add_zero] at hes
    simp [render, render_elems, h0, zpl_char_is_alpha, zpl_char_is_digit, h1, h2, hc93, hes,
      has_err_none, incr, parsed_text, parsed_elems, zplj__parse_array]
    omega
  · intro pre1 suf1 hlen
    refine ⟨rfl, es, rfl, ?_⟩
    have := hesview (pre1 ++ [91]) (93 :: suf1) (by simp [hlen])
    simpa [parsed_text] using this

/-- On every value and every array of values the claim is about, with enough fuel, the value
parser and the array loop do what `value_parsed` and `elems_parsed` say. -/
theorem values_parsed (fuel : Nat) :
    (∀ v, wf_val v → val_fuel v ≤ fuel → value_parsed fuel v) ∧
    (∀ vs, wf_vals vs → vs ≠ JVals.nil → vals_fuel vs ≤ fuel → elems_parsed fuel vs) := by
  induction fuel using Nat.strong_induction_on with
  | _ fuel ih =>
    constructor
    · intro v hv hf
      cases v with
      | arr vs =>
        rw [wf_val] at hv
        rw [val_fuel] at hf
        obtain ⟨f, rfl⟩ : ∃ f, fuel = f + 2 := ⟨fuel - 2, by omega⟩
        exact value_parsed_arr f vs hv.1 hv.2 ((ih f (by omega)).2 vs hv.2 hv.1 (by omega))
      | int ds =>
        rw [val_fuel] at hf
        obtain ⟨f, rfl⟩ : ∃ f, fuel = f + 1 := ⟨fuel - 1, by omega⟩
        exact value_parsed_scalar f _ hv (fun vs h => by cases h)
      | jtrue =>
        rw [val_fuel] at hf
        obtain ⟨f, rfl⟩ : ∃ f, fuel = f + 1 := ⟨fuel - 1, by omega⟩
        exact value_parsed_scalar f _ hv (fun vs h => by cases h)
      | jfalse =>
        rw [val_fuel] at hf
        obtain ⟨f, rfl⟩ : ∃ f, fuel = f + 1 := ⟨fuel - 1, by omega⟩
        exact value_parsed_scalar f _ hv (fun vs h => by cases h)
      | jnull =>
        rw [val_fuel] at hf
        obtain ⟨f, rfl⟩ : ∃ f, fuel = f + 1 := ⟨fuel - 1, by omega⟩
        exact value_parsed_scalar f _ hv (fun vs h => by cases h)
      | str s =>
        rw [val_fuel] at hf
        obtain ⟨f, rfl⟩ : ∃ f, fuel = f + 1 := ⟨fuel - 1, by omega⟩
        exact value_parsed_scalar f _ hv (fun vs h => by cases h)
    · intro vs hvs hne hf
      cases vs with
      | nil => exact absurd rfl hne
      | cons v vs1 =>
        rw [wf_vals] at hvs
        rw [vals_fuel] at hf
        obtain ⟨f, rfl⟩ : ∃ f, fuel = f + 1 := ⟨fuel - 1, by omega⟩
        exact elems_parsed_step f v vs1 hvs.1 ((ih f (by omega)).1 v hvs.1 (by omega))
          (fun h => (ih f (by omega)).2 vs1 hvs.2 h (by omega))

/-! ## Members -/

/-- One turn of the object loop on a member `"k": v` that the byte `t` follows, entered at
the blanks `ws` before it: the member is appended; on a closing brace the loop returns the
cursor on it, on a comma it goes on after it. -/
theorem member_turn (fuel : Nat) (k : List Nat) (v : JVal) (t : Nat) (rest : List Nat)
    (pre ws : List Nat) (obj : zplj_object_t) (acc : List zplj_object_t) (p : Nat)
    (hk : ∀ c ∈ k, plain_byte c) (hv : wf_val v) (hf : val_fuel v ≤ fuel)
    (hp : p = pre.length) (hws : ws = [] ∨ ws = [32]) (ht : t = 44 ∨ t = 125) :
    ∃ node,
      parse_object_loop (fuel + 1)
          ⟨pre ++ (ws ++ (render_member (k, v) ++ t :: rest)), some zplj_error_none_ev⟩
          obj acc p =
        (if t = 125 then
          Except.ok (⟨pre ++ (ws ++ (parsed_member (k, v) ++ t :: rest)),
              some zplj_error_none_ev⟩,
            { obj with nodes := some (acc ++ [node]) },
            some (p + ws.length + (parsed_member (k, v)).length))
        else
          parse_object_loop fuel
            ⟨pre ++ (ws ++ (parsed_member (k, v) ++ t :: rest)), some zplj_error_none_ev⟩
            obj (acc ++ [node]) (p + ws.length + (parsed_member (k, v)).length + 1)) ∧
      node.name_style = zplj_name_style_double_quote_ev ∧
      node.name = some (p + ws.length + 1) ∧
      ∀ pre1 suf1 : List Nat, pre1.length = pre.length + ws.length + k.length + 4 →
        node_is (pre1 ++ (parsed_text v ++ suf1)) node v := by
  obtain ⟨c, r, hr, hc0, hc93, hcs⟩ := render_head v hv
  have hwsp : ∀ w ∈ ws, zpl_char_is_space w = true := by
    rcases hws with h | h <;> subst h <;> simp [zpl_char_is_space]
  have hk0 : ∀ x ∈ k, x ≠ 0 := fun x hx => (hk x hx).1
  have htc : t = 44 ∨ t = 93 ∨ t = 125 := by
    rcases ht with h | h
    · exact Or.inl h
    · exact Or.inr (Or.inr h)
  have hts : zpl_char_is_space t = false := by
    rcases ht with h | h <;> subst h <;> decide
  -- the buffer before and after the name
  let B0 := pre ++ (ws ++ (34 :: (k ++ 34 :: 58 :: 32 :: (render v ++ t :: rest))))
  let B1 := pre ++ (ws ++ (34 :: (k ++ 0 :: 58 :: 32 :: (render v ++ t :: rest))))
  let B2 := pre ++ (ws ++ (34 :: (k ++ 0 :: 58 :: 32 :: (parsed_text v ++ t :: rest))))
  have h0 : ∃ c0, rd B0 p = Except.ok c0 ∧ c0 ≠ 0 := by
    rcases hws with h | h <;> subst h
    · exact ⟨34, by simpa [B0] using rd_at pre 34 _ p hp, by decide⟩
    · exact ⟨32, by simpa [B0] using rd_at pre 32 _ p hp, by decide⟩
  obtain ⟨c0, hrd0, hc00⟩ := h0
  have h1 : zplj__trim B0 p = Except.ok (p + ws.length) :=
    trim_at pre ws 34 _ p hp hwsp (by decide)
  have h2 : rd B0 (p + ws.length) = Except.ok 34 := by
    have := rd_at (pre ++ ws) 34 (k ++ 34 :: 58 :: 32 :: (render v ++ t :: rest))
      (p + ws.length) (by simp; omega)
    simpa [B0] using this
  have h3 : parse_name ⟨B0, some zplj_error_none_ev⟩ zero_node (p + ws.length) 34 =
      Except.ok (NameStep.named ⟨B1, some zplj_error_none_ev⟩
        { zero_node with name := some (p + ws.length + 1) } (p + ws.length + k.length + 2)) := by
    have := parse_name_quoted (pre ++ ws) k (32 :: (render v ++ t :: rest))
      (some zplj_error_none_ev) (p + ws.length) (by simp; omega) hk
    simpa [B0, B1] using this
  have h4 : zplj__validate_name B1 (some (p + ws.length + 1)) = Except.ok true := by
    have hd := drop_at (pre ++ (ws ++ [34])) (k ++ 0 :: 58 :: 32 :: (render v ++ t :: rest))
      (p + ws.length + 1) (by simp; omega)
    simp only [List.append_assoc, List.singleton_append] at hd
    simp only [zplj__validate_name, B1, hd]
    exact validate_scan_plain k _ hk
  have h5 : zplj__trim B1 (p + ws.length + k.length + 2 + 1) =
      Except.ok (p + ws.length + k.length + 2 + 1 + 1) := by
    have := trim_at (pre ++ (ws ++ (34 :: (k ++ [0, 58])))) [32] c (r ++ t :: rest)
      (p + ws.length + k.length + 2 + 1) (by simp; omega) (by simp [zpl_char_is_space]) hcs
    simpa [B1, hr] using this
  obtain ⟨node, hnode, hname, hstyle, hview⟩ :=
    (values_parsed fuel).1 v hv hf (pre ++ (ws ++ (34 :: (k ++ [0, 58, 32])))) rest t
      { zero_node with name := some (p + ws.length + 1) }
      (p + ws.length + k.length + 2 + 1 + 1) (by simp; omega) htc
  have hnode' : zplj__parse_value fuel ⟨B1, some zplj_error_none_ev⟩
      { zero_node with name := some (p + ws.length + 1) }
      (p + ws.length + k.length + 2 + 1 + 1) =
      Except.ok (⟨B2, some zplj_error_none_ev⟩, node,
        some (p + ws.length + k.length + 2 + 1 + 1 + (parsed_text v).length)) := by
    simpa [B1, B2] using hnode
  have h6 : zplj__trim B2 (p + ws.length + k.length + 2 + 1 + 1 + (parsed_text v).length) =
      Except.ok (p + ws.length + k.length + 2 + 1 + 1 + (parsed_text v).length) := by
    have := trim_at_nonspace (pre ++ (ws ++ (34 :: (k ++ 0 :: 58 :: 32 :: parsed_text v)))) t rest
      (p + ws.length + k.length + 2 + 1 + 1 + (parsed_text v).length) (by simp; omega) hts
    simpa [B2] using this
  have h7 : rd B2 (p + ws.length + k.length + 2 + 1 + 1 + (parsed_text v).length) =
      Except.ok t := by
    have := rd_at (pre ++ (ws ++ (34 :: (k ++ 0 :: 58 :: 32 :: parsed_text v)))) t rest
      (p + ws.length + k.length + 2 + 1 + 1 + (parsed_text v).length) (by simp; omega)
    simpa [B2] using this
  have hB0 : pre ++ (ws ++ (render_member (k, v) ++ t :: rest)) = B0 := by
    simp [B0, render_member]
  have hB2 : pre ++ (ws ++ (parsed_member (k, v) ++ t :: rest)) = B2 := by
    simp [B2, parsed_member]
  have hlen : p + ws.length + (parsed_member (k, v)).length =
      p + ws.length + k.length + 2 + 1 + 1 + (parsed_text v).length := by
    simp [parsed_member]; omega
  refine ⟨node, ?_, ?_, ?_, ?_⟩
  · rw [hB0, hB2, hlen, parse_object_loop]
    rcases ht with h | h
    · subst h
      simp [hrd0, hc00, h1, h2, h3, h4, h5, hnode', has_err_none, member_end, trim_cursor, h6, h7]
    · subst h
      simp [hrd0, hc00, h1, h2, h3, h4, h5, hnode', has_err_none, member_end, trim_cursor, h6, h7]
  · rw [hstyle]; rfl
  · rw [hname]
  · intro pre1 suf1 hl
    exact hview pre1 suf1 (by simp; omega)

/-- The object loop on the members `m :: ms`, entered at the blanks `ws` before the first of
them: it appends one node per member and returns the cursor on the closing brace. -/
theorem members_parsed (ms : List Member) :
    ∀ (m : Member) (fuel : Nat) (pre ws suf : List Nat) (obj : zplj_object_t)
      (acc : List zplj_object_t) (p : Nat),
      wf_member m → (∀ x ∈ ms, wf_member x) → members_fuel (m :: ms) ≤ fuel →
      p = pre.length → (ws = [] ∨ ws = [32]) →
      ∃ ns,
        parse_object_loop fuel
            ⟨pre ++ (ws ++ (render_member m ++ (render_rest ms ++ 125 :: suf))),
              some zplj_error_none_ev⟩ obj acc p =
          Except.ok (⟨pre ++ (ws ++ (parsed_member m ++ (parsed_rest ms ++ 125 :: suf))),
              some zplj_error_none_ev⟩,
            { obj with nodes := some (acc ++ ns) },
            some (p + ws.length + (parsed_member m).length + (parsed_rest ms).length)) ∧
        ∀ pre1 suf1 : List Nat, pre1.length = pre.length →
          members_are (pre1 ++ (ws ++ (parsed_member m ++ (parsed_rest ms ++ suf1)))) ns
            (m :: ms) := by
  induction ms with
  | nil =>
    intro m fuel pre ws suf obj acc p hm _ hf hp hws
    obtain ⟨k, v⟩ := m
    obtain ⟨hk, hv⟩ := hm
    simp only at hk hv
    simp only [members_fuel] at hf
    obtain ⟨f, rfl⟩ : ∃ f, fuel = f + 1 := ⟨fuel - 1, by omega⟩
    obtain ⟨node, hnode, hstyle, hname, hview⟩ :=
      member_turn f k v 125 suf pre ws obj acc p hk hv (by omega) hp hws (Or.inr rfl)
    refine ⟨[node], ?_, ?_⟩
    · simpa [render_rest, parsed_rest] using hnode
    · intro pre1 suf1 hl
      refine ⟨hstyle, ⟨p + ws.length + 1, hname, ?_⟩, ?_, trivial⟩
      · have := cstr_at_mid (pre1 ++ (ws ++ [34])) k (58 :: 32 :: (parsed_text v ++ suf1))
          (p + ws.length + 1) (by simp; omega) (fun x hx => (hk x hx).1)
        simpa [parsed_member, parsed_rest] using this
      · have := hview (pre1 ++ (ws ++ (34 :: (k ++ [0, 58, 32])))) suf1 (by simp; omega)
        simpa [parsed_member, parsed_rest] using this
  | cons m2 ms ih =>
    intro m fuel pre ws suf obj acc p hm hms hf hp hws
    obtain ⟨k, v⟩ := m
    obtain ⟨hk, hv⟩ := hm
    simp only at hk hv
    rw [members_fuel] at hf
    obtain ⟨f, rfl⟩ : ∃ f, fuel = f + 1 := ⟨fuel - 1, by omega⟩
    obtain ⟨node, hnode, hstyle, hname, hview⟩ :=
      member_turn f k v 44 (32 :: (render_member m2 ++ (render_rest ms ++ 125 :: suf)))
        pre ws obj acc p hk hv (by simp at hf; omega) hp hws (Or.inl rfl)
    obtain ⟨ns, hns, hnsview⟩ := ih m2 f (pre ++ (ws ++ (parsed_member (k, v) ++ [44]))) [32] suf
      obj (acc ++ [node]) (p + ws.length + (parsed_member (k, v)).length + 1)
      (hms m2 (by simp)) (fun x hx => hms x (by simp [hx])) (by simp at hf; omega)
      (by simp; omega) (Or.inr rfl)
    refine ⟨node :: ns, ?_, ?_⟩
    · simp only [List.append_assoc, List.cons_append, List.nil_append, List.singleton_append]
        at hns
      simp [render_rest, parsed_rest, hnode, hns]
      omega
    · intro pre1 suf1 hl
      refine ⟨hstyle, ⟨p + ws.length + 1, hname, ?_⟩, ?_, ?_⟩
      · have := cstr_at_mid (pre1 ++ (ws ++ [34])) k
          (58 :: 32 :: (parsed_text v ++ (parsed_rest (m2 :: ms) ++ suf1)))
          (p + ws.length + 1) (by simp; omega) (fun x hx => (hk x hx).1)
        simpa [parsed_member] using this
      · have := hview (pre1 ++ (ws ++ (34 :: (k ++ [0, 58, 32]))))
          (parsed_rest (m2 :: ms) ++ suf1) (by simp; omega)
        simpa [parsed_member] using this
      · have := hnsview (pre1 ++ (ws ++ (parsed_member (k, v) ++ [44]))) suf1 (by simp [hl])
        simpa [parsed_rest] using this

/-- The object parser on a document of the form of C2. -/
theorem doc_parsed (m : Member) (ms : List Member) (fuel : Nat)
    (hm : wf_member m) (hms : ∀ x ∈ ms, wf_member x)
    (hf : members_fuel (m :: ms) + 1 ≤ fuel) :
    ∃ st root q,
      zplj__parse_object fuel ⟨render_doc m ms, some zplj_error_none_ev⟩ zero_node 0 =
        Except.ok (st, root, q) ∧
      st.err = some zplj_error_none_ev ∧ root.type = zplj_type_object_ev ∧ root.name = none ∧
      ∃ nodes, root.nodes = some nodes ∧ members_are st.buf nodes (m :: ms) := by
  obtain ⟨f, rfl⟩ : ∃ f, fuel = f + 1 := ⟨fuel - 1, by omega⟩
  obtain ⟨ns, hns, hview⟩ := members_parsed ms m f [123] [] [0] zero_node [] 1 hm hms
    (by omega) rfl (Or.inl rfl)
  have h0 : zplj__trim (render_doc m ms) 0 = Except.ok 0 :=
    trim_at_nonspace [] 123 _ 0 rfl (by decide)
  have h1 : rd (render_doc m ms) 0 = Except.ok 123 := rd_at [] 123 _ 0 rfl
  refine ⟨⟨123 :: (parsed_member m ++ (parsed_rest ms ++ [125, 0])), some zplj_error_none_ev⟩,
    { zero_node with nodes := some ns },
    some (1 + (parsed_member m).length + (parsed_rest ms).length), ?_, rfl, rfl, rfl, ns, rfl, ?_⟩
  · rw [zplj__parse_object]
    simp only [h0, h1, ok_bind, if_true]
    simp only [List.nil_append, List.singleton_append, List.length_nil, Nat.add_zero,
      Nat.zero_add] at hns
    simpa [render_doc] using hns
  · have := hview [123] [125, 0] rfl
    simpa using this

/-! ## The stripping pass on text without comments -/

theorem clean_append {a b : List Nat} (ha : Clean a) (hb : Clean b) : Clean (a ++ b) := by
  induction ha with
  | nil => simpa using hb
  | plain c s h0 h1 h2 h3 _ ih => exact Clean.plain c _ h0 h1 h2 h3 ih
  | lit body s hbody _ ih =>
    have := Clean.lit body _ hbody ih
    simpa using this

theorem clean_of_plain (l : List Nat) (h : ∀ c ∈ l, c ≠ 0 ∧ c ≠ 34 ∧ c ≠ 39 ∧ c ≠ 47) :
    Clean l := by
  induction l with
  | nil => exact Clean.nil
  | cons c l ih =>
    obtain ⟨h0, h1, h2, h3⟩ := h c (by simp)
    exact Clean.plain c l h0 h1 h2 h3 (ih (fun x hx => h x (by simp [hx])))

/-- Inside a literal of plain bytes the loop walks to the closing quote and leaves the
literal. -/
theorem strip_loop_in_literal (body : List Nat) :
    ∀ (fuel : Nat) (pre s : List Nat) (p : Nat), p = pre.length →
      (∀ x ∈ body, plain_byte x) →
      strip_loop (fuel + body.length + 1) (pre ++ (body ++ 34 :: s)) p true 34 =
        strip_loop fuel (pre ++ (body ++ 34 :: s)) (p + body.length + 1) false 34 := by
  induction body with
  | nil =>
    intro fuel pre s p hp _
    have h0 := rd_at pre 34 s p hp
    rw [List.length_nil, Nat.add_zero, strip_loop]
    simp [h0]
  | cons x body ih =>
    intro fuel pre s p hp hb
    obtain ⟨hx0, hx1, hx2⟩ := hb x (by simp)
    have h0 := rd_at pre x (body ++ 34 :: s) p hp
    have := ih fuel (pre ++ [x]) s (p + 1) (by simp; omega) (fun y hy => hb y (by simp [hy]))
    simp only [List.append_assoc, List.singleton_append] at this
    have e1 : fuel + (x :: body).length + 1 = (fuel + body.length + 1) + 1 := by
      simp; omega
    rw [e1, strip_loop]
    simp [h0, hx0, hx1, hx2, this]
    congr 1
    omega

theorem strip_loop_clean {s : List Nat} (hs : Clean s) :
    ∀ (fuel : Nat) (pre : List Nat) (p lit_c : Nat), p = pre.length → s.length + 1 ≤ fuel →
      strip_loop fuel (pre ++ (s ++ [0])) p false lit_c = Except.ok (pre ++ (s ++ [0])) := by
  induction hs with
  | nil =>
    intro fuel pre p lit_c hp hf
    obtain ⟨f, rfl⟩ : ∃ f, fuel = f + 1 := ⟨fuel - 1, by omega⟩
    have h0 := rd_at pre 0 [] p hp
    rw [strip_loop]
    simp [h0]
  | plain c s h0 h1 h2 h3 _ ih =>
    intro fuel pre p lit_c hp hf
    simp only [List.length_cons] at hf
    obtain ⟨f, rfl⟩ : ∃ f, fuel = f + 1 := ⟨fuel - 1, by omega⟩
    have hr := rd_at pre c (s ++ [0]) p hp
    have := ih f (pre ++ [c]) (p + 1) lit_c (by simp; omega) (by omega)
    simp only [List.append_assoc, List.singleton_append] at this
    rw [strip_loop]
    simp [hr, h0, h1, h2, strip_comment_at, h3, this]
  | lit body s hbody _ ih =>
    intro fuel pre p lit_c hp hf
    simp only [List.length_cons, List.length_append] at hf
    obtain ⟨f, rfl⟩ : ∃ f, fuel = (f + body.length + 1) + 1 :=
      ⟨fuel - body.length - 2, by omega⟩
    have hr := rd_at pre 34 (body ++ 34 :: (s ++ [0])) p hp
    have h1 := strip_loop_in_literal body f (pre ++ [34]) (s ++ [0]) (p + 1) (by simp; omega) hbody
    have h2 := ih f (pre ++ (34 :: (body ++ [34]))) (p + 1 + body.length + 1) 34
      (by simp; omega) (by omega)
    simp only [List.append_assoc, List.singleton_append, List.cons_append, List.nil_append]
      at h1 h2
    rw [strip_loop]
    simp [hr, h1, h2]

theorem clean_values (n : Nat) :
    (∀ v, val_fuel v ≤ n → wf_val v → Clean (render v)) ∧
    (∀ vs, vals_fuel vs ≤ n → wf_vals vs → Clean (render_tail vs)) := by
  induction n using Nat.strong_induction_on with
  | _ n ih =>
    constructor
    · intro v hf hv
      cases v with
      | int ds =>
        obtain ⟨_, _, hds⟩ := hv
        refine clean_of_plain ds (fun c hc => ?_)
        have := hds c hc
        simp only [zpl_char_is_digit, Bool.and_eq_true, decide_eq_true_eq] at this
        omega
      | jtrue => exact clean_of_plain _ (by decide)
      | jfalse => exact clean_of_plain _ (by decide)
      | jnull => exact clean_of_plain _ (by decide)
      | str s =>
        have := Clean.lit s [] hv Clean.nil
        simpa [render] using this
      | arr vs =>
        rw [wf_val] at hv
        rw [val_fuel] at hf
        cases vs with
        | nil => exact absurd rfl hv.1
        | cons v vs1 =>
          have hvs := hv.2
          rw [wf_vals] at hvs
          rw [vals_fuel] at hf
          have c1 := (ih (val_fuel v) (by omega)).1 v (Nat.le_refl _) hvs.1
          have c2 := (ih (vals_fuel vs1) (by omega)).2 vs1 (Nat.le_refl _) hvs.2
          have c3 : Clean [93] := clean_of_plain _ (by decide)
          have := Clean.plain 91 _ (by decide) (by decide) (by decide) (by decide)
            (clean_append (clean_append c1 c2) c3)
          simpa [render, render_elems] using this
    · intro vs hf hvs
      cases vs with
      | nil => exact Clean.nil
      | cons v vs1 =>
        rw [wf_vals] at hvs
        rw [vals_fuel] at hf
        have c1 := (ih (val_fuel v) (by omega)).1 v (Nat.le_refl _) hvs.1
        have c2 := (ih (vals_fuel vs1) (by omega)).2 vs1 (Nat.le_refl _) hvs.2
        have := Clean.plain 44 _ (by decide) (by decide) (by decide) (by decide)
          (Clean.plain 32 _ (by decide) (by decide) (by decide) (by decide)
            (clean_append c1 c2))
        simpa [render_tail] using this

theorem clean_member (m : Member) (hm : wf_member m) : Clean (render_member m) := by
  have c1 := (clean_values (val_fuel m.2)).1 m.2 (Nat.le_refl _) hm.2
  have c2 := Clean.plain 58 _ (by decide) (by decide) (by decide) (by decide)
    (Clean.plain 32 _ (by decide) (by decide) (by decide) (by decide) c1)
  exact Clean.lit m.1 _ hm.1 c2

theorem clean_rest (ms : List Member) (hms : ∀ x ∈ ms, wf_member x) :
    Clean (render_rest ms) := by
  induction ms with
  | nil => exact Clean.nil
  | cons m ms ih =>
    have c1 := clean_member m (hms m (by simp))
    have c2 := ih (fun x hx => hms x (by simp [hx]))
    exact Clean.plain 44 _ (by decide) (by decide) (by decide) (by decide)
      (Clean.plain 32 _ (by decide) (by decide) (by decide) (by decide) (clean_append c1 c2))

/-- The stripping pass leaves a document of the form of C2 as it is. -/
theorem strip_doc (m : Member) (ms : List Member) (hm : wf_member m)
    (hms : ∀ x ∈ ms, wf_member x) :
    strip_comments_pass (render_doc m ms) = Except.ok (render_doc m ms) := by
  have c : Clean (123 :: (render_member m ++ (render_rest ms ++ [125]))) :=
    Clean.plain 123 _ (by decide) (by decide) (by decide) (by decide)
      (clean_append (clean_member m hm)
        (clean_append (clean_rest ms hms) (clean_of_plain [125] (by decide))))
  have := strip_loop_clean c ((render_doc m ms).length + 1) [] 0 0 rfl
    (by simp [render_doc])
  simpa [strip_comments_pass, render_doc] using this

/-! ## A member value that starts no value -/

theorem alnum_plain (c : Nat) (h : zpl_char_is_alphanumeric c = true) : plain_byte c := by
  simp only [zpl_char_is_alphanumeric, zpl_char_is_alpha, zpl_char_is_digit,
    Bool.or_eq_true, Bool.and_eq_true, decide_eq_true_eq] at h
  refine ⟨?_, ?_, ?_⟩ <;> omega

/-- C1 (code bug): two well-formed JSON documents that `zplj_parse` does not read as a standard
JSON reader does, with or without comment stripping.  On `{"n": -12}` the parse ends with
`invalid_value`; on `{"n": 1e5}` it ends with no error and member `n` is the Integer 1, not
100000. -/
theorem wellformed_json_scalars_misread :
    (∀ (fuel : Nat) (strip : Bool) (e0 : zplj_error_e), ∃ st root,
      zplj_parse (fuel + 4) (cstring "\x7b\"n\": -12\x7d") strip (some e0) = Except.ok (st, root) ∧
      st.err = some zplj_error_invalid_value_ev) ∧
    (∀ (fuel : Nat) (strip : Bool) (e0 : zplj_error_e), ∃ st root,
      zplj_parse (fuel + 4) (cstring "\x7b\"n\": 1e5\x7d") strip (some e0) = Except.ok (st, root) ∧
      st.err = some zplj_error_none_ev ∧
      root.nodes = some [⟨zplj_name_style_double_quote_ev, some 2, zplj_type_integer_ev, none,
        zplj_union.integer 1 false 0⟩]) := by
  refine ⟨fun fuel strip e0 => ?_, fun fuel strip e0 => ?_⟩
  · cases strip
    · exact ⟨_, _, rfl, rfl⟩
    · exact ⟨_, _, rfl, rfl⟩
  · cases strip
    · exact ⟨_, _, rfl, rfl, rfl⟩
    · exact ⟨_, _, rfl, rfl, rfl⟩

/-! ## C2 -/

/-- C2 (amended): for every document `{"k1": v1, ..., "kn": vn}` (n >= 1) whose keys and quoted
strings hold no quote, backslash or terminator byte and whose values are decimal integers of
1 to 15 digits, `true`, `false`, `null`, such quoted strings, or non-empty bracketed arrays of
such values, `zplj_parse` (with or without comment stripping, given enough fuel) ends with
error code none, and the root is an Object node without a name whose children are exactly the
members in source order: the i-th has the name `ki`, double quoted, and is `vi` (Integer with
the value of the digits, Constant, String with the string's bytes, Array with one element
per value, in order, none of them named). -/
theorem members_in_source_order (m : Member) (ms : List Member) (fuel : Nat) (strip : Bool)
    (e0 : zplj_error_e) (hm : wf_member m) (hms : ∀ x ∈ ms, wf_member x)
    (hf : members_fuel (m :: ms) + 1 ≤ fuel) :
    ∃ st root,
      zplj_parse fuel (render_doc m ms) strip (some e0) = Except.ok (st, root) ∧
      st.err = some zplj_error_none_ev ∧ root.type = zplj_type_object_ev ∧ root.name = none ∧
      ∃ nodes, root.nodes = some nodes ∧ members_are st.buf nodes (m :: ms) := by
  obtain ⟨st, root, q, hrun, herr, hty, hname, hnodes⟩ := doc_parsed m ms fuel hm hms hf
  refine ⟨st, root, ?_, herr, hty, hname, hnodes⟩
  cases strip
  · simp [zplj_parse, hrun]
  · simp [zplj_parse, strip_doc m ms hm hms, hrun]

/-- The document of the spec, `{"a": 1, "b": [true, false, null]}`, is of the form of the
theorem: it parses to 2 members, `a` the Integer 1 and `b` an Array of the Constants True,
False, Null. -/
theorem members_in_source_order_witness :
    render_doc ([97], JVal.int [49])
        [([98], JVal.arr (JVals.cons JVal.jtrue (JVals.cons JVal.jfalse
          (JVals.cons JVal.jnull JVals.nil))))] =
      cstring "\x7b\"a\": 1, \"b\": [true, false, null]\x7d" ∧
    (∃ st root,
      zplj_parse 12 (render_doc ([97], JVal.int [49])
          [([98], JVal.arr (JVals.cons JVal.jtrue (JVals.cons JVal.jfalse
            (JVals.cons JVal.jnull JVals.nil))))]) true (some zplj_error_invalid_name_ev) =
        Except.ok (st, root) ∧
      st.err = some zplj_error_none_ev ∧ root.type = zplj_type_object_ev ∧ root.name = none ∧
      ∃ nodes, root.nodes = some nodes ∧
        members_are st.buf nodes [([97], JVal.int [49]),
          ([98], JVal.arr (JVals.cons JVal.jtrue (JVals.cons JVal.jfalse
            (JVals.cons JVal.jnull JVals.nil))))]) ∧
    (∃ st root,
      zplj_parse 12 (cstring "\x7b\"a\": 1, \"b\": [true, false, null]\x7d") true
          (some zplj_error_invalid_name_ev) = Except.ok (st, root) ∧
      root.nodes = some [
        ⟨zplj_name_style_double_quote_ev, some 2, zplj_type_integer_ev, none,
          zplj_union.integer 1 false 0⟩,
        ⟨zplj_name_style_double_quote_ev, some 10, zplj_type_array_ev, none,
          zplj_union.elements [
            { zero_node with type := zplj_type_constant_ev,
                             u := zplj_union.constant zplj_constant_true_ev },
            { zero_node with type := zplj_type_constant_ev,
                             u := zplj_union.constant zplj_constant_false_ev },
            { zero_node with type := zplj_type_constant_ev,
                             u := zplj_union.constant zplj_constant_null_ev }]⟩]) :=
  ⟨rfl,
    members_in_source_order ([97], JVal.int [49])
      [([98], JVal.arr (JVals.cons JVal.jtrue (JVals.cons JVal.jfalse
        (JVals.cons JVal.jnull JVals.nil))))] 12 true zplj_error_invalid_name_ev
      (by simp [wf_member, wf_val, plain_byte, zpl_char_is_digit])
      (by simp [wf_member, wf_val, wf_vals, plain_byte])
      (by simp [members_fuel, val_fuel, vals_fuel]),
    ⟨_, _, rfl, rfl⟩⟩

/-- C2, as stated, fails on `{"a": "x\\", "b": 1}`, whose first value is the quoted string
`x\`: the string scan takes the backslash before the closing quote for an escape of the
quote, runs on to the quote that opens `"b"`, and the parse ends with `invalid_value`.  It
also fails on `{"a": 1234567890123456}`: the 16 digits fill the scratch array `buf[16]`, which
is then read as a string without a terminator, a fault. -/
theorem members_claim_counterexample :
    (∃ st root,
      (∀ fuel : Nat,
        zplj_parse (fuel + 4) (cstring "\x7b\"a\": \"x\\\\\", \"b\": 1\x7d") false
          (some zplj_error_none_ev) = Except.ok (st, root)) ∧
      st.err = some zplj_error_invalid_value_ev) ∧
    (∀ fuel : Nat,
      zplj_parse (fuel + 4) (cstring "\x7b\"a\": 1234567890123456\x7d") false
        (some zplj_error_none_ev) = Except.error Abort.fault) :=
  ⟨⟨_, _, fun _ => rfl, rfl⟩, fun _ => rfl⟩

/-! ## C3 -/

/-- C3 (code bug): a value that starts with `-` followed by a decimal digit never reaches the
number branch.  The test of line 291 looks at `*p` where it means `*(p+1)`, so the constant
branch takes every `-`; no keyword matches, and `zplj__parse_value` sets `invalid_value` and
returns a null cursor. -/
theorem minus_digit_value_is_invalid (fuel : Nat) (st : St) (obj : zplj_object_t) (p d : Nat)
    (h0 : st.buf[p]? = some 45) (h1 : st.buf[p + 1]? = some d)
    (hd : zpl_char_is_digit d = true) :
    zplj__parse_value (fuel + 1) st obj p =
      Except.ok (set_err st zplj_error_invalid_value_ev,
        { obj with type := zplj_type_constant_ev }, none) := by
  have hdr : st.buf.drop p = 45 :: d :: st.buf.drop (p + 2) := by
    rw [drop_eq_cons h0, drop_eq_cons h1]
  have hd1 : 48 ≤ d ∧ d ≤ 57 := by simpa [zpl_char_is_digit] using hd
  have e1 : d ≠ 73 := by omega
  have e2 : d ≠ 78 := by omega
  rw [zplj__parse_value]
  simp [rd_eq h0, zpl_char_is_alpha, zpl_char_is_digit, parse_constant, hdr, cstring, bytes,
    zpl_strncmp_eq, e1, e2]

/-- The member value of `{"a": -5}` (cursor 6) is such a value: the value parser fails on it,
and the whole parse ends with `invalid_value`. -/
theorem minus_digit_value_is_invalid_witness :
    zplj__parse_value 1 ⟨cstring "\x7b\"a\": -5\x7d", some zplj_error_none_ev⟩ zero_node 6 =
      Except.ok (set_err ⟨cstring "\x7b\"a\": -5\x7d", some zplj_error_none_ev⟩
          zplj_error_invalid_value_ev,
        { zero_node with type := zplj_type_constant_ev }, none) ∧
    (∀ fuel : Nat, ∃ st root,
      zplj_parse (fuel + 4) (cstring "\x7b\"a\": -5\x7d") false (some zplj_error_none_ev) =
        Except.ok (st, root) ∧
      st.err = some zplj_error_invalid_value_ev) :=
  ⟨minus_digit_value_is_invalid 0 ⟨cstring "\x7b\"a\": -5\x7d", some zplj_error_none_ev⟩
      zero_node 6 53 (by decide) (by decide) (by decide),
    fun _ => ⟨_, _, rfl, rfl⟩⟩

/-! ## C4 -/

/-- C4 (code bug): on `[`, optional whitespace, `]` the value parser returns at once (line
426): the node is left as it was (kind not set to Array, no children sequence initialised)
and the returned cursor is still on the `]`. -/
theorem empty_array_value_left_untouched (fuel : Nat) (st : St) (obj : zplj_object_t)
    (p q : Nat) (h0 : st.buf[p]? = some 91) (ht : zplj__trim st.buf (p + 1) = Except.ok q)
    (h1 : st.buf[q]? = some 93) :
    zplj__parse_value (fuel + 1) st obj p = Except.ok (st, obj, some q) := by
  rw [zplj__parse_value]
  simp [rd_eq h0, rd_eq h1, ht, zpl_char_is_alpha, zpl_char_is_digit]

/-- The member value of `{"a": []}` (cursor 6) is such a value; the object parser then
meets the `]` where it expects `,` or `}`, so the parse ends with `invalid_value`, the member
being a zero-initialised node. -/
theorem empty_array_value_left_untouched_witness :
    zplj__parse_value 1 ⟨cstring "\x7b\"a\": []\x7d", some zplj_error_none_ev⟩ zero_node 6 =
      Except.ok (⟨cstring "\x7b\"a\": []\x7d", some zplj_error_none_ev⟩, zero_node, some 7) ∧
    (∀ fuel : Nat, ∃ st root,
      zplj_parse (fuel + 4) (cstring "\x7b\"a\": []\x7d") false (some zplj_error_none_ev) =
        Except.ok (st, root) ∧
      st.err = some zplj_error_invalid_value_ev ∧
      root.nodes = some [⟨zplj_name_style_double_quote_ev, some 2, zplj_type_object_ev, none,
        zplj_union.zero⟩]) :=
  ⟨empty_array_value_left_untouched 0 ⟨cstring "\x7b\"a\": []\x7d", some zplj_error_none_ev⟩
      zero_node 6 7 (by decide) (by rfl) (by decide),
    fun _ => ⟨_, _, rfl, rfl, rfl⟩⟩

/-! ## C5 -/

/-- C6 (code bug): names with a bad escape that `zplj__validate_name` accepts.  The name
`a\xb` has a backslash followed by `x` and by no four hexadecimal digits, yet one hexadecimal
digit among the next four bytes is enough for line 571 to accept it.  The name `bad\x` of
the spec's scenario is rejected in `{"bad\x": 1}` but accepted in `{"bad\x":1}`: the four
bytes read run over the end of the name, here onto the digit `1`. -/
theorem name_check_accepts_bad_escapes :
    (∀ fuel : Nat, ∃ st root,
      zplj_parse (fuel + 4) (cstring "\x7b\"a\\xb\": 1\x7d") false (some zplj_error_none_ev) =
        Except.ok (st, root) ∧
      st.err = some zplj_error_none_ev) ∧
    (∀ fuel : Nat, ∃ st root,
      zplj_parse (fuel + 4) (cstring "\x7b\"bad\\x\":1\x7d") false (some zplj_error_none_ev) =
        Except.ok (st, root) ∧
      st.err = some zplj_error_none_ev) ∧
    (∀ fuel : Nat, ∃ st root,
      zplj_parse (fuel + 4) (cstring "\x7b\"bad\\x\": 1\x7d") false (some zplj_error_none_ev) =
        Except.ok (st, root) ∧
      st.err = some zplj_error_invalid_name_ev) ∧
    zplj__validate_name (cstring "a\\xb") (some 0) = Except.ok true :=
  ⟨fun _ => ⟨_, _, rfl, rfl⟩, fun _ => ⟨_, _, rfl, rfl⟩, fun _ => ⟨_, _, rfl, rfl⟩, rfl⟩

/-! ## C7, C8, C9 -/

/-- C7 (code bug): a string literal that starts right after a block comment is altered.  In
`{/* c */"a//b": 1`, line feed, `}` the final `++p` of the loop steps over the opening quote,
the literal is not seen, and the `//` inside it is blanked as a line comment together with the
rest of the line.  The length is unchanged; the bytes at offsets 10 to 12, inside the
literal, were `//b` and are spaces. -/
theorem strip_alters_literal_after_comment :
    strip_comments_pass (cstring "\x7b/* c */\"a//b\": 1\n\x7d") =
      Except.ok (cstring "\x7b       \"a        \x7d") ∧
    (cstring "\x7b/* c */\"a//b\": 1\n\x7d").length = (cstring "\x7b       \"a        \x7d").length ∧
    (cstring "\x7b/* c */\"a//b\": 1\n\x7d")[10]? = some 47 ∧
    (cstring "\x7b       \"a        \x7d")[10]? = some 32 :=
  ⟨rfl, rfl, rfl, rfl⟩

/-- C8 (code bug): a closed block comment whose body holds a `*` is not blanked as a whole,
and bytes outside comments are changed.  In `{"a": 1, /* x*y */ "b": 2`, line feed, `}` the
scan of line 154 stops at the first `*`, so only `/* x*y` is blanked; the `*` of the closing
marker stays, and its `/` is taken for a line comment (line 163 tests `p[0]` twice), which
blanks the member `"b": 2` up to the line feed. -/
theorem strip_mishandles_star_in_comment :
    strip_comments_pass (cstring "\x7b\"a\": 1, /* x*y */ \"b\": 2\n\x7d") =
      Except.ok (cstring "\x7b\"a\": 1,        *         \x7d") :=
  rfl

/-- C9 (code bug): the stripping pass accesses bytes beyond the terminator.  The buffer is
exactly the text and its terminator, so a fault is an access beyond the terminator.  It
happens directly after a closed comment that ends the input, in an unterminated block
comment, in a line comment with no line feed, and after a line comment whose line feed ends
the input. -/
theorem strip_runs_past_terminator :
    strip_comments_pass (cstring "\x7b\"a\": 1\x7d /* x */") = Except.error Abort.fault ∧
    strip_comments_pass (cstring "\x7b\"a\": 1\x7d /* x") = Except.error Abort.fault ∧
    strip_comments_pass (cstring "\x7b\"a\": 1\x7d // x") = Except.error Abort.fault ∧
    strip_comments_pass (cstring "\x7b\"a\": 1\x7d // x\n") = Except.error Abort.fault :=
  ⟨rfl, rfl, rfl, rfl⟩

/-! ## C10 -/

/-- C10 (code bug): two places where an error does not come back as a null cursor that
stops the caller.  On the text `5` the number branch sets `invalid_value` at the terminator
and still returns the cursor 1 (line 422).  On `{[x]}` the bare array path of
`zplj__parse_object` jumps to `l_parsed` without testing the error code (line 492): the
value parser has set `invalid_value` and returned null, and the object parser goes on to
append the node and to call `zplj__trim` on the null cursor, a fault. -/
theorem error_not_propagated_as_null :
    (∀ fuel : Nat, ∃ node,
      zplj__parse_value (fuel + 1) ⟨cstring "5", some zplj_error_none_ev⟩ zero_node 0 =
        Except.ok (⟨cstring "5", some zplj_error_invalid_value_ev⟩, node, some 1)) ∧
    (∀ fuel : Nat, ∃ node,
      zplj__parse_value (fuel + 4) ⟨cstring "\x7b[x]\x7d", some zplj_error_none_ev⟩
          zero_node 1 =
        Except.ok (⟨cstring "\x7b[x]\x7d", some zplj_error_invalid_value_ev⟩, node, none)) ∧
    (∀ fuel : Nat,
      zplj_parse (fuel + 6) (cstring "\x7b[x]\x7d") false (some zplj_error_none_ev) =
        Except.error Abort.fault) :=
  ⟨fun _ => ⟨_, rfl⟩, fun _ => ⟨_, rfl⟩, fun _ => rfl⟩

/-! ## What a successful run went through -/

theorem bind_eq_ok {α β : Type} {x : Run α} {f : α → Run β} {b : β} :
    (x >>= f) = Except.ok b ↔ ∃ a, x = Except.ok a ∧ f a = Except.ok b := by
  cases x with
  | error e => simp
  | ok a => simp

theorem rd_ok {buf : List Nat} {p c : Nat} (h : rd buf p = Except.ok c) : buf[p]? = some c := by
  unfold rd at h
  split at h
  · rename_i c1 hc1
    simp at h
    rw [hc1, h]
  · simp at h

/-- A copy loop that returns has copied the longest prefix of bytes that pass the test, and
stands on a byte that fails it. -/
theorem copy_while_inv (pred : Nat → Bool) (cap : Nat) :
    ∀ (s acc : List Nat) (e : Nat) (r : List Nat × Nat),
      copy_while pred cap s acc e = Except.ok r →
      r.1 = acc ++ s.takeWhile pred ∧ r.2 = e + (s.takeWhile pred).length ∧
      ∃ t, s[(s.takeWhile pred).length]? = some t ∧ pred t = false := by
  intro s
  induction s with
  | nil =>
    intro acc e r h
    simp [copy_while] at h
  | cons x s ih =>
    intro acc e r h
    by_cases hx : pred x = true
    · simp only [copy_while, hx, if_true, bind_eq_ok] at h
      obtain ⟨s1, hpush, hrec⟩ := h
      have hs1 : s1 = acc ++ [x] := by
        unfold push at hpush
        split at hpush
        · simp at hpush
          exact hpush.symm
        · simp at hpush
      obtain ⟨h1, h2, t, h3, h4⟩ := ih s1 (e + 1) r hrec
      subst hs1
      refine ⟨by simp [h1, List.takeWhile_cons, hx], by simp [h2, List.takeWhile_cons, hx]; omega,
        t, ?_, h4⟩
      simpa [List.takeWhile_cons, hx] using h3
    · have hx' : pred x = false := by simpa using hx
      simp [copy_while, hx'] at h
      subst h
      exact ⟨by simp [List.takeWhile_cons, hx'], by simp [List.takeWhile_cons, hx'],
        x, by simp [List.takeWhile_cons, hx'], hx'⟩

theorem parse_array_loop_shape (fuel : Nat) :
    ∀ (st : St) (obj : zplj_object_t) (elems : List zplj_object_t) (p : Nat) (r : Parsed),
      parse_array_loop fuel st obj elems p = Except.ok r →
      ∃ es, r.2.1 = { obj with u := zplj_union.elements es } := by
  induction fuel with
  | zero =>
    intro st obj elems p r h
    simp [parse_array_loop] at h
  | succ fuel ih =>
    intro st obj elems p r h
    rw [parse_array_loop] at h
    simp only [bind_eq_ok] at h
    obtain ⟨c, _, h⟩ := h
    split at h
    · simp at h
      exact ⟨elems, by rw [← h]⟩
    · simp only [bind_eq_ok] at h
      obtain ⟨q, _, ⟨st1, elem, q1⟩, _, h⟩ := h
      split at h
      · simp at h
        exact ⟨elems, by rw [← h]⟩
      · simp only [bind_eq_ok] at h
        obtain ⟨p1, _, d, _, h⟩ := h
        split at h
        · exact ih _ _ _ _ _ h
        · simp at h
          exact ⟨_, by rw [← h]⟩

theorem parse_array_shape (fuel : Nat) (st : St) (obj : zplj_object_t) (p : Nat) (r : Parsed)
    (h : zplj__parse_array fuel st obj p = Except.ok r) :
    ∃ es, r.2.1 = { obj with type := zplj_type_array_ev, u := zplj_union.elements es } := by
  cases fuel with
  | zero => simp [zplj__parse_array] at h
  | succ fuel =>
    rw [zplj__parse_array] at h
    obtain ⟨es, hes⟩ := parse_array_loop_shape fuel _ _ _ _ _ h
    exact ⟨es, hes⟩

theorem parse_object_loop_shape (fuel : Nat) :
    ∀ (st : St) (obj : zplj_object_t) (nodes : List zplj_object_t) (p : Nat) (r : Parsed),
      parse_object_loop fuel st obj nodes p = Except.ok r →
      ∃ ns, r.2.1 = { obj with nodes := some ns } := by
  induction fuel with
  | zero =>
    intro st obj nodes p r h
    simp [parse_object_loop] at h
  | succ fuel ih =>
    intro st obj nodes p r h
    rw [parse_object_loop] at h
    simp only [bind_eq_ok] at h
    obtain ⟨c, _, h⟩ := h
    split at h
    · simp at h
      exact ⟨nodes, by rw [← h]⟩
    · simp only [bind_eq_ok] at h
      obtain ⟨p1, _, c1, _, h⟩ := h
      split at h
      · simp at h
        exact ⟨nodes, by rw [← h]⟩
      · simp only [bind_eq_ok] at h
        obtain ⟨s, _, h⟩ := h
        cases s with
        | inl st1 =>
          simp at h
          exact ⟨nodes, by rw [← h]⟩
        | inr v =>
          obtain ⟨st1, node, q⟩ := v
          simp only [bind_eq_ok] at h
          obtain ⟨⟨st2, nx⟩, _, h⟩ := h
          cases nx with
          | continue_at p2 => exact ih _ _ _ _ _ h
          | ret q2 =>
            simp at h
            exact ⟨_, by rw [← h]⟩

theorem parse_object_shape (fuel : Nat) (st : St) (obj : zplj_object_t) (p : Nat) (r : Parsed)
    (h : zplj__parse_object fuel st obj p = Except.ok r) :
    ∃ ns, r.2.1 = { obj with nodes := some ns } := by
  cases fuel with
  | zero => simp [zplj__parse_object] at h
  | succ fuel =>
    rw [zplj__parse_object] at h
    simp only [bind_eq_ok] at h
    obtain ⟨p1, _, c, _, h⟩ := h
    exact parse_object_loop_shape fuel _ _ _ _ _ h

/-! ## The node a branch of the value parser returns -/

theorem parse_string_shape (st : St) (obj : zplj_object_t) (p c : Nat) (r : Parsed)
    (h : parse_string st obj p c = Except.ok r) :
    r.2.1 = { obj with type := zplj_type_string_ev, u := zplj_union.string (p + 1) } := by
  simp only [parse_string, bind_eq_ok] at h
  obtain ⟨_, _, _, _, h⟩ := h
  simp at h
  rw [← h]

theorem parse_multistring_shape (st : St) (obj : zplj_object_t) (p : Nat) (r : Parsed)
    (h : parse_multistring st obj p = Except.ok r) :
    r.2.1 = { obj with type := zplj_type_multistring_ev, u := zplj_union.string (p + 1) } := by
  simp only [parse_multistring, bind_eq_ok] at h
  obtain ⟨_, _, _, _, h⟩ := h
  simp at h
  rw [← h]

theorem parse_constant_shape (st : St) (obj : zplj_object_t) (p : Nat) (r : Parsed)
    (h : parse_constant st obj p = Except.ok r) :
    ∃ t u, r.2.1 = { obj with type := t, u := u } ∧
      (t = zplj_type_constant_ev ∨ t = zplj_type_real_ev) ∧
      (u = obj.u ∨ (∃ c, u = zplj_union.constant c) ∨ ∃ x, u = zplj_union.real x) := by
  simp only [parse_constant, bind_eq_ok] at h
  obtain ⟨b1, _, h⟩ := h
  split at h
  · simp at h
    exact ⟨_, _, by rw [← h], Or.inl rfl, Or.inr (Or.inl ⟨_, rfl⟩)⟩
  simp only [bind_eq_ok] at h
  obtain ⟨b2, _, h⟩ := h
  split at h
  · simp at h
    exact ⟨_, _, by rw [← h], Or.inl rfl, Or.inr (Or.inl ⟨_, rfl⟩)⟩
  simp only [bind_eq_ok] at h
  obtain ⟨b3, _, h⟩ := h
  split at h
  · simp at h
    exact ⟨_, _, by rw [← h], Or.inl rfl, Or.inr (Or.inl ⟨_, rfl⟩)⟩
  simp only [bind_eq_ok] at h
  obtain ⟨b4, _, h⟩ := h
  split at h
  · simp at h
    exact ⟨_, _, by rw [← h], Or.inr rfl, Or.inr (Or.inr ⟨_, rfl⟩)⟩
  simp only [bind_eq_ok] at h
  obtain ⟨b5, _, h⟩ := h
  split at h
  · simp at h
    exact ⟨_, _, by rw [← h], Or.inr rfl, Or.inr (Or.inr ⟨_, rfl⟩)⟩
  simp only [bind_eq_ok] at h
  obtain ⟨b6, _, h⟩ := h
  split at h
  · simp at h
    exact ⟨_, _, by rw [← h], Or.inr rfl, Or.inr (Or.inr ⟨_, rfl⟩)⟩
  simp only [bind_eq_ok] at h
  obtain ⟨b7, _, h⟩ := h
  split at h
  · simp at h
    exact ⟨_, _, by rw [← h], Or.inr rfl, Or.inr (Or.inr ⟨_, rfl⟩)⟩
  · simp at h
    exact ⟨_, _, by rw [← h], Or.inl rfl, Or.inl rfl⟩

/-- What a returning run of the number branch went through: `c0` is the byte at `p`, the
run of line 358 starts at `e0` with the scratch text `sign`. -/
theorem parse_number_inv (st : St) (obj : zplj_object_t) (p : Nat) (r : Parsed)
    (h : parse_number st obj p = Except.ok r) :
    (∃ x, r.2.1 = { obj with type := zplj_type_real_ev, u := zplj_union.real x }) ∨
    ∃ c0 e0 sign t,
      st.buf[p]? = some c0 ∧
      ((c0 = 43 ∧ e0 = p + 1 ∧ sign = []) ∨ (c0 = 45 ∧ e0 = p + 1 ∧ sign = [45]) ∨
        (c0 ≠ 43 ∧ c0 ≠ 45 ∧ e0 = p ∧ sign = [])) ∧
      st.buf[e0 + ((st.buf.drop e0).takeWhile is_run_char).length]? = some t ∧
      is_run_char t = false ∧
      r.2.1 = { obj with type := zplj_type_integer_ev,
                         u := zplj_union.integer
                           (zpl_str_to_i64 (sign ++ (st.buf.drop e0).takeWhile is_run_char) 0)
                           false 0 } ∧
      r.2.2 = some (e0 + ((st.buf.drop e0).takeWhile is_run_char).length) := by
  simp only [parse_number, bind_eq_ok] at h
  obtain ⟨c0, hc0, ⟨scr0, e0⟩, hsign, c1, hc1, ⟨isr, scr1, e1⟩, hrun, c3, hc3,
    ⟨exp, tenth, e3⟩, hexp, c5, hc5, text, htext, hfin⟩ := h
  simp only at hc1 hrun hc3 hexp hc5 htext hfin
  by_cases hisr : isr = true
  · left
    simp [hisr] at hfin
    exact ⟨_, by rw [← hfin]⟩
  · right
    have hisr' : isr = false := by simpa using hisr
    subst hisr'
    -- the sign
    have hs : (c0 = 43 ∧ e0 = p + 1 ∧ scr0 = []) ∨ (c0 = 45 ∧ e0 = p + 1 ∧ scr0 = [45]) ∨
        (c0 ≠ 43 ∧ c0 ≠ 45 ∧ e0 = p ∧ scr0 = []) := by
      by_cases h43 : c0 = 43
      · simp [h43] at hsign
        exact Or.inl ⟨h43, hsign.2.symm, hsign.1⟩
      · by_cases h45 : c0 = 45
        · subst h45
          simp [push] at hsign
          exact Or.inr (Or.inl ⟨rfl, hsign.2.symm, hsign.1.symm⟩)
        · simp [h43, h45] at hsign
          exact Or.inr (Or.inr ⟨h43, h45, hsign.2.symm, hsign.1⟩)
    -- the run
    by_cases h46 : c1 = 46
    · simp only [h46, if_true, bind_eq_ok] at hrun
      obtain ⟨_, _, _, _, hrun⟩ := hrun
      simp at hrun
    · simp only [h46, if_false, bind_eq_ok] at hrun
      obtain ⟨⟨s, e⟩, hcw, c2, hc2, hrun⟩ := hrun
      simp only at hc2 hrun
      by_cases h246 : c2 = 46
      · simp only [h246, if_true, bind_eq_ok] at hrun
        obtain ⟨_, _, _, _, hrun⟩ := hrun
        simp at hrun
      · simp [h246] at hrun
        obtain ⟨rfl, rfl⟩ := hrun
        obtain ⟨i1, i2, t, i3, i4⟩ := copy_while_inv is_run_char 16 _ _ _ _ hcw
        simp only at i1 i2
        have ht : st.buf[e0 + ((st.buf.drop e0).takeWhile is_run_char).length]? = some t := by
          rw [← i3, List.getElem?_drop]
        have hc3' := rd_ok hc3
        rw [i2, ht] at hc3'
        have htc : c3 = t := by simpa using hc3'.symm
        subst htc
        have hne : ¬ (c3 = 101 ∨ c3 = 69) := by
          intro hh
          rcases hh with hh | hh <;> subst hh <;> simp [is_run_char, zpl_char_is_hex_digit] at i4
        simp [hne] at hexp
        obtain ⟨rfl, rfl, rfl⟩ := hexp
        have htx : text = s := by
          unfold scratch_text at htext
          split at htext
          · simp at htext
            exact htext.symm
          · simp at htext
        subst htx
        simp at hfin
        refine ⟨c0, e0, scr0, c3, rd_ok hc0, ?_, ht, i4, ?_, ?_⟩
        · rcases hs with ⟨a, b, c⟩ | ⟨a, b, c⟩ | ⟨a, b, c, d⟩
          · exact Or.inl ⟨a, b, c⟩
          · exact Or.inr (Or.inl ⟨a, b, c⟩)
          · exact Or.inr (Or.inr ⟨a, b, c, d⟩)
        · rw [← hfin, i1]
        · rw [← hfin, i2]

/-! ## Names in the trees the parsers build -/

theorem names_ok_leaf (obj : zplj_object_t) (t : zplj_type_e) (u : zplj_union zplj_object_t)
    (hn : obj.nodes = none) (ht : t ≠ zplj_type_array_ev)
    (hu : ∀ es, u ≠ zplj_union.elements es) :
    NamesOk { obj with type := t, u := u } := by
  refine NamesOk.mk _ ?_ ?_ ?_ ?_ ?_ ?_
  · intro ns h
    simp [hn] at h
  · intro ns h
    simp [hn] at h
  · intro es h
    exact absurd h (hu es)
  · intro es h
    exact absurd h (hu es)
  · intro es h
    exact absurd h (hu es)
  · intro h
    exact absurd h ht

theorem names_ok_inv {n : zplj_object_t} (h : NamesOk n) :
    (∀ ns, n.nodes = some ns → n.type = zplj_type_object_ev ∧ ∀ c ∈ ns, NamesOk c) ∧
    (∀ es, n.u = zplj_union.elements es →
      n.type = zplj_type_array_ev ∧ ∀ c ∈ es, c.name = none ∧ NamesOk c) ∧
    (n.type = zplj_type_array_ev → ∃ es, n.u = zplj_union.elements es) := by
  cases h with
  | mk _ h1 h2 h3 h4 h5 h6 =>
    exact ⟨fun ns h => ⟨h1 ns h, h2 ns h⟩,
      fun es h => ⟨h3 es h, fun c hc => ⟨h4 es h c hc, h5 es h c hc⟩⟩, h6⟩

theorem parse_number_shape (st : St) (obj : zplj_object_t) (p : Nat) (r : Parsed)
    (h : parse_number st obj p = Except.ok r) :
    ∃ t u, r.2.1 = { obj with type := t, u := u } ∧ t ≠ zplj_type_array_ev ∧
      ∀ es, u ≠ zplj_union.elements es := by
  rcases parse_number_inv _ _ _ _ h with ⟨x, hx⟩ | ⟨_, _, _, _, _, _, _, _, gn, _⟩
  · exact ⟨_, _, hx, by simp, by simp⟩
  · exact ⟨_, _, gn, by simp, by simp⟩

/-- The node the member name paths hand on is zero-initialised but for its name. -/
theorem parse_name_fresh (st : St) (p c : Nat) (st1 : St) (node : zplj_object_t) (p1 : Nat)
    (h : parse_name st zero_node p c = Except.ok (NameStep.named st1 node p1)) :
    node.type = zplj_type_object_ev ∧ node.nodes = none ∧ node.u = zplj_union.zero := by
  unfold parse_name at h
  split at h
  · simp only [bind_eq_ok] at h
    obtain ⟨_, _, _, _, _, _, _, _, h⟩ := h
    split at h
    · simp at h
    · simp at h
      rw [← h.2.1]
      exact ⟨rfl, rfl, rfl⟩
  · split at h
    · simp only [bind_eq_ok] at h
      obtain ⟨_, _, _, _, _, _, _, _, h⟩ := h
      simp at h
      rw [← h.2.1]
      exact ⟨rfl, rfl, rfl⟩
    · simp at h
      rw [← h.2.1]
      exact ⟨rfl, rfl, rfl⟩

theorem names_ok_array (obj : zplj_object_t) (es : List zplj_object_t)
    (hn : obj.nodes = none) (hes : ∀ c ∈ es, c.name = none ∧ NamesOk c) :
    NamesOk { obj with type := zplj_type_array_ev, u := zplj_union.elements es } := by
  refine NamesOk.mk _ ?_ ?_ ?_ ?_ ?_ ?_
  · intro ns h
    simp [hn] at h
  · intro ns h
    simp [hn] at h
  · intro _ _
    rfl
  · intro es1 h c hc
    simp at h
    subst h
    exact (hes c hc).1
  · intro es1 h c hc
    simp at h
    subst h
    exact (hes c hc).2
  · intro _
    exact ⟨es, rfl⟩

theorem names_ok_object (obj : zplj_object_t) (ns : List zplj_object_t)
    (ht : obj.type = zplj_type_object_ev) (hu : obj.u = zplj_union.zero)
    (hns : ∀ c ∈ ns, NamesOk c) :
    NamesOk { obj with nodes := some ns } := by
  refine NamesOk.mk _ ?_ ?_ ?_ ?_ ?_ ?_
  · intro _ _
    exact ht
  · intro ns1 h c hc
    simp at h
    subst h
    exact hns c hc
  · intro es h
    simp [hu] at h
  · intro es h
    simp [hu] at h
  · intro es h
    simp [hu] at h
  · intro h
    simp [ht] at h

theorem names_ok_fresh (obj : zplj_object_t) (ht : obj.type = zplj_type_object_ev)
    (hn : obj.nodes = none) (hu : obj.u = zplj_union.zero) : NamesOk obj := by
  refine NamesOk.mk _ ?_ ?_ ?_ ?_ ?_ ?_
  · intro _ _
    exact ht
  · intro ns h
    simp [hn] at h
  · intro es h
    simp [hu] at h
  · intro es h
    simp [hu] at h
  · intro es h
    simp [hu] at h
  · intro h
    simp [ht] at h

/-- The invariant of the five parsers, by induction on the recursion bound: the value parser
keeps the name of the node it is given and returns a tree with the invariant; the array and
the object parser only add nodes with it, the array parser only nodes without a name. -/
theorem names_ok_parsers (fuel : Nat) :
    (∀ st obj p r, zplj__parse_value fuel st obj p = Except.ok r →
      obj.type = zplj_type_object_ev → obj.nodes = none → obj.u = zplj_union.zero →
      NamesOk r.2.1 ∧ r.2.1.name = obj.name) ∧
    (∀ st obj p r, zplj__parse_array fuel st obj p = Except.ok r →
      ∃ es, r.2.1 = { obj with type := zplj_type_array_ev, u := zplj_union.elements es } ∧
        ∀ c ∈ es, c.name = none ∧ NamesOk c) ∧
    (∀ st obj elems p r, parse_array_loop fuel st obj elems p = Except.ok r →
      (∀ c ∈ elems, c.name = none ∧ NamesOk c) →
      ∃ es, r.2.1 = { obj with u := zplj_union.elements es } ∧
        ∀ c ∈ es, c.name = none ∧ NamesOk c) ∧
    (∀ st obj p r, zplj__parse_object fuel st obj p = Except.ok r →
      ∃ ns, r.2.1 = { obj with nodes := some ns } ∧ ∀ c ∈ ns, NamesOk c) ∧
    (∀ st obj nodes p r, parse_object_loop fuel st obj nodes p = Except.ok r →
      (∀ c ∈ nodes, NamesOk c) →
      ∃ ns, r.2.1 = { obj with nodes := some ns } ∧ ∀ c ∈ ns, NamesOk c) := by
  induction fuel with
  | zero =>
    refine ⟨?_, ?_, ?_, ?_, ?_⟩
    · intro st obj p r h
      simp [zplj__parse_value] at h
    · intro st obj p r h
      simp [zplj__parse_array] at h
    · intro st obj elems p r h
      simp [parse_array_loop] at h
    · intro st obj p r h
      simp [zplj__parse_object] at h
    · intro st obj nodes p r h
      simp [parse_object_loop] at h
  | succ fuel ih =>
    obtain ⟨ihV, ihA, ihAL, ihO, ihOL⟩ := ih
    refine ⟨?_, ?_, ?_, ?_, ?_⟩
    · -- the value parser
      intro st obj p r h ht hn hu
      rw [zplj__parse_value] at h
      simp only [bind_eq_ok] at h
      obtain ⟨c, hc, h⟩ := h
      split at h
      · have := parse_string_shape _ _ _ _ _ h
        rw [this]
        exact ⟨names_ok_leaf obj _ _ hn (by simp) (by simp), rfl⟩
      split at h
      · have := parse_multistring_shape _ _ _ _ h
        rw [this]
        exact ⟨names_ok_leaf obj _ _ hn (by simp) (by simp), rfl⟩
      split at h
      · obtain ⟨t, u, h1, h2, h3⟩ := parse_constant_shape _ _ _ _ h
        rw [h1]
        refine ⟨names_ok_leaf obj _ _ hn ?_ ?_, rfl⟩
        · rcases h2 with h2 | h2 <;> rw [h2] <;> simp
        · intro es
          rcases h3 with h3 | ⟨_, h3⟩ | ⟨_, h3⟩ <;> rw [h3] <;> simp [hu]
      split at h
      · obtain ⟨t, u, h1, h2, h3⟩ := parse_number_shape _ _ _ _ h
        rw [h1]
        exact ⟨names_ok_leaf obj _ _ hn h2 h3, rfl⟩
      split at h
      · simp only [bind_eq_ok] at h
        obtain ⟨p1, _, d, _, h⟩ := h
        split at h
        · simp at h
          rw [← h]
          exact ⟨names_ok_fresh obj ht hn hu, rfl⟩
        · simp only [bind_eq_ok] at h
          obtain ⟨⟨st2, obj2, q2⟩, harr, h⟩ := h
          obtain ⟨es, hes, hok⟩ := ihA _ _ _ _ harr
          simp only at hes h
          have hr : r.2.1 = obj2 := by
            split at h
            · simp at h
              rw [← h]
            · simp only [bind_eq_ok] at h
              obtain ⟨_, _, h⟩ := h
              simp at h
              rw [← h]
          rw [hr, hes]
          exact ⟨names_ok_array obj es hn hok, rfl⟩
      split at h
      · simp only [bind_eq_ok] at h
        obtain ⟨p1, _, ⟨st2, obj2, q2⟩, hobj2, h⟩ := h
        obtain ⟨ns, hns, hok⟩ := ihO _ _ _ _ hobj2
        simp only at hns h
        have hr : r.2.1 = obj2 := by
          split at h
          · simp at h
            rw [← h]
          · simp only [bind_eq_ok] at h
            obtain ⟨_, _, h⟩ := h
            simp at h
            rw [← h]
        rw [hr, hns]
        exact ⟨names_ok_object obj ns ht hu hok, rfl⟩
      · simp at h
        rw [← h]
        exact ⟨names_ok_fresh obj ht hn hu, rfl⟩
    · -- the array parser
      intro st obj p r h
      rw [zplj__parse_array] at h
      obtain ⟨es, hes, hok⟩ := ihAL _ _ _ _ _ h (by simp)
      exact ⟨es, hes, hok⟩
    · -- the array loop
      intro st obj elems p r h helems
      rw [parse_array_loop] at h
      simp only [bind_eq_ok] at h
      obtain ⟨c, _, h⟩ := h
      split at h
      · simp at h
        exact ⟨elems, by rw [← h], helems⟩
      · simp only [bind_eq_ok] at h
        obtain ⟨q, _, ⟨st1, elem, q1⟩, hv, h⟩ := h
        obtain ⟨hok, hname⟩ := ihV _ _ _ _ hv rfl rfl rfl
        simp only at hok hname h
        split at h
        · simp at h
          exact ⟨elems, by rw [← h], helems⟩
        · simp only [bind_eq_ok] at h
          obtain ⟨p1, _, d, _, h⟩ := h
          have helems1 : ∀ c ∈ elems ++ [elem], c.name = none ∧ NamesOk c := by
            intro c hc
            rcases List.mem_append.1 hc with hc | hc
            · exact helems c hc
            · simp at hc
              subst hc
              exact ⟨hname, hok⟩
          split at h
          · exact ihAL _ _ _ _ _ h helems1
          · simp at h
            exact ⟨_, by rw [← h], helems1⟩
    · -- the object parser
      intro st obj p r h
      rw [zplj__parse_object] at h
      simp only [bind_eq_ok] at h
      obtain ⟨p1, _, c, _, h⟩ := h
      exact ihOL _ _ _ _ _ h (by simp)
    · -- the object loop
      intro st obj nodes p r h hnodes
      rw [parse_object_loop] at h
      simp only [bind_eq_ok] at h
      obtain ⟨c, _, h⟩ := h
      split at h
      · simp at h
        exact ⟨nodes, by rw [← h], hnodes⟩
      · simp only [bind_eq_ok] at h
        obtain ⟨p1, _, c1, _, h⟩ := h
        split at h
        · simp at h
          exact ⟨nodes, by rw [← h], hnodes⟩
        · simp only [bind_eq_ok] at h
          obtain ⟨s, hs, h⟩ := h
          have hnode : ∀ st1 node q, s = Sum.inr (st1, node, q) → NamesOk node := by
            intro st1 node q hsq
            subst hsq
            split at hs
            · simp only [bind_eq_ok] at hs
              obtain ⟨⟨st2, node2, q2⟩, hv, hs⟩ := hs
              simp at hs
              obtain ⟨_, rfl, _⟩ := hs
              exact (ihV _ _ _ _ hv rfl rfl rfl).1
            · simp only [bind_eq_ok] at hs
              obtain ⟨nm, hname, hs⟩ := hs
              cases nm with
              | ret_null st2 node2 => simp at hs
              | named st2 node2 p2 =>
                obtain ⟨f1, f2, f3⟩ := parse_name_fresh _ _ _ _ _ _ hname
                simp only [bind_eq_ok] at hs
                obtain ⟨b, _, hs⟩ := hs
                split at hs
                · simp at hs
                · simp only [bind_eq_ok] at hs
                  obtain ⟨p3, _, ⟨st3, node3, q3⟩, hv, hs⟩ := hs
                  simp only at hs
                  split at hs
                  · simp at hs
                  · simp at hs
                    obtain ⟨_, rfl, _⟩ := hs
                    exact (ihV _ _ _ _ hv f1 f2 f3).1
          cases s with
          | inl st1 =>
            simp at h
            exact ⟨nodes, by rw [← h], hnodes⟩
          | inr v =>
            obtain ⟨st1, node, q⟩ := v
            have hok := hnode st1 node q rfl
            have hnodes1 : ∀ c ∈ nodes ++ [node], NamesOk c := by
              intro c hc
              rcases List.mem_append.1 hc with hc | hc
              · exact hnodes c hc
              · simp at hc
                subst hc
                exact hok
            simp only [bind_eq_ok] at h
            obtain ⟨⟨st2, nx⟩, _, h⟩ := h
            cases nx with
            | continue_at p2 => exact ihOL _ _ _ _ _ h hnodes1
            | ret q2 =>
              simp at h
              exact ⟨_, by rw [← h], hnodes1⟩

theorem names_ok_in_tree {root n : zplj_object_t} (hroot : NamesOk root)
    (hn : InTree root n) : NamesOk n := by
  induction hn with
  | root => exact hroot
  | step m c _ hc ih =>
    obtain ⟨h1, h2, _⟩ := names_ok_inv ih
    cases hc with
    | member ns _ hns hmem => exact (h1 ns hns).2 c hmem
    | element es _ hes hmem => exact ((h2 es hes).2 c hmem).2

/-! ## The scratch arrays of the number branch -/

theorem copy_while_overflow (pred : Nat → Bool) (cap : Nat) (ds : List Nat) (s acc : List Nat)
    (e : Nat) (hds : ∀ d ∈ ds, pred d = true) (hacc : acc.length ≤ cap)
    (hcap : cap < acc.length + ds.length) :
    copy_while pred cap (ds ++ s) acc e = Except.error Abort.fault := by
  induction ds generalizing acc e with
  | nil => simp at hcap; omega
  | cons d ds ih =>
    have hd := hds d (by simp)
    by_cases hlen : acc.length < cap
    · have := ih (acc ++ [d]) (e + 1) (fun x hx => hds x (by simp [hx]))
        (by simp; omega) (by simp at hcap ⊢; omega)
      simp [copy_while, hd, push, hlen, this]
    · simp [copy_while, hd, push, hlen]

/-! ## Hexadecimal integers -/

theorem scan_digits_hex (hs : List Nat) (acc : Nat)
    (hhs : ∀ h ∈ hs, zpl_char_is_hex_digit h = true) :
    scan_digits 16 hs acc = hs.foldl (fun a d => a * 16 + hex_value d) acc := by
  induction hs generalizing acc with
  | nil => simp [scan_digits]
  | cons h hs ih =>
    have hh := hhs h (by simp)
    have ih1 := fun a => ih a (fun x hx => hhs x (by simp [hx]))
    by_cases hd : zpl_char_is_digit h = true
    · have hd1 : 48 ≤ h ∧ h ≤ 57 := by simpa [zpl_char_is_digit] using hd
      have hv : hex_value h = h - 48 := by simp [hex_value, hd1.2]
      simp [scan_digits, hd, ih1, hv]
    · have hd1 : ¬ (48 ≤ h ∧ h ≤ 57) := by simpa [zpl_char_is_digit] using hd
      have hh1 : (97 ≤ h ∧ h ≤ 102) ∨ (65 ≤ h ∧ h ≤ 70) := by
        simp [zpl_char_is_hex_digit, zpl_char_is_digit] at hh
        omega
      have hv : zpl_hex_digit_to_int h = hex_value h := by
        rcases hh1 with h1 | h1
        · have e1 : ¬ h ≤ 57 := by omega
          have e2 : ¬ h ≤ 70 := by omega
          simp [zpl_hex_digit_to_int, hex_value, hd, h1.1, h1.2, e1, e2]
          omega
        · have e1 : ¬ h ≤ 57 := by omega
          have e3 : ¬ (97 ≤ h ∧ h ≤ 102) := by omega
          simp [zpl_hex_digit_to_int, hex_value, hd, h1.1, h1.2, e1, e3]
          omega
      simp [scan_digits, hd, hh, ih1, hv]

theorem str_to_i64_hex (hs : List Nat) (hne : 1 ≤ hs.length)
    (hhs : ∀ h ∈ hs, zpl_char_is_hex_digit h = true) :
    zpl_str_to_i64 (48 :: 120 :: hs) 0 = (hexadecimal hs : Int) := by
  have hl : 0 < hs.length := by omega
  have hn : hs ≠ [] := by
    intro h; subst h; simp at hne
  simp [zpl_str_to_i64, zpl__scan_i64, hl, hn, scan_digits_hex hs 0 hhs, hexadecimal]

/-! ## Quoted strings -/

theorem blank_cons_ne (x : Nat) (s : List Nat) (hx : x ≠ 92) :
    blank_continuations (x :: s) = x :: blank_continuations s := by
  cases s with
  | nil => simp [blank_continuations]
  | cons y s => simp [blank_continuations, hx]

theorem blank_length (s : List Nat) : (blank_continuations s).length = s.length := by
  induction s with
  | nil => simp [blank_continuations]
  | cons x s ih =>
    cases s with
    | nil => simp [blank_continuations]
    | cons y s => simp [blank_continuations] at ih ⊢; exact ih

theorem blank_nonzero (s : List Nat) (hs : ∀ c ∈ s, c ≠ 0) :
    ∀ c ∈ blank_continuations s, c ≠ 0 := by
  induction s with
  | nil => simp [blank_continuations]
  | cons x s ih =>
    have hx := hs x (by simp)
    have ih1 := ih (fun c hc => hs c (by simp [hc]))
    cases s with
    | nil => simpa [blank_continuations] using hx
    | cons y s =>
      intro c hc
      simp only [blank_continuations, List.mem_cons] at hc
      rcases hc with h | h
      · subst h
        split <;> simp [hx]
      · exact ih1 c (by simpa using h)

theorem string_body_nonzero (q : Nat) (hq0 : q ≠ 0) (n : Nat) :
    ∀ body : List Nat, body.length ≤ n → string_body q body = true → ∀ c ∈ body, c ≠ 0 := by
  induction n with
  | zero =>
    intro body hl _ c hc
    have : body = [] := List.length_eq_zero.mp (by omega)
    subst this
    simp at hc
  | succ n ih =>
    intro body hl hb
    match body, hl, hb with
    | [], _, _ => simp
    | [x], _, hb =>
      simp [string_body] at hb
      simp [hb.1.1]
    | x :: y :: s, hl, hb =>
      simp only [string_body, Bool.and_eq_true, bne_iff_ne, ne_eq] at hb
      obtain ⟨⟨hx0, hxq⟩, hrest⟩ := hb
      by_cases hpair : x = 92 ∧ y = q
      · obtain ⟨rfl, rfl⟩ := hpair
        simp at hrest
        have hs := ih s (by simp at hl; omega) hrest
        intro c hc
        simp at hc
        rcases hc with h | h | h
        · subst h; exact hx0
        · subst h; exact hq0
        · exact hs c h
      · have hrest1 : string_body q (y :: s) = true := by
          simpa [hpair] using hrest
        have hs := ih (y :: s) (by simp at hl ⊢; omega) hrest1
        intro c hc
        simp only [List.mem_cons] at hc
        rcases hc with h | h
        · subst h; exact hx0
        · exact hs c (by simpa using h)

/-- The scan of the string branch on a body and its closing quote: it stops on the closing
quote, having blanked the line continuations. -/
theorem string_scan_body (q : Nat) (hq : q = 34 ∨ q = 39) (suf : List Nat) (n : Nat) :
    ∀ (body pre : List Nat) (e : Nat), body.length ≤ n → e = pre.length →
      string_body q body = true →
      string_scan q (body ++ q :: suf) (pre ++ (body ++ q :: suf)) e =
        Except.ok (pre ++ (blank_continuations body ++ q :: suf), e + body.length) := by
  have hq0 : q ≠ 0 := by rcases hq with h | h <;> subst h <;> decide
  have hq92 : q ≠ 92 := by rcases hq with h | h <;> subst h <;> decide
  induction n with
  | zero =>
    intro body pre e hl he _
    have : body = [] := List.length_eq_zero.mp (by omega)
    subst this
    rw [List.nil_append, string_scan.eq_def]
    simp [hq0, hq92, blank_continuations]
  | succ n ih =>
    intro body pre e hl he hb
    match body, hl, hb with
    | [], _, _ =>
      rw [List.nil_append, string_scan.eq_def]
      simp [hq0, hq92, blank_continuations]
    | [x], _, hb =>
      simp [string_body] at hb
      obtain ⟨⟨hx0, hxq⟩, hx92⟩ := hb
      have h1 : string_scan q (q :: suf) (pre ++ ([x] ++ q :: suf)) (e + 1) =
          Except.ok (pre ++ ([x] ++ q :: suf), e + 1) := by
        rw [string_scan.eq_def]
        simp [hq0, hq92]
      rw [List.cons_append, string_scan.eq_def]
      simp only [List.nil_append, List.cons_append] at h1
      simp [hx0, hxq, hx92, h1, blank_continuations]
    | x :: y :: s, hl, hb =>
      simp only [string_body, Bool.and_eq_true, bne_iff_ne, ne_eq] at hb
      obtain ⟨⟨hx0, hxq⟩, hrest⟩ := hb
      by_cases hpair : x = 92 ∧ y = q
      · obtain ⟨rfl, rfl⟩ := hpair
        simp at hrest
        have h1 := ih s (pre ++ [92, y]) (e + 2) (by simp at hl; omega) (by simp; omega) hrest
        rw [List.cons_append, List.cons_append, string_scan.eq_def]
        simp only [List.append_assoc, List.cons_append, List.nil_append] at h1
        have hbr : ¬ (y = 13 ∨ y = 10) := by
          rcases hq with h | h <;> subst h <;> decide
        simp [h1, blank_continuations, blank_cons_ne y s hq92, hq92, hbr]
        omega
      · have hrest1 : string_body q (y :: s) = true := by
          simpa [hpair] using hrest
        by_cases hx92 : x = 92
        · subst hx92
          have hyq : y ≠ q := fun h => hpair ⟨rfl, h⟩
          by_cases hbr : y = 13 ∨ y = 10
          · have h1 := ih (y :: s) (pre ++ [32]) (e + 1) (by simp at hl ⊢; omega)
              (by simp; omega) hrest1
            have hset : (pre ++ 92 :: (y :: (s ++ q :: suf))).set e 32 =
                pre ++ 32 :: (y :: (s ++ q :: suf)) := by
              subst he
              simp
            rw [List.cons_append, List.cons_append, string_scan.eq_def]
            simp only [List.append_assoc, List.cons_append, List.nil_append] at h1
            simp [hyq, hbr, hset, h1, blank_continuations]
            omega
          · have h1 := ih (y :: s) (pre ++ [92]) (e + 1) (by simp at hl ⊢; omega)
              (by simp; omega) hrest1
            rw [List.cons_append, List.cons_append, string_scan.eq_def]
            simp only [List.append_assoc, List.cons_append, List.nil_append] at h1
            simp [hyq, hbr, h1, blank_continuations, hq92.symm]
            omega
        · have h1 := ih (y :: s) (pre ++ [x]) (e + 1) (by simp at hl ⊢; omega)
            (by simp; omega) hrest1
          rw [List.cons_append, List.cons_append, string_scan.eq_def]
          simp only [List.append_assoc, List.cons_append, List.nil_append] at h1
          simp [hx0, hxq, hx92, h1, blank_continuations]
          omega

/-! ## Unquoted member names -/

theorem ident_scan_stop (cs : List Nat) (t : Nat) (s : List Nat) (e : Nat)
    (hcs : ∀ c ∈ cs, zpl_char_is_alphanumeric c = true)
    (ht : zpl_char_is_alphanumeric t = false) :
    ident_scan (cs ++ t :: s) e = Except.ok (e + cs.length) := by
  induction cs generalizing e with
  | nil => simp [ident_scan, ht]
  | cons x cs ih =>
    have hx := hcs x (by simp)
    have hx' : x ≠ 0 ∧ zpl_char_is_space x = false ∧ x ≠ 58 := by
      simp only [zpl_char_is_alphanumeric, zpl_char_is_alpha, zpl_char_is_digit,
        Bool.or_eq_true, Bool.and_eq_true, decide_eq_true_eq] at hx
      refine ⟨by omega, ?_, by omega⟩
      simp [zpl_char_is_space]
      omega
    have := ih (e + 1) (fun c hc => hcs c (by simp [hc]))
    simp [ident_scan, hx, hx'.1, hx'.2.1, hx'.2.2, this]
    omega

theorem skip_scan_colon (ms : List Nat) (s : List Nat) (prev : Option Nat) (p : Nat)
    (hms : ∀ c ∈ ms, c ≠ 0 ∧ c ≠ 58) (hprev : prev ≠ none) :
    skip_scan 58 prev (ms ++ 58 :: s) p = Except.ok (p + ms.length) := by
  induction ms generalizing prev p with
  | nil =>
    cases prev with
    | none => exact absurd rfl hprev
    | some pv => simp [skip_scan, zplj__is_control_char]
  | cons x ms ih =>
    obtain ⟨hx0, hx1⟩ := hms x (by simp)
    have := ih (some x) (p + 1) (fun c hc => hms c (by simp [hc])) (by simp)
    simp [skip_scan, hx0, hx1, this]
    omega

/-! ## C11 -/

/-- C11 (code bug): documents with an unclosed value on which `zplj_parse` does not end with
`invalid_value`.  On `{"a": [1}` the parse ends with error code none, member `a` being the
Array of the Integer 1: the array loop ends at any byte that is no `,`, and the `++p` of
line 433 steps over the `}` where a `]` is expected.  On `{"a": "abc`, `{"a": [true` and
`{"a": {"b": true` the value parser returns a cursor one past the terminator, and the next
read lies outside the buffer. -/
theorem unclosed_values_not_reported :
    (∃ st root,
      (∀ fuel : Nat,
        zplj_parse (fuel + 7) (cstring "\x7b\"a\": [1\x7d") false (some zplj_error_none_ev) =
          Except.ok (st, root)) ∧
      st.err = some zplj_error_none_ev ∧
      root.nodes = some [⟨zplj_name_style_double_quote_ev, some 2, zplj_type_array_ev, none,
        zplj_union.elements [⟨zplj_name_style_double_quote_ev, none, zplj_type_integer_ev,
          none, zplj_union.integer 1 false 0⟩]⟩]) ∧
    (∀ fuel : Nat,
      zplj_parse (fuel + 4) (cstring "\x7b\"a\": \"abc") false (some zplj_error_none_ev) =
        Except.error Abort.fault) ∧
    (∀ fuel : Nat,
      zplj_parse (fuel + 7) (cstring "\x7b\"a\": [true") false (some zplj_error_none_ev) =
        Except.error Abort.fault) ∧
    (∀ fuel : Nat,
      zplj_parse (fuel + 7) (cstring "\x7b\"a\": \x7b\"b\": true") false
        (some zplj_error_none_ev) = Except.error Abort.fault) :=
  ⟨⟨_, _, fun _ => rfl, rfl, rfl⟩, fun _ => rfl, fun _ => rfl, fun _ => rfl⟩

/-! ## C12 -/

/-- C12: on a value written as `0x`, then 1 to 13 hexadecimal digits `hs`, then a byte that
is no hexadecimal digit, `x`, `X`, `.` or terminator, `zplj__parse_value` leaves the state
as it is (no error is set, the buffer is unchanged), makes the node an Integer whose value is
the number `hs` denotes in base 16, with no scaling, and returns the cursor right after the
digits. -/
theorem hex_literal_is_integer (fuel : Nat) (pre hs : List Nat) (t : Nat) (suf : List Nat)
    (e : Option zplj_error_e) (base : zplj_object_t) (p : Nat) (hp : p = pre.length)
    (hne : 1 ≤ hs.length) (hlen : hs.length ≤ 13)
    (hhs : ∀ h ∈ hs, zpl_char_is_hex_digit h = true)
    (ht : zpl_char_is_hex_digit t = false) (htx : t ≠ 120 ∧ t ≠ 88 ∧ t ≠ 46 ∧ t ≠ 0) :
    zplj__parse_value (fuel + 1) ⟨pre ++ (48 :: 120 :: hs ++ t :: suf), e⟩ base p =
      Except.ok (⟨pre ++ (48 :: 120 :: hs ++ t :: suf), e⟩,
        { base with type := zplj_type_integer_ev,
                    u := zplj_union.integer (hexadecimal hs) false 0 },
        some (p + hs.length + 2)) := by
  obtain ⟨ht120, ht88, ht46, ht0⟩ := htx
  have h0 : rd (pre ++ (48 :: 120 :: hs ++ t :: suf)) p = Except.ok 48 := by
    simpa using rd_at pre 48 (120 :: hs ++ t :: suf) p hp
  have h1 : (pre ++ (48 :: 120 :: hs ++ t :: suf)).drop p = (48 :: 120 :: hs) ++ t :: suf :=
    drop_at pre _ p hp
  have hrun : ∀ x ∈ 48 :: 120 :: hs, is_run_char x = true := by
    intro x hx
    simp at hx
    rcases hx with h | h | h
    · subst h; decide
    · subst h; decide
    · simp [is_run_char, hhs x h]
  have htr : is_run_char t = false := by
    simp [is_run_char, ht, ht120, ht88]
  have ht1 : t ≠ 101 ∧ t ≠ 69 := by
    constructor <;> intro h <;> subst h <;> simp [zpl_char_is_hex_digit] at ht
  obtain ⟨ht101, ht69⟩ := ht1
  have h2 := copy_while_run is_run_char 16 (48 :: 120 :: hs) t suf [] p hrun htr
    (by simp; omega)
  have h3 : rd (pre ++ (48 :: 120 :: hs ++ t :: suf)) (p + (48 :: 120 :: hs).length) =
      Except.ok t := by
    have := rd_at (pre ++ (48 :: 120 :: hs)) t suf (p + (48 :: 120 :: hs).length)
      (by simp; omega)
    simpa using this
  have h4 : (48 :: 120 :: hs).length < 16 := by simp; omega
  have hval := str_to_i64_hex hs hne hhs
  rw [zplj__parse_value]
  simp only [h0, ok_bind, parse_number]
  simp only [List.nil_append, List.cons_append, List.length_cons] at h0 h1 h2 h3 h4
  simp [h0, h1, h2, h3, ht46, ht101, ht69, ht0, scratch_text, h4, hval, zpl_char_is_alpha,
    zpl_char_is_digit]
  omega

/-- The member value of `{h: 0x1F}` (cursor 4) is such a value: the digits `1F` denote 31,
and the whole parse ends with error code none, member `h` being the Integer 31. -/
theorem hex_literal_is_integer_witness :
    hexadecimal (bytes "1F") = 31 ∧
    zplj__parse_value 1 ⟨bytes "\x7bh: " ++ (48 :: 120 :: bytes "1F" ++ 125 :: [0]),
        some zplj_error_none_ev⟩ zero_node 4 =
      Except.ok (⟨bytes "\x7bh: " ++ (48 :: 120 :: bytes "1F" ++ 125 :: [0]),
          some zplj_error_none_ev⟩,
        { zero_node with type := zplj_type_integer_ev,
                         u := zplj_union.integer (hexadecimal (bytes "1F")) false 0 },
        some (4 + (bytes "1F").length + 2)) ∧
    (∃ st root,
      (∀ fuel : Nat,
        zplj_parse (fuel + 4) (cstring "\x7bh: 0x1F\x7d") false (some zplj_error_none_ev) =
          Except.ok (st, root)) ∧
      st.err = some zplj_error_none_ev ∧
      root.nodes = some [⟨zplj_name_style_no_quotes_ev, some 1, zplj_type_integer_ev, none,
        zplj_union.integer 31 false 0⟩]) :=
  ⟨by decide,
    hex_literal_is_integer 0 (bytes "\x7bh: ") (bytes "1F") 125 [0] (some zplj_error_none_ev)
      zero_node 4 (by decide) (by decide) (by decide) (by decide) (by decide) (by decide),
    ⟨_, _, fun _ => rfl, rfl, rfl⟩⟩

/-! ## C13 -/

/-- C13 (code bug): the parse of `{"a": ,}` ends with error code none, and its tree holds the
member `a` as a zero-initialised node: kind Object with a null children sequence.
`zplj_free` on the root then asks `zpl_array_count` of that null sequence, a fault, before
the sequence of the root is released.  The same holds for the tree of `{"a": [1, ]}`. -/
theorem free_faults_on_tree_of_clean_parse :
    (∃ st root,
      (∀ fuel : Nat,
        zplj_parse (fuel + 4) (cstring "\x7b\"a\": ,\x7d") false (some zplj_error_none_ev) =
          Except.ok (st, root)) ∧
      st.err = some zplj_error_none_ev ∧
      ∀ fuel : Nat, zplj_free (fuel + 4) root [] = Except.error Abort.fault) ∧
    (∃ st root,
      (∀ fuel : Nat,
        zplj_parse (fuel + 7) (cstring "\x7b\"a\": [1, ]\x7d") false
          (some zplj_error_none_ev) = Except.ok (st, root)) ∧
      st.err = some zplj_error_none_ev ∧
      ∀ fuel : Nat, zplj_free (fuel + 6) root [] = Except.error Abort.fault) :=
  ⟨⟨_, _, fun _ => rfl, rfl, fun _ => rfl⟩, ⟨_, _, fun _ => rfl, rfl, fun _ => rfl⟩⟩

/-! ## C14 -/

/-- C14 (code bug): two parses that end with error code none and whose tree holds a node of
kind Object with a null children sequence.  In `{"a": [1, ]}` it is the node appended for
the array position after the trailing comma; in `{"a": ,}` it is the member `a`, whose value
text was not recognised.  Both are zero-initialised nodes the value parser returned
untouched (line 446). -/
theorem object_kind_node_with_null_children :
    (∃ st root,
      (∀ fuel : Nat,
        zplj_parse (fuel + 7) (cstring "\x7b\"a\": [1, ]\x7d") false
          (some zplj_error_none_ev) = Except.ok (st, root)) ∧
      st.err = some zplj_error_none_ev ∧
      root.nodes = some [⟨zplj_name_style_double_quote_ev, some 2, zplj_type_array_ev, none,
        zplj_union.elements [⟨zplj_name_style_double_quote_ev, none, zplj_type_integer_ev,
          none, zplj_union.integer 1 false 0⟩, zero_node]⟩]) ∧
    (∃ st root,
      (∀ fuel : Nat,
        zplj_parse (fuel + 4) (cstring "\x7b\"a\": ,\x7d") false (some zplj_error_none_ev) =
          Except.ok (st, root)) ∧
      st.err = some zplj_error_none_ev ∧
      root.nodes = some [{ zero_node with name := some 2 }]) ∧
    zero_node.type = zplj_type_object_ev ∧ zero_node.nodes = none :=
  ⟨⟨_, _, fun _ => rfl, rfl, rfl⟩, ⟨_, _, fun _ => rfl, rfl, rfl⟩, rfl, rfl⟩

/-! ## C15 -/

/-- C15: in the tree of every `zplj_parse` call that returns, whatever the input and the
error code it ends with, the root has no name, and at every node of the tree: a node of kind
Array holds a sequence of elements, no element of a node has a name, and a child with a name
is a member of the sequence `nodes` of a node of kind Object. -/
theorem names_only_on_object_members (fuel : Nat) (source : List Nat) (strip : Bool)
    (err : Option zplj_error_e) (st : St) (root : zplj_object_t)
    (h : zplj_parse fuel source strip err = Except.ok (st, root)) :
    root.name = none ∧
    ∀ n, InTree root n →
      (n.type = zplj_type_array_ev → ∃ es, n.u = zplj_union.elements es) ∧
      (∀ es, n.u = zplj_union.elements es → ∀ c ∈ es, c.name = none) ∧
      (∀ c, Child n c → c.name ≠ none →
        n.type = zplj_type_object_ev ∧ ∃ ns, n.nodes = some ns ∧ c ∈ ns) := by
  simp only [zplj_parse, bind_eq_ok] at h
  obtain ⟨dest, _, ⟨st1, root1, q⟩, hobj, h⟩ := h
  simp at h
  obtain ⟨_, rfl⟩ := h
  obtain ⟨ns, hns, hok⟩ := (names_ok_parsers fuel).2.2.2.1 _ _ _ _ hobj
  simp only at hns
  have hroot : NamesOk root1 := by
    rw [hns]
    exact names_ok_object zero_node ns rfl rfl hok
  refine ⟨by rw [hns]; rfl, ?_⟩
  intro n hn
  obtain ⟨h1, h2, h3⟩ := names_ok_inv (names_ok_in_tree hroot hn)
  refine ⟨h3, fun es hes c hc => ((h2 es hes).2 c hc).1, ?_⟩
  intro c hc hname
  cases hc with
  | member ns1 _ hns1 hmem => exact ⟨(h1 ns1 hns1).1, ns1, hns1, hmem⟩
  | element es _ hes hmem => exact absurd ((h2 es hes).2 c hmem).1 hname

/-- The parse of `{"a": 1, "b": [true, false, null]}` returns a tree: its root has no name,
the members `a` and `b` have the names at 2 and 10, the three elements of `b` have none, and
the statement holds at every node of it. -/
theorem names_only_on_object_members_witness :
    ∃ st root,
      zplj_parse 20 (cstring "\x7b\"a\": 1, \"b\": [true, false, null]\x7d") false
        (some zplj_error_none_ev) = Except.ok (st, root) ∧
      root.nodes = some [⟨zplj_name_style_double_quote_ev, some 2, zplj_type_integer_ev, none,
          zplj_union.integer 1 false 0⟩,
        ⟨zplj_name_style_double_quote_ev, some 10, zplj_type_array_ev, none,
          zplj_union.elements [
            ⟨zplj_name_style_double_quote_ev, none, zplj_type_constant_ev, none,
              zplj_union.constant zplj_constant_true_ev⟩,
            ⟨zplj_name_style_double_quote_ev, none, zplj_type_constant_ev, none,
              zplj_union.constant zplj_constant_false_ev⟩,
            ⟨zplj_name_style_double_quote_ev, none, zplj_type_constant_ev, none,
              zplj_union.constant zplj_constant_null_ev⟩]⟩] ∧
      (root.name = none ∧
      ∀ n, InTree root n →
        (n.type = zplj_type_array_ev → ∃ es, n.u = zplj_union.elements es) ∧
        (∀ es, n.u = zplj_union.elements es → ∀ c ∈ es, c.name = none) ∧
        (∀ c, Child n c → c.name ≠ none →
          n.type = zplj_type_object_ev ∧ ∃ ns, n.nodes = some ns ∧ c ∈ ns)) :=
  ⟨_, _, rfl, rfl,
    names_only_on_object_members 20
      (cstring "\x7b\"a\": 1, \"b\": [true, false, null]\x7d") false
      (some zplj_error_none_ev) _ _ rfl⟩

/-! ## C16 -/

/-- C16: on a value that begins with a quote `q` (`"` or `'`), then a body of escape pairs
and other bytes, then the first `q` that belongs to no escape pair, `zplj__parse_value` makes
the node a String whose text starts right after the opening quote; that closing `q` is
overwritten with the terminator, so the text ends just before it; the only other bytes of the
buffer that change are the backslashes of the body that a line break directly follows, which
become spaces; the error slot is untouched and the returned cursor is one past the closing
quote. -/
theorem quoted_string_value (fuel : Nat) (q : Nat) (pre body suf : List Nat)
    (e : Option zplj_error_e) (base : zplj_object_t) (p : Nat) (hp : p = pre.length)
    (hq : q = 34 ∨ q = 39) (hb : string_body q body = true) :
    zplj__parse_value (fuel + 1) ⟨pre ++ q :: (body ++ q :: suf), e⟩ base p =
      Except.ok (⟨pre ++ q :: (blank_continuations body ++ 0 :: suf), e⟩,
        { base with type := zplj_type_string_ev, u := zplj_union.string (p + 1) },
        some (p + body.length + 2)) ∧
    cstr_at (pre ++ q :: (blank_continuations body ++ 0 :: suf)) (p + 1) =
      blank_continuations body ∧
    (blank_continuations body).length = body.length := by
  have hq0 : q ≠ 0 := by rcases hq with h | h <;> subst h <;> decide
  have h0 := rd_at pre q (body ++ q :: suf) p hp
  have h1 : (pre ++ q :: (body ++ q :: suf)).drop (p + 1) = body ++ q :: suf := by
    have := drop_at (pre ++ [q]) (body ++ q :: suf) (p + 1) (by simp; omega)
    simpa using this
  have h2 := string_scan_body q hq suf body.length body (pre ++ [q]) (p + 1) (Nat.le_refl _)
    (by simp; omega) hb
  have h3 : wr (pre ++ q :: (blank_continuations body ++ q :: suf)) (p + 1 + body.length) 0 =
      Except.ok (pre ++ q :: (blank_continuations body ++ 0 :: suf)) := by
    have := wr_at (pre ++ q :: blank_continuations body) q suf (p + 1 + body.length) 0
      (by simp [blank_length]; omega)
    simpa using this
  have h4 : cstr_at (pre ++ q :: (blank_continuations body ++ 0 :: suf)) (p + 1) =
      blank_continuations body := by
    have := cstr_at_mid (pre ++ [q]) (blank_continuations body) suf (p + 1) (by simp; omega)
      (blank_nonzero body (string_body_nonzero q hq0 body.length body (Nat.le_refl _) hb))
    simpa using this
  refine ⟨?_, h4, blank_length body⟩
  simp only [List.append_assoc, List.cons_append, List.nil_append] at h2
  rw [zplj__parse_value]
  simp [h0, hq, parse_string, h1, h2, h3]
  omega

/-- The member value of `{k: 'a\'b\<LF>c' }` (cursor 4) is such a value, with quote `'` and a
body that holds an escaped quote and a line continuation: the String is `a\'b <LF>c`, the
backslash before the line feed being blanked. -/
theorem quoted_string_value_witness :
    string_body 39 [97, 92, 39, 98, 92, 10, 99] = true ∧
    blank_continuations [97, 92, 39, 98, 92, 10, 99] = [97, 92, 39, 98, 32, 10, 99] ∧
    (zplj__parse_value (0 + 1)
        ⟨[123, 107, 58, 32] ++ 39 :: ([97, 92, 39, 98, 92, 10, 99] ++ 39 :: [32, 125, 0]),
          some zplj_error_none_ev⟩ zero_node 4 =
      Except.ok (⟨[123, 107, 58, 32] ++
            39 :: (blank_continuations [97, 92, 39, 98, 92, 10, 99] ++ 0 :: [32, 125, 0]),
          some zplj_error_none_ev⟩,
        { zero_node with type := zplj_type_string_ev, u := zplj_union.string (4 + 1) },
        some (4 + [97, 92, 39, 98, 92, 10, 99].length + 2)) ∧
    cstr_at ([123, 107, 58, 32] ++
        39 :: (blank_continuations [97, 92, 39, 98, 92, 10, 99] ++ 0 :: [32, 125, 0])) (4 + 1) =
      blank_continuations [97, 92, 39, 98, 92, 10, 99] ∧
    (blank_continuations [97, 92, 39, 98, 92, 10, 99]).length =
      [97, 92, 39, 98, 92, 10, 99].length) :=
  ⟨by decide, by decide,
    quoted_string_value 0 39 [123, 107, 58, 32] [97, 92, 39, 98, 92, 10, 99] [32, 125, 0]
      (some zplj_error_none_ev) zero_node 4 (by decide) (by decide) (by decide)⟩

/-! ## C17 -/

/-- C17: on an unquoted member key, written as a first byte `a` (a letter, `_` or `$`), the
maximal run `run` of alphanumeric bytes after it, then bytes `mid` that hold no `:` and no
terminator (the first of them, if any, is not alphanumeric: there the scan stops), then the
next `:`, the name path of `zplj__parse_object` records the name at the first byte, writes
the terminator over the byte where the scan stopped (so the name reads `a` and `run`), sets
the name style to no-quotes, leaves the error slot as it is and hands on the cursor of that
next `:`; the name passes `zplj__validate_name`, and the loop of `zplj__parse_object`
goes on with the value parser at the first non-blank byte after that `:`. -/
theorem unquoted_key_is_scanned (fuel : Nat) (a : Nat) (run mid pre suf : List Nat)
    (e : Option zplj_error_e) (obj : zplj_object_t) (nodes : List zplj_object_t) (p : Nat)
    (hp : p = pre.length)
    (ha : zpl_char_is_alpha a = true ∨ a = 95 ∨ a = 36)
    (hrun : ∀ c ∈ run, zpl_char_is_alphanumeric c = true)
    (hmid : ∀ c ∈ mid, c ≠ 0 ∧ c ≠ 58)
    (hstop : ∀ g, mid.head? = some g → zpl_char_is_alphanumeric g = false) :
    parse_name ⟨pre ++ a :: (run ++ (mid ++ 58 :: suf)), e⟩ zero_node p a =
      Except.ok (NameStep.named ⟨pre ++ a :: (run ++ 0 :: (mid ++ 58 :: suf).tail), e⟩
        { zero_node with name := some p, name_style := zplj_name_style_no_quotes_ev }
        (p + 1 + run.length + mid.length)) ∧
    (pre ++ a :: (run ++ (mid ++ 58 :: suf)))[p + 1 + run.length + mid.length]? = some 58 ∧
    cstr_at (pre ++ a :: (run ++ 0 :: (mid ++ 58 :: suf).tail)) p = a :: run ∧
    zplj__validate_name (pre ++ a :: (run ++ 0 :: (mid ++ 58 :: suf).tail)) (some p) =
      Except.ok true ∧
    parse_object_loop (fuel + 1) ⟨pre ++ a :: (run ++ (mid ++ 58 :: suf)), e⟩ obj nodes p =
      (do
        let p1 ← zplj__trim (pre ++ a :: (run ++ 0 :: (mid ++ 58 :: suf).tail))
          (p + 1 + run.length + mid.length + 1)
        let r ← zplj__parse_value fuel
          ⟨pre ++ a :: (run ++ 0 :: (mid ++ 58 :: suf).tail), e⟩
          { zero_node with name := some p, name_style := zplj_name_style_no_quotes_ev } p1
        if has_err r.1 then pure (r.1, { obj with nodes := some nodes }, none)
        else
          match (← member_end r.1 r.2.2) with
          | (st, Next.continue_at p2) => parse_object_loop fuel st obj (nodes ++ [r.2.1]) p2
          | (st, Next.ret q) => pure (st, { obj with nodes := some (nodes ++ [r.2.1]) }, q)) := by
  have ha' : a ≠ 0 ∧ a ≠ 34 ∧ a ≠ 39 ∧ a ≠ 92 ∧ a ≠ 125 ∧ a ≠ 91 ∧
      zpl_char_is_space a = false := by
    rcases ha with h | h | h
    · simp only [zpl_char_is_alpha, Bool.or_eq_true, Bool.and_eq_true,
        decide_eq_true_eq] at h
      refine ⟨by omega, by omega, by omega, by omega, by omega, by omega, ?_⟩
      simp [zpl_char_is_space]
      omega
    · subst h; decide
    · subst h; decide
  obtain ⟨a0, a34, a39, a92, a125, a91, asp⟩ := ha'
  -- the byte where the scan stops, and the bytes after it
  obtain ⟨t, tl, htl, ht⟩ : ∃ t tl, mid ++ 58 :: suf = t :: tl ∧
      zpl_char_is_alphanumeric t = false := by
    cases mid with
    | nil => exact ⟨58, suf, rfl, by decide⟩
    | cons g mid1 => exact ⟨g, mid1 ++ 58 :: suf, rfl, hstop g rfl⟩
  have h1 : (pre ++ a :: (run ++ (mid ++ 58 :: suf))).drop (p + 1) =
      run ++ (mid ++ 58 :: suf) := by
    have := drop_at (pre ++ [a]) (run ++ (mid ++ 58 :: suf)) (p + 1) (by simp; omega)
    simpa using this
  have h2 : ident_scan (run ++ (mid ++ 58 :: suf)) (p + 1) = Except.ok (p + 1 + run.length) := by
    rw [htl]
    exact ident_scan_stop run t tl (p + 1) hrun ht
  have h3 : rd (pre ++ a :: (run ++ (mid ++ 58 :: suf))) (p + 1 + run.length) =
      Except.ok t := by
    rw [htl]
    have := rd_at (pre ++ a :: run) t tl (p + 1 + run.length) (by simp; omega)
    simpa using this
  have h4 : wr (pre ++ a :: (run ++ (mid ++ 58 :: suf))) (p + 1 + run.length) 0 =
      Except.ok (pre ++ a :: (run ++ 0 :: (mid ++ 58 :: suf).tail)) := by
    rw [htl]
    have := wr_at (pre ++ a :: run) t tl (p + 1 + run.length) 0 (by simp; omega)
    simpa using this
  have h5 : (if t = 58 then (pure (p + 1 + run.length) : Run Nat)
      else zplj__skip (pre ++ a :: (run ++ (mid ++ 58 :: suf))) (p + 1 + run.length) 58) =
      Except.ok (p + 1 + run.length + mid.length) := by
    cases mid with
    | nil =>
      simp at htl
      simp [htl.1.symm]
    | cons g mid1 =>
      simp only [List.cons_append, List.cons.injEq] at htl
      obtain ⟨rfl, rfl⟩ := htl
      have hg := hmid g (by simp)
      have hne : p + 1 + run.length ≠ 0 := by omega
      have hd : (pre ++ a :: (run ++ (g :: mid1 ++ 58 :: suf))).drop (p + 1 + run.length) =
          (g :: mid1) ++ 58 :: suf := by
        have := drop_at (pre ++ a :: run) ((g :: mid1) ++ 58 :: suf) (p + 1 + run.length)
          (by simp; omega)
        simpa using this
      have hprev : (pre ++ a :: (run ++ (g :: mid1 ++ 58 :: suf)))[p + 1 + run.length - 1]? ≠
          none := by
        intro hn
        have := List.getElem?_eq_none_iff.mp hn
        simp at this
        omega
      simp only [hg.2, if_false, zplj__skip, hne, hd]
      exact skip_scan_colon (g :: mid1) suf _ _ hmid hprev
  have hname : parse_name ⟨pre ++ a :: (run ++ (mid ++ 58 :: suf)), e⟩ zero_node p a =
      Except.ok (NameStep.named ⟨pre ++ a :: (run ++ 0 :: (mid ++ 58 :: suf).tail), e⟩
        { zero_node with name := some p, name_style := zplj_name_style_no_quotes_ev }
        (p + 1 + run.length + mid.length)) := by
    simp only [pure_eq_ok] at h5
    simp [parse_name, a34, a39, ha, h1, h2, h3, h4, h5]
  have hcolon : (pre ++ a :: (run ++ (mid ++ 58 :: suf)))[p + 1 + run.length + mid.length]? =
      some 58 := by
    have : pre ++ a :: (run ++ (mid ++ 58 :: suf)) = (pre ++ a :: (run ++ mid)) ++ 58 :: suf := by
      simp
    have hi : p + 1 + run.length + mid.length = (pre ++ a :: (run ++ mid)).length := by
      simp; omega
    rw [this, hi, List.getElem?_append_right (Nat.le_refl _)]
    simp
  have hrun0 : ∀ c ∈ a :: run, plain_byte c := by
    intro c hc
    rcases List.mem_cons.1 hc with h | h
    · subst h; exact ⟨a0, a34, a92⟩
    · exact alnum_plain c (hrun c h)
  have hcstr : cstr_at (pre ++ a :: (run ++ 0 :: (mid ++ 58 :: suf).tail)) p = a :: run := by
    have := cstr_at_mid pre (a :: run) (mid ++ 58 :: suf).tail p hp
      (fun c hc => (hrun0 c hc).1)
    simpa using this
  have hval : zplj__validate_name (pre ++ a :: (run ++ 0 :: (mid ++ 58 :: suf).tail)) (some p) =
      Except.ok true := by
    have hd := drop_at pre (a :: (run ++ 0 :: (mid ++ 58 :: suf).tail)) p hp
    simp only [zplj__validate_name, hd]
    have := validate_scan_plain (a :: run) (mid ++ 58 :: suf).tail hrun0
    simpa using this
  refine ⟨hname, hcolon, hcstr, hval, ?_⟩
  have r0 := rd_at pre a (run ++ (mid ++ 58 :: suf)) p hp
  have r1 := trim_at_nonspace pre a (run ++ (mid ++ 58 :: suf)) p hp asp
  rw [parse_object_loop]
  simp only [r0, r1, ok_bind, a0, a125, a91, if_false, hname, hval]
  simp only [Bool.true_eq_false, if_false]
  generalize zplj__trim (pre ++ a :: (run ++ 0 :: (mid ++ 58 :: suf).tail))
    (p + 1 + run.length + mid.length + 1) = T
  cases T with
  | error x => simp
  | ok p1 =>
    simp only [ok_bind]
    generalize zplj__parse_value fuel
      ⟨pre ++ a :: (run ++ 0 :: (mid ++ 58 :: suf).tail), e⟩
      { zero_node with name := some p, name_style := zplj_name_style_no_quotes_ev } p1 = V
    cases V with
    | error x => simp
    | ok r =>
      simp only [ok_bind]
      by_cases hE : has_err r.1 = true <;> simp [hE]

/-- The document `{ab_c d : 1, $x9-y:2}` holds two such keys.  In `ab_c d :` (cursor 1) the
scan stops at the `_`: the name is `ab`, the `_` is overwritten and the cursor is on the `:`
at 8.  In `$x9-y:` (cursor 13) the name is `$x9`.  The whole parse ends with error code none
and two members, named at 1 and 13 without quotes, the Integers 1 and 2. -/
theorem unquoted_key_is_scanned_witness :
    (parse_name ⟨[123] ++ 97 :: ([98] ++ ([95, 99, 32, 100, 32] ++ 58 :: (bytes " 1, $x9-y:2\x7d" ++ [0]))),
        some zplj_error_none_ev⟩ zero_node 1 97 =
      Except.ok (NameStep.named
        ⟨[123] ++ 97 :: ([98] ++ 0 :: ([95, 99, 32, 100, 32] ++ 58 :: (bytes " 1, $x9-y:2\x7d" ++ [0])).tail),
          some zplj_error_none_ev⟩
        { zero_node with name := some 1, name_style := zplj_name_style_no_quotes_ev }
        (1 + 1 + [98].length + [95, 99, 32, 100, 32].length)) ∧
      cstr_at ([123] ++ 97 :: ([98] ++ 0 ::
        ([95, 99, 32, 100, 32] ++ 58 :: (bytes " 1, $x9-y:2\x7d" ++ [0])).tail)) 1 = 97 :: [98]) ∧
    (∃ st root,
      (∀ fuel : Nat,
        zplj_parse (fuel + 4) (cstring "\x7bab_c d : 1, $x9-y:2\x7d") false
          (some zplj_error_none_ev) = Except.ok (st, root)) ∧
      st.err = some zplj_error_none_ev ∧
      st.buf = [123, 97, 98, 0, 99, 32, 100, 32, 58, 32, 49, 44, 32, 36, 120, 57, 0, 121, 58,
        50, 125, 0] ∧
      root.nodes = some [⟨zplj_name_style_no_quotes_ev, some 1, zplj_type_integer_ev, none,
          zplj_union.integer 1 false 0⟩,
        ⟨zplj_name_style_no_quotes_ev, some 13, zplj_type_integer_ev, none,
          zplj_union.integer 2 false 0⟩]) :=
  ⟨⟨(unquoted_key_is_scanned 0 97 [98] [95, 99, 32, 100, 32] [123]
        (bytes " 1, $x9-y:2\x7d" ++ [0]) (some zplj_error_none_ev) zero_node [] 1 (by decide)
        (by decide) (by decide) (by decide) (by decide)).1,
      (unquoted_key_is_scanned 0 97 [98] [95, 99, 32, 100, 32] [123]
        (bytes " 1, $x9-y:2\x7d" ++ [0]) (some zplj_error_none_ev) zero_node [] 1 (by decide)
        (by decide) (by decide) (by decide) (by decide)).2.2.1⟩,
    ⟨_, _, fun _ => rfl, rfl, rfl, rfl⟩⟩

/-! ## C18 -/

/-- C18 (code bug): Real literals with an exponent on which the mantissa is not multiplied
`max(n - 1, 0)` times.  In `1.5e000002` the six exponent digits fill `expbuf[6]` and leave
it without a terminator when `zpl_str_to_i64` reads it; in `1.2345678901234567e+30` the
mantissa of 18 characters is written past the end of `buf[16]`; `-1.5e3` goes to the constant
branch (the test of line 291) and ends with `invalid_value`.  On literals that fit both
scratch arrays the count is `max(n - 1, 0)`: `1.5e-3` is scaled twice by 0.1, `2.5E+1` and
`3.5e0` not at all, `.5e2` once by 10. -/
theorem real_exponent_scaling_breaks :
    (∀ fuel : Nat,
      zplj_parse (fuel + 4) (cstring "\x7b\"a\": 1.5e000002\x7d") false
        (some zplj_error_none_ev) = Except.error Abort.fault) ∧
    (∀ fuel : Nat,
      zplj_parse (fuel + 4) (cstring "\x7b\"a\": 1.2345678901234567e+30\x7d") false
        (some zplj_error_none_ev) = Except.error Abort.fault) ∧
    (∃ st root,
      (∀ fuel : Nat,
        zplj_parse (fuel + 4) (cstring "\x7b\"a\": -1.5e3\x7d") false
          (some zplj_error_none_ev) = Except.ok (st, root)) ∧
      st.err = some zplj_error_invalid_value_ev ∧ root.nodes = some []) ∧
    (∃ st root,
      (∀ fuel : Nat,
        zplj_parse (fuel + 5) (cstring "\x7b\"a\": 1.5e-3, \"b\": 2.5E+1\x7d") false
          (some zplj_error_none_ev) = Except.ok (st, root)) ∧
      st.err = some zplj_error_none_ev ∧
      root.nodes = some [
        ⟨zplj_name_style_double_quote_ev, some 2, zplj_type_real_ev, none,
          zplj_union.real (F64.of_text (bytes "1.5") true 2)⟩,
        ⟨zplj_name_style_double_quote_ev, some 15, zplj_type_real_ev, none,
          zplj_union.real (F64.of_text (bytes "2.5") false 0)⟩]) ∧
    (∃ st root,
      (∀ fuel : Nat,
        zplj_parse (fuel + 5) (cstring "\x7b\"c\": 3.5e0, \"d\": .5e2\x7d") false
          (some zplj_error_none_ev) = Except.ok (st, root)) ∧
      st.err = some zplj_error_none_ev ∧
      root.nodes = some [
        ⟨zplj_name_style_double_quote_ev, some 2, zplj_type_real_ev, none,
          zplj_union.real (F64.of_text (bytes "3.5") false 0)⟩,
        ⟨zplj_name_style_double_quote_ev, some 14, zplj_type_real_ev, none,
          zplj_union.real (F64.of_text (bytes "0.5") false 1)⟩]) :=
  ⟨fun _ => rfl, fun _ => rfl, ⟨_, _, fun _ => rfl, rfl, rfl⟩,
    ⟨_, _, fun _ => rfl, rfl, rfl⟩, ⟨_, _, fun _ => rfl, rfl, rfl⟩⟩

/-! ## C19 -/

/-- C19: whenever `zplj__parse_value`, given a node that is not yet of kind Integer, returns
a node of kind Integer, the number branch ran on a run of line 358 that starts at the cursor
(or right after a `+`), and: the byte after the run is no byte of the run, so it is neither
`e` nor `E` (those and the digits belong to the run); the node holds what `zpl_str_to_i64`
makes of the whole run, with step factor 10 and zero multiplications; and the returned
cursor is right after the run, so no exponent suffix is consumed. -/
theorem integer_node_takes_whole_run (fuel : Nat) (st : St) (obj : zplj_object_t) (p : Nat)
    (st1 : St) (node : zplj_object_t) (q : Option Nat)
    (h : zplj__parse_value fuel st obj p = Except.ok (st1, node, q))
    (hobj : obj.type ≠ zplj_type_integer_ev) (hint : node.type = zplj_type_integer_ev) :
    ∃ e0 t,
      (e0 = p ∨ (st.buf[p]? = some 43 ∧ e0 = p + 1)) ∧
      st.buf[e0 + ((st.buf.drop e0).takeWhile is_run_char).length]? = some t ∧
      is_run_char t = false ∧ t ≠ 101 ∧ t ≠ 69 ∧
      (∀ c, c = 101 ∨ c = 69 ∨ zpl_char_is_digit c = true → is_run_char c = true) ∧
      node = { obj with type := zplj_type_integer_ev,
                        u := zplj_union.integer
                          (zpl_str_to_i64 ((st.buf.drop e0).takeWhile is_run_char) 0) false 0 } ∧
      q = some (e0 + ((st.buf.drop e0).takeWhile is_run_char).length) := by
  have hrunc : ∀ c, c = 101 ∨ c = 69 ∨ zpl_char_is_digit c = true → is_run_char c = true := by
    intro c hc
    rcases hc with hc | hc | hc
    · subst hc; decide
    · subst hc; decide
    · simp [is_run_char, zpl_char_is_hex_digit, hc]
  cases fuel with
  | zero => simp [zplj__parse_value] at h
  | succ fuel =>
    rw [zplj__parse_value] at h
    simp only [bind_eq_ok] at h
    obtain ⟨c, hc, h⟩ := h
    split at h
    · have := parse_string_shape _ _ _ _ _ h
      simp only at this
      rw [this] at hint
      simp at hint
    split at h
    · have := parse_multistring_shape _ _ _ _ h
      simp only at this
      rw [this] at hint
      simp at hint
    split at h
    · obtain ⟨t, u, h1, h2, _⟩ := parse_constant_shape _ _ _ _ h
      simp only at h1
      rw [h1] at hint
      simp only at hint
      rcases h2 with h2 | h2 <;> rw [h2] at hint <;> simp at hint
    rename_i hnc
    split at h
    · have hc45 : c ≠ 45 := by
        intro h45
        subst h45
        exact hnc (Or.inr ⟨rfl, by decide⟩)
      rcases parse_number_inv _ _ _ _ h with ⟨x, hx⟩ | ⟨c0, e0, sign, t, g0, gs, gt, gr, gn, gq⟩
      · simp only at hx
        rw [hx] at hint
        simp at hint
      · have hcc : c0 = c := by
          have := rd_ok hc
          rw [g0] at this
          simpa using this
        subst hcc
        have hte : t ≠ 101 ∧ t ≠ 69 := by
          constructor <;> intro hh <;> subst hh <;>
            simp [is_run_char, zpl_char_is_hex_digit] at gr
        simp only at gn gq
        rcases gs with ⟨a, b, d⟩ | ⟨a, _, _⟩ | ⟨_, _, b, d⟩
        · subst a b d
          exact ⟨p + 1, t, Or.inr ⟨g0, rfl⟩, gt, gr, hte.1, hte.2, hrunc, by simpa using gn, gq⟩
        · exact absurd a hc45
        · subst b d
          exact ⟨e0, t, Or.inl rfl, gt, gr, hte.1, hte.2, hrunc, by simpa using gn, gq⟩
    split at h
    · simp only [bind_eq_ok] at h
      obtain ⟨p1, _, d, _, h⟩ := h
      split at h
      · simp at h
        rw [← h.2.1] at hint
        exact absurd hint hobj
      · simp only [bind_eq_ok] at h
        obtain ⟨⟨st2, obj2, q2⟩, harr, h⟩ := h
        obtain ⟨es, hes⟩ := parse_array_shape _ _ _ _ _ harr
        simp only at hes h
        have hn : node = obj2 := by
          split at h
          · simp at h
            exact h.2.1.symm
          · simp only [bind_eq_ok] at h
            obtain ⟨_, _, h⟩ := h
            simp at h
            exact h.2.1.symm
        rw [hn, hes] at hint
        simp at hint
    split at h
    · simp only [bind_eq_ok] at h
      obtain ⟨p1, _, ⟨st2, obj2, q2⟩, hobj2, h⟩ := h
      obtain ⟨ns, hns⟩ := parse_object_shape _ _ _ _ _ hobj2
      simp only at hns h
      have hn : node = obj2 := by
        split at h
        · simp at h
          exact h.2.1.symm
        · simp only [bind_eq_ok] at h
          obtain ⟨_, _, h⟩ := h
          simp at h
          exact h.2.1.symm
      rw [hn, hns] at hint
      exact absurd hint hobj
    · simp at h
      rw [← h.2.1] at hint
      exact absurd hint hobj

/-- In `{"n": 1e5}` the member value (cursor 6) gives a node of kind Integer: the run is
the whole text `1e5`, the byte after it is the closing brace, the conversion of `1e5` gives
1, and the cursor returned is 9, right after the run. -/
theorem integer_node_takes_whole_run_witness :
    zplj__parse_value 1 ⟨cstring "\x7b\"n\": 1e5\x7d", some zplj_error_none_ev⟩ zero_node 6 =
      Except.ok (⟨cstring "\x7b\"n\": 1e5\x7d", some zplj_error_none_ev⟩,
        { zero_node with type := zplj_type_integer_ev, u := zplj_union.integer 1 false 0 },
        some 9) ∧
    ((cstring "\x7b\"n\": 1e5\x7d").drop 6).takeWhile is_run_char = bytes "1e5" ∧
    zpl_str_to_i64 (bytes "1e5") 0 = 1 ∧
    ∃ e0 t,
      (e0 = 6 ∨ ((cstring "\x7b\"n\": 1e5\x7d")[6]? = some 43 ∧ e0 = 6 + 1)) ∧
      (cstring "\x7b\"n\": 1e5\x7d")[e0 +
        (((cstring "\x7b\"n\": 1e5\x7d").drop e0).takeWhile is_run_char).length]? = some t ∧
      is_run_char t = false ∧ t ≠ 101 ∧ t ≠ 69 ∧
      (∀ c, c = 101 ∨ c = 69 ∨ zpl_char_is_digit c = true → is_run_char c = true) ∧
      ({ zero_node with type := zplj_type_integer_ev, u := zplj_union.integer 1 false 0 } :
          zplj_object_t) =
        { zero_node with type := zplj_type_integer_ev,
                         u := zplj_union.integer
                           (zpl_str_to_i64
                             (((cstring "\x7b\"n\": 1e5\x7d").drop e0).takeWhile is_run_char) 0)
                           false 0 } ∧
      some 9 = some (e0 +
        (((cstring "\x7b\"n\": 1e5\x7d").drop e0).takeWhile is_run_char).length) :=
  ⟨rfl, by decide, by decide,
    integer_node_takes_whole_run 1 ⟨cstring "\x7b\"n\": 1e5\x7d", some zplj_error_none_ev⟩
      zero_node 6 ⟨cstring "\x7b\"n\": 1e5\x7d", some zplj_error_none_ev⟩
      { zero_node with type := zplj_type_integer_ev, u := zplj_union.integer 1 false 0 }
      (some 9) rfl (by decide) rfl⟩

/-! ## C20 -/

/-- C20 (code bug): the number branch copies the digit run into `buf[16]` with no bound on
the index.  For every value that is a run of 16 or more decimal digits followed by a byte
that ends the run, `zplj__parse_value` leaves the bounds of the scratch array: with 17 or
more digits `buf[16]` is written, with exactly 16 the array holds no terminator when it is
read as a string. -/
theorem long_digit_run_leaves_scratch_bounds (fuel : Nat) (pre ds : List Nat) (t : Nat)
    (suf : List Nat) (e : Option zplj_error_e) (base : zplj_object_t) (p : Nat)
    (hp : p = pre.length) (hlen : 16 ≤ ds.length)
    (hds : ∀ d ∈ ds, zpl_char_is_digit d = true) (ht : is_run_char t = false) :
    zplj__parse_value (fuel + 1) ⟨pre ++ (ds ++ t :: suf), e⟩ base p =
      Except.error Abort.fault := by
  obtain ⟨d, ds1, rfl⟩ : ∃ d ds1, ds = d :: ds1 := by
    cases ds with
    | nil => simp at hlen
    | cons d ds1 => exact ⟨d, ds1, rfl⟩
  have hd : zpl_char_is_digit d = true := hds d (by simp)
  have hd' : 48 ≤ d ∧ d ≤ 57 := by simpa [zpl_char_is_digit] using hd
  have h0 : rd (pre ++ (d :: ds1 ++ t :: suf)) p = Except.ok d := by
    simpa using rd_at pre d (ds1 ++ t :: suf) p hp
  have h1 : (pre ++ (d :: ds1 ++ t :: suf)).drop p = (d :: ds1) ++ t :: suf :=
    drop_at pre _ p hp
  have hrun : ∀ x ∈ d :: ds1, is_run_char x = true := by
    intro x hx
    have := hds x hx
    simp [is_run_char, zpl_char_is_hex_digit, this]
  have ht1 : t ≠ 101 ∧ t ≠ 69 := by
    constructor <;> intro h <;> subst h <;> simp [is_run_char, zpl_char_is_hex_digit] at ht
  obtain ⟨ht101, ht69⟩ := ht1
  have a1 : d ≠ 34 := by omega
  have a2 : d ≠ 39 := by omega
  have a3 : d ≠ 96 := by omega
  have a4 : d ≠ 45 := by omega
  have a5 : d ≠ 43 := by omega
  have a6 : d ≠ 46 := by omega
  have a7 : zpl_char_is_alpha d = false := by
    simp [zpl_char_is_alpha]; omega
  rw [zplj__parse_value]
  simp only [h0, ok_bind, a1, a2, a3, a4, a7, hd, false_or, or_self, if_false, false_and,
    Bool.false_eq_true, true_or, if_true, parse_number]
  by_cases hlen16 : (d :: ds1).length = 16
  · have h2 := copy_while_run is_run_char 16 (d :: ds1) t suf [] p hrun ht (by simp at hlen16 ⊢; omega)
    have h3 : rd (pre ++ (d :: ds1 ++ t :: suf)) (p + (d :: ds1).length) = Except.ok t := by
      have := rd_at (pre ++ (d :: ds1)) t suf (p + (d :: ds1).length) (by simp; omega)
      simpa using this
    have h5 : (pre ++ (d :: ds1 ++ t :: suf)).drop (p + (d :: ds1).length) = t :: suf := by
      have := drop_at (pre ++ (d :: ds1)) (t :: suf) (p + (d :: ds1).length) (by simp; omega)
      simpa using this
    have h4 : ¬ ((d :: ds1).length < 16) := by omega
    simp only [List.nil_append, List.cons_append, List.length_cons] at h0 h1 h2 h3 h4 h5
    by_cases ht46 : t = 46
    · subst ht46
      simp [h0, h1, h2, h3, h5, a4, a5, a6, copy_fraction, push, h4]
    · simp [h0, h1, h2, h3, a4, a5, a6, ht46, ht101, ht69, scratch_text, h4]
  · have h2 := copy_while_overflow is_run_char 16 (d :: ds1) (t :: suf) [] p hrun (by simp)
      (by simp at hlen hlen16 ⊢; omega)
    simp only [List.nil_append, List.cons_append, List.length_cons] at h0 h1 h2
    simp [h0, h1, h2, a4, a5, a6]

/-- The member value of `{"a": 1234567890123456}` (cursor 6) is a run of 16 digits; the
whole parse is a fault as well, and so is the parse of `{"a": 1.5e000002}`, where the six
exponent digits fill `expbuf[6]` and leave it without a terminator. -/
theorem long_digit_run_leaves_scratch_bounds_witness :
    zplj__parse_value 1 ⟨bytes "\x7b\"a\": " ++ (bytes "1234567890123456" ++ 125 :: [0]),
        some zplj_error_none_ev⟩ zero_node 6 = Except.error Abort.fault ∧
    (∀ fuel : Nat,
      zplj_parse (fuel + 4) (cstring "\x7b\"a\": 1234567890123456\x7d") false
        (some zplj_error_none_ev) = Except.error Abort.fault) ∧
    (∀ fuel : Nat,
      zplj_parse (fuel + 4) (cstring "\x7b\"a\": 1.5e000002\x7d") false
        (some zplj_error_none_ev) = Except.error Abort.fault) :=
  ⟨long_digit_run_leaves_scratch_bounds 0 (bytes "\x7b\"a\": ") (bytes "1234567890123456") 125
      [0] (some zplj_error_none_ev) zero_node 6 (by decide) (by decide) (by decide) (by decide),
    fun _ => rfl, fun _ => rfl⟩

end ZplJson
